import Mathlib

/-!
# LDC driver (`driver/main.cpp`): pipeline coordinator and build cache

A shallow embedding of `cppmain` and of the functions it is built from
(`canDoSourceCachedBuild`, `processVersions`, `parseCommandLine`, the module
intake loop, the cache check and the stage loops), followed by theorems about
them.

Conventions of the embedding.

* The values of the command-line switches after `cl::ParseCommandLineOptions`
  are the record `Opts`; the fields of `global.params` the driver computes are
  the record `Params`.
* `global.errors`, `global.warnings` and `global.params.objfiles` are fields of
  `World`; everything else the front end and the back end keep (the modules'
  contents, the deferred queue, the cache directory) is the field `ext` of an
  arbitrary type `X`.
* The functions `cppmain` calls that are defined outside `driver/main.cpp`
  (`Module::parse`, `Module::semantic`, `attemptRecoverFromCache`, ...) are the
  fields of `Env`: arbitrary functions on `World`.
* Every call of such a function, every `error(...)`, every evaluation of
  `if (global.errors)` and every `fatal()` is appended to a trace of `Event`s,
  so that statements about what was invoked, and in which order, are statements
  about the trace.
* The build that is modelled is the one for a POSIX host (`LDC_POSIX`) and
  LLVM 3.8, with `IN_WEKA` defined and with `NDEBUG`, so that an `assert`
  expands to nothing.
-/

namespace Ldc

/-! ## Data -/

/-- The three-valued switch `cl::boolOrDefault` (the type of `opts::output_o`). -/
inductive BoolOrDefault where
  | BOU_UNSET
  | BOU_TRUE
  | BOU_FALSE
deriving DecidableEq, Repr

/-- The values of `OUTPUTFLAG`; `OUTPUTFLAGno` is the zero value. -/
inductive OutputFlag where
  | OUTPUTFLAGno
  | OUTPUTFLAGdefault
  | OUTPUTFLAGset
deriving DecidableEq, Repr

/-- The values of `BOUNDSCHECK` (the type of `opts::boundsCheck` and of
`global.params.useArrayBounds`). -/
inductive BoundsCheck where
  | BOUNDSCHECKdefault
  | BOUNDSCHECKoff
  | BOUNDSCHECKon
  | BOUNDSCHECKsafeonly
deriving DecidableEq, Repr

/-- The values of `opts::sanitize`. -/
inductive SanitizerCheck where
  | None
  | AddressSanitizer
  | MemorySanitizer
  | ThreadSanitizer
deriving DecidableEq, Repr

/-- The state of the command-line switches once `cl::ParseCommandLineOptions`
has run: the `opts::` variables `parseCommandLine` and `cppmain` read, and the
fields of `global.params` that switches store into directly (`p_` fields).
A string switch is `none` when it did not occur (`getNumOccurrences() == 0`). -/
structure Opts where
  compileOnly : Bool := false
  dontWriteObj : Bool := false
  output_o : BoolOrDefault := BoolOrDefault.BOU_UNSET
  output_bc : Bool := false
  output_ll : Bool := false
  output_s : Bool := false
  objectFile : Option String := none
  objectDir : Option String := none
  ddocDir : Option String := none
  ddocFile : Option String := none
  jsonFile : Option String := none
  hdrDir : Option String := none
  hdrFile : Option String := none
  moduleDepsFile : Option String := none
  ir2objCacheDir : String := ""
  debugArgs : List String := []
  versions : List String := []
  runargs : List String := []
  fileList : List String := []
  noDefaultLib : Bool := false
  createStaticLib : Bool := false
  createSharedLib : Bool := false
  singleObj : Bool := false
  staticFlag : Bool := false
  sonameOccurrences : Nat := 0
  mCPU : String := ""
  mAttrs : List String := []
  m32bits : Bool := false
  m64bits : Bool := false
  mArch : String := ""
  mTargetTriple : String := ""
  noAsm : Bool := false
  nonSafeBoundsChecks : Bool := true
  boundsCheck : BoundsCheck := BoundsCheck.BOUNDSCHECKdefault
  sanitize : SanitizerCheck := SanitizerCheck.None
  p_singleObj : Bool := false
  p_doDocComments : Bool := false
  p_doHdrGeneration : Bool := false
  p_doJsonGeneration : Bool := false
  p_run : Bool := false
  p_addMain : Bool := false
  p_useUnitTests : Bool := false
  p_useAssert : Bool := true
deriving Repr

/-- The fields of `global.params` that `parseCommandLine` and `cppmain` compute
and read. A `const char *` field is `none` when it is the null pointer. -/
structure Params where
  link : Bool := false
  obj : Bool := false
  singleObj : Bool := false
  objname : Option String := none
  objdir : Option String := none
  exefile : Option String := none
  docdir : Option String := none
  docname : Option String := none
  doDocComments : Bool := false
  jsonfilename : Option String := none
  doJsonGeneration : Bool := false
  hdrdir : Option String := none
  hdrname : Option String := none
  doHdrGeneration : Bool := false
  moduleDepsFile : Option String := none
  moduleDeps : Bool := false
  useCompileCache : Option String := none
  output_o : OutputFlag := OutputFlag.OUTPUTFLAGno
  output_bc : OutputFlag := OutputFlag.OUTPUTFLAGno
  output_ll : OutputFlag := OutputFlag.OUTPUTFLAGno
  output_s : OutputFlag := OutputFlag.OUTPUTFLAGno
  run : Bool := false
  addMain : Bool := false
  libfiles : List String := []
  ddocfiles : List String := []
  useInlineAsm : Bool := false
  useUnitTests : Bool := false
  useAssert : Bool := false
  useArrayBounds : BoundsCheck := BoundsCheck.BOUNDSCHECKdefault
deriving DecidableEq, Repr

/-! ## Cache eligibility: `canDoSourceCachedBuild` -/

/-- The function `canDoSourceCachedBuild()` of `driver/main.cpp`: it reads the
switches `opts::compileOnly`, `opts::dontWriteObj`, `opts::output_bc`,
`opts::output_ll`, `opts::output_s` and the fields `singleObj`,
`doDocComments`, `doJsonGeneration`, `doHdrGeneration` of `global.params`. -/
def canDoSourceCachedBuild (o : Opts) (p : Params) : Bool :=
  o.compileOnly && p.singleObj && !o.dontWriteObj &&
  !o.output_bc && !o.output_ll && !o.output_s &&
  !p.doDocComments && !p.doJsonGeneration &&
  !p.doHdrGeneration

/-! ## Names and strings -/

/-- The extension and file-name constants of `global` that the driver compares
file names with. They are set by `global._init()`, which is not part of
`driver/main.cpp`, so the driver functions take them as a parameter. -/
structure Global where
  mars_ext : String
  hdr_ext : String
  ddoc_ext : String
  json_ext : String
  obj_ext : String
  obj_ext_alt : String
  ll_ext : String
  bc_ext : String
  s_ext : String
  main_d : String
deriving Repr

/-- Modelled from the spec: the values `global._init()` (ddmd, not under src/)
gives the constants on a POSIX host: sources end in `d`, headers in `di`,
objects in `o`, IR text in `ll`, bitcode in `bc`, assembly in `s`. -/
def posixGlobal : Global where
  mars_ext := "d"
  hdr_ext := "di"
  ddoc_ext := "ddoc"
  json_ext := "json"
  obj_ext := "o"
  obj_ext_alt := "obj"
  ll_ext := "ll"
  bc_ext := "bc"
  s_ext := "s"
  main_d := "__main.d"

/-- Modelled from the spec: `FileName::name` (ddmd root, not under src/) on a
POSIX host, the file-system name with its directory part stripped: the text
after the last `/`. -/
def FileName.name (str : String) : String :=
  String.mk (str.data.reverse.takeWhile (fun c => c != '/')).reverse

/-- Modelled from the spec: `FileName::ext` (ddmd root, not under src/) on a
POSIX host, the extension of a file name: the text after the last `.` of the
last path component, and the null pointer (`none`) when that component has no
`.`. -/
def FileName.ext (str : String) : Option String :=
  let r := str.data.reverse
  let e := r.takeWhile (fun c => c != '.' && c != '/')
  match r.drop e.length with
  | '.' :: _ => some (String.mk e.reverse)
  | _ => none

/-- Modelled from the spec: `FileName::equals` (ddmd root, not under src/) on a
POSIX host, where file names are compared exactly. -/
def FileName.equals (a b : String) : Bool := a == b

/-- The test `strcmp(a, b) == 0`. -/
def strcmpEq (a b : String) : Bool := a == b

/-- Modelled from the spec: the test `Port::stricmp(a, b) == 0` (ddmd root, not
under src/): equality of the two strings compared case-insensitively. -/
def stricmpEq (a b : String) : Bool :=
  a.data.map Char.toLower == b.data.map Char.toLower

/-- The C function `isdigit` on the first character of a string (`value[0]`,
which is the terminating NUL for the empty string). -/
def firstIsDigit (value : String) : Bool :=
  match value.data with
  | [] => false
  | c :: _ => c.isDigit

/-- The value of a string of decimal digits. -/
def digitsValue (cs : List Char) : Nat :=
  cs.foldl (fun n c => 10 * n + (c.toNat - 48)) 0

/-- The constant `INT_MAX`. -/
def INT_MAX : Nat := 2147483647

/-- The constant `LONG_MAX` of an LP64 host. -/
def LONG_MAX : Nat := 9223372036854775807

/-- The exit status `EXIT_SUCCESS`. -/
def EXIT_SUCCESS : Int := 0

/-- The exit status `EXIT_FAILURE`. -/
def EXIT_FAILURE : Int := 1

/-! ## Modules, the world, events -/

/-- A `Module` object created by the intake loop: `index` is the position in
`files` of the argument it was created from (two arguments naming the same file
give two objects), `file` is `files.data[i]`, `ident` the module name the
identifier is made of. -/
structure Module where
  index : Nat
  file : String
  ident : String
deriving DecidableEq, Repr

/-- The two callers of `processVersions`: `-d-debug` and `-d-version`. -/
inductive CondKind where
  | debug
  | version
deriving DecidableEq, Repr

/-- The places where `cppmain` evaluates `global.errors` to decide on
`fatal()`, named after what precedes them. -/
inductive CheckSite where
  | afterCommandLine
  | afterTargetSwitches
  | afterParse
  | afterHdrGeneration
  | afterImportAll
  | afterSemantic
  | afterSemantic2
  | afterSemantic3
  | afterDeferredSemantic3
  | afterEmit
  | afterShutdown
deriving DecidableEq, Repr

/-- What `cppmain` does that is visible from outside: a call of a function
defined outside `driver/main.cpp`, a reported error, an evaluation of the
error counter (`check`, with the values of `global.errors` and
`global.warnings` at that moment), and `fatal()`. -/
inductive Event where
  | error (msg : String)
  | deprecation
  | setLevel (kind : CondKind) (level : Nat)
  | addIdent (kind : CondKind) (ident : String)
  | PrintHelpMessage
  | targetSetup
  | addPredefinedGlobalIdent (ident : String)
  | frontEndInit
  | create (m : Module)
  | setbuffer (m : Module)
  | read (m : Module)
  | attemptRecoverFromCache (filename : String) (hit : Bool)
  | parse (m : Module)
  | buildTargetFiles (m : Module)
  | deleteObjFile (m : Module)
  | gendocfile (m : Module)
  | genhdrfile (m : Module)
  | importAll (m : Module)
  | semantic (m : Module)
  | runDeferredSemantic
  | semantic2 (m : Module)
  | semantic3 (m : Module)
  | runDeferredSemantic3
  | writeModuleDependencyFile
  | codeGenerator
  | emit (m : Module)
  | codeGeneratorDone
  | emitJson
  | pruneCache
  | freeRuntime
  | linkObjToBinary
  | createStaticLibrary
  | runExecutable
  | deleteExecutable
  | check (g : CheckSite) (errors warnings : Nat)
  | fatal
deriving DecidableEq, Repr

/-- The architectures `registerPredefinedTargetVersions` tells apart by
`global.params.targetTriple->getArch()`; `other` is every architecture its
`switch` has no case for. -/
inductive Arch where
  | x86
  | x86_64
  | ppc
  | ppc64
  | ppc64le
  | arm
  | armeb
  | thumb
  | aarch64
  | aarch64_be
  | mips
  | mipsel
  | mips64
  | mips64el
  | sparc
  | sparcv9
  | nvptx
  | nvptx64
  | systemz
  | other
deriving DecidableEq, Repr

/-- The operating systems `registerPredefinedTargetVersions` tells apart by
`global.params.targetTriple->getOS()`; `other` is every system its `switch`
has no case for. -/
inductive OS where
  | Win32
  | Linux
  | Haiku
  | Darwin
  | MacOSX
  | FreeBSD
  | Solaris
  | DragonFly
  | NetBSD
  | OpenBSD
  | AIX
  | other
deriving DecidableEq, Repr

/-- The values of `llvm::FloatABI::ABIType`. -/
inductive FloatABI where
  | Default
  | Soft
  | Hard
deriving DecidableEq, Repr

/-- The values of `MipsABI::Type`, the result of `getMipsABI()`. -/
inductive MipsABI where
  | EABI
  | O32
  | N32
  | N64
  | Unknown
deriving DecidableEq, Repr

/-- What `registerPredefinedVersions` reads of the target that
`createTargetMachine` has set up: of the triple `global.params.targetTriple`
(`arch` is `getArch()`, `archName` is `getArchName()`, `str` is `str()`, `os`
is `getOS()`, `isAndroid` is `getEnvironment() == llvm::Triple::Android`, and
the three `isWindows...Environment()` tests), of `gTargetMachine`
(`floatABIType` is `Options.FloatABIType`, `isPIC` is
`getRelocationModel() == llvm::Reloc::PIC_`), of `gDataLayout`
(`isLittleEndian`), the result of `getMipsABI()`, and the fields `isLP64`,
`is64bit` and `hasObjectiveC` that `cppmain` stores into `global.params` from
the triple and the data layout. -/
structure Target where
  arch : Arch
  archName : String
  str : String
  os : OS
  isAndroid : Bool
  isKnownWindowsMSVCEnvironment : Bool
  isWindowsGNUEnvironment : Bool
  isWindowsCygwinEnvironment : Bool
  floatABIType : FloatABI
  isPIC : Bool
  isLittleEndian : Bool
  mipsABI : MipsABI
  isLP64 : Bool
  is64bit : Bool
  hasObjectiveC : Bool
deriving DecidableEq, Repr

/-- The mutable state the driver shares with the front end and the back end:
the counters `global.errors` and `global.warnings`, the list
`global.params.objfiles`, and the rest (`ext`). -/
structure World (X : Type) where
  errors : Nat
  warnings : Nat
  objfiles : List String
  ext : X

/-- The functions `cppmain` and `parseCommandLine` call that are defined
outside `driver/main.cpp`. Each may change the world in any way, the counters
included. -/
structure Env (X : Type) where
  isValidIdentifier : String → Bool
  setGlobalLevel : CondKind → Nat → World X → World X
  addGlobalIdent : CondKind → String → World X → World X
  deprecation : World X → World X
  targetSetup : World X → World X
  target : World X → Target
  addPredefinedGlobalIdent : String → World X → World X
  frontEndInit : World X → World X
  isOSWindows : World X → Bool
  forceExt : String → String → String
  combine : String → String → String
  srcfileName : Module → String
  create : Module → World X → World X
  setbuffer : Module → World X → World X
  read : Module → World X → World X
  attemptRecoverFromCache : List Module → String → World X → Bool × World X
  parse : Module → World X → World X
  buildTargetFiles : Module → Bool → Bool → World X → World X
  deleteObjFile : Module → World X → World X
  isDocFile : Module → World X → Bool
  gendocfile : Module → World X → World X
  genhdrfile : Module → World X → World X
  importAll : Module → World X → World X
  semantic : Module → World X → World X
  runDeferredSemantic : World X → World X
  semantic2 : Module → World X → World X
  semantic3 : Module → World X → World X
  runDeferredSemantic3 : World X → World X
  writeModuleDependencyFile : World X → World X
  codeGenerator : Bool → World X → World X
  emit : Module → World X → World X
  codeGeneratorDone : World X → World X
  emitJson : List Module → World X → World X
  pruneCache : World X → World X
  freeRuntime : World X → World X
  linkObjToBinary : Bool → Bool → World X → Int × World X
  createStaticLibrary : World X → Int × World X
  runExecutable : World X → Int × World X
  deleteExecutable : World X → World X

/-- The state threaded through the driver: the world and the trace so far, in
order of occurrence. -/
structure St (X : Type) where
  world : World X
  trace : List Event

/-- How a run of `cppmain` ends: it returns a status, it leaves through
`fatal()` (which exits the process with `EXIT_FAILURE`), or the parse loop
does not finish within one iteration per module (`hang`), which takes
`UINT_RANGE` modules or more: its `unsigned` index wraps around. -/
inductive Exit where
  | returned (status : Int)
  | fatal
  | hang
deriving DecidableEq, Repr

/-- A finished run: how it ended, the final world, the trace, and the local
array `modules` as it was when the run ended. -/
structure Run (X : Type) where
  exit : Exit
  world : World X
  trace : List Event
  modules : List Module

variable {X : Type}

/-- Call an external function: it transforms the world, and the call is
recorded. -/
def St.call (s : St X) (e : Event) (f : World X → World X) : St X :=
  { world := f s.world, trace := s.trace ++ [e] }

/-- Modelled from the spec: the effect of `error(Loc(), ...)` (ddmd errors, not
under src/) on the world: the diagnostic is accumulated into the global error
counter. -/
def World.error (w : World X) : World X :=
  { w with errors := w.errors + 1 }

/-- The call `error(Loc(), msg)`. -/
def error (s : St X) (msg : String) : St X :=
  { world := s.world.error, trace := s.trace ++ [Event.error msg] }

/-- The run `r` preceded by the events `t`. -/
def Run.after (t : List Event) (r : Run X) : Run X :=
  { r with trace := t ++ r.trace }

/-- Modelled from the spec: `fatal()` (ddmd, not under src/): the run is
aborted, the process exits with `EXIT_FAILURE`. -/
def fatal (w : World X) (modules : List Module) : Run X :=
  { exit := Exit.fatal, world := w, trace := [Event.fatal], modules := modules }

/-- The statement `if (global.errors) fatal();` followed by the rest of
`cppmain` (`k`). -/
def checkErrors (g : CheckSite) (w : World X) (modules : List Module)
    (k : Run X) : Run X :=
  (if w.errors ≠ 0 then fatal w modules else k).after
    [Event.check g w.errors w.warnings]

/-- The statement `if (global.errors || global.warnings) fatal();` followed by
the rest of `cppmain` (`k`). -/
def checkErrorsOrWarnings (g : CheckSite) (w : World X) (modules : List Module)
    (k : Run X) : Run X :=
  (if w.errors ≠ 0 ∨ w.warnings ≠ 0 then fatal w modules else k).after
    [Event.check g w.errors w.warnings]

/-- A call of an external function followed by the rest of `cppmain`. -/
def call (e : Event) (f : World X → World X) (w : World X)
    (k : World X → Run X) : Run X :=
  (k (f w)).after [e]

/-- A call made only when `c` holds. -/
def callIf (c : Bool) (e : Event) (f : World X → World X) (w : World X)
    (k : World X → Run X) : Run X :=
  if c then call e f w k else k w

/-- A loop `for (unsigned i = 0; i < modules.dim; i++) f(modules[i]);` whose
body is one external call, followed by the rest of `cppmain`. -/
def forEach (e : Module → Event) (f : Module → World X → World X) :
    List Module → World X → (World X → Run X) → Run X
  | [], w, k => k w
  | m :: rest, w, k => call (e m) (f m) w fun w => forEach e f rest w k

/-- Such a loop inside `if (c) { ... }`. -/
def forEachIf (c : Bool) (e : Module → Event) (f : Module → World X → World X)
    (modules : List Module) (w : World X) (k : World X → Run X) : Run X :=
  if c then forEach e f modules w k else k w

/-! ## `processVersions` and `parseCommandLine` -/

/-- The name `processVersions` is given for its list (`type`). -/
def CondKind.type : CondKind → String
  | CondKind.debug => "debug"
  | CondKind.version => "version"

/-- One iteration of the loop of `processVersions`, for the entry `i`.
An entry starting with a digit is read by `strtol`: `level` is the value of its
leading digits (`LONG_MAX` with `errno` set when it does not fit a `long`),
`*end` is nonzero when something follows the digits. -/
def processVersion (env : Env X) (kind : CondKind) (s : St X) (i : String) : St X :=
  if firstIsDigit i then
    let digits := i.data.takeWhile Char.isDigit
    let value := digitsValue digits
    let endNonzero : Bool := decide (digits.length < i.data.length)
    let errno : Bool := decide (LONG_MAX < value)
    let level := min value LONG_MAX
    if endNonzero || errno || decide (INT_MAX < level) then
      error s ("Invalid " ++ kind.type ++ " level: " ++ i)
    else
      s.call (Event.setLevel kind level) (env.setGlobalLevel kind level)
  else if env.isValidIdentifier i then
    s.call (Event.addIdent kind i) (env.addGlobalIdent kind i)
  else
    error s ("Invalid " ++ kind.type ++ " identifier or level: '" ++ i ++ "'")

/-- The function `processVersions`: the entries of the list are handled in
order. -/
def processVersions (env : Env X) (kind : CondKind) (list : List String)
    (s : St X) : St X :=
  list.foldl (processVersion env kind) s

/-- The helper `initFromString` for `-of`, `-od`, ...: the destination is null
when the switch did not occur; an empty argument is an error, and the
destination is set all the same. -/
def initFromString (src : Option String) (argStr : String) (s : St X) :
    Option String × St X :=
  match src with
  | none => (none, s)
  | some v =>
    (some v, if v == "" then error s ("Expected argument to '-" ++ argStr ++ "'") else s)

/-- The values `parseCommandLine` gives `global.params.output_o`, `output_bc`,
`output_ll` and `output_s` from the switches. -/
def outputFlags (o : Opts) (p : Params) : Params :=
  { p with
    output_o :=
      if o.output_o = BoolOrDefault.BOU_UNSET ∧
          !(o.output_bc || o.output_ll || o.output_s) then
        OutputFlag.OUTPUTFLAGdefault
      else if o.output_o = BoolOrDefault.BOU_TRUE then OutputFlag.OUTPUTFLAGset
      else OutputFlag.OUTPUTFLAGno
    output_bc := if o.output_bc then OutputFlag.OUTPUTFLAGset else OutputFlag.OUTPUTFLAGno
    output_ll := if o.output_ll then OutputFlag.OUTPUTFLAGset else OutputFlag.OUTPUTFLAGno
    output_s := if o.output_s then OutputFlag.OUTPUTFLAGset else OutputFlag.OUTPUTFLAGno }

/-- The block `if (global.params.run || !runargs.empty())` of
`parseCommandLine`: the new value of `global.params.run`, the file pushed to
`sourceFiles`, and the state. -/
def runSwitch (o : Opts) (s : St X) : Bool × List String × St X :=
  if o.p_run || !o.runargs.isEmpty then
    match o.runargs with
    | name :: _ =>
      let s1 :=
        match FileName.ext name with
        | some ext =>
          if FileName.equals ext "d" == false && FileName.equals ext "di" == false then
            error s ("-run must be followed by a source file, not '" ++ name ++ "'")
          else s
        | none => s
      (true, [name], s1)
    | [] => (false, [], error s "Expected at least one argument to '-run'\n")
  else (o.p_run, [], s)

/-- The block "if we don't link, autodetect target from extension" of
`parseCommandLine`. -/
def autodetect (g : Global) (o : Opts) (p : Params) : Params :=
  if !p.link && !o.createStaticLib && p.objname.isSome then
    match p.objname with
    | none => p
    | some objname =>
      match FileName.ext objname with
      | none => p
      | some ext =>
        let r : Params × Bool :=
          if strcmpEq ext g.ll_ext then
            ({ p with output_ll := OutputFlag.OUTPUTFLAGset }, true)
          else if strcmpEq ext g.bc_ext then
            ({ p with output_bc := OutputFlag.OUTPUTFLAGset }, true)
          else if strcmpEq ext g.s_ext then
            ({ p with output_s := OutputFlag.OUTPUTFLAGset }, true)
          else if strcmpEq ext g.obj_ext || strcmpEq ext g.obj_ext_alt then
            ({ p with output_o := OutputFlag.OUTPUTFLAGset }, true)
          else
            ({ p with objname := some (objname ++ ".") }, false)
        if r.2 && r.1.output_o = OutputFlag.OUTPUTFLAGdefault then
          { r.1 with output_o := OutputFlag.OUTPUTFLAGno }
        else r.1
  else p

/-- The block "only link if possible" of `parseCommandLine`. -/
def onlyLinkIfPossible (o : Opts) (p : Params) : Params :=
  if !p.obj || p.output_o = OutputFlag.OUTPUTFLAGno || o.createStaticLib then
    { p with link := false }
  else p

/-- The last blocks of `parseCommandLine`, from the `-lib` / `-shared` conflict
on; `dim` is `sourceFiles.dim`. -/
def outputNames (o : Opts) (dim : Nat) (p : Params) (s : St X) : Params × St X :=
  let s1 :=
    if o.createStaticLib && o.createSharedLib then
      error s "-lib and -shared switches cannot be used together"
    else s
  let r : Params × St X :=
    if p.link && !o.createSharedLib then
      ({ p with exefile := p.objname,
                objname := if 1 < dim then none else p.objname }, s1)
    else if p.run then
      (p, error s1 "flags conflict with -run")
    else if p.objname.isSome && decide (1 < dim) then
      if !(o.createStaticLib || o.createSharedLib) && !o.singleObj then
        (p, error s1 "multiple source files, but only one .obj name")
      else (p, s1)
    else (p, s1)
  let s2 :=
    if decide (0 < o.sonameOccurrences) && !o.createSharedLib then
      error r.2 "-soname can be used only when building a shared library"
    else r.2
  (r.1, s2)

/-- The statements of `parseCommandLine` that follow the default library
list: unit tests turn the asserts on, and `global.params.useArrayBounds` is
the value of `-boundscheck` when given, and else the default level, which
`-release` downgrades to `BOUNDSCHECKsafeonly`. -/
def assertsAndBounds (o : Opts) (p : Params) : Params :=
  { p with
    useAssert := if p.useUnitTests then true else p.useAssert
    useArrayBounds :=
      if o.boundsCheck ≠ BoundsCheck.BOUNDSCHECKdefault then o.boundsCheck
      else if o.nonSafeBoundsChecks then BoundsCheck.BOUNDSCHECKon
      else BoundsCheck.BOUNDSCHECKsafeonly }

/-- What `parseCommandLine` leaves: `global.params`, the list `sourceFiles`,
the flag `helpOnly`, and the state. -/
structure CommandLine (X : Type) where
  params : Params
  sourceFiles : List String
  helpOnly : Bool
  st : St X

/-- The blocks "Negated options", "String options" and "Cache options" of
`parseCommandLine`: the fields of `global.params` they set, and the state
after the errors of `initFromString`. -/
def stringOptions (o : Opts) (s : St X) : Params × St X :=
  -- Negated options
  let p : Params :=
    { link := !o.compileOnly, obj := !o.dontWriteObj, useInlineAsm := !o.noAsm,
      singleObj := o.p_singleObj,
      doDocComments := o.p_doDocComments, doHdrGeneration := o.p_doHdrGeneration,
      doJsonGeneration := o.p_doJsonGeneration, run := o.p_run,
      addMain := o.p_addMain, useUnitTests := o.p_useUnitTests,
      useAssert := o.p_useAssert }
  -- String options
  let objname := initFromString o.objectFile "of" s
  let objdir := initFromString o.objectDir "od" objname.2
  let docdir := initFromString o.ddocDir "Dd" objdir.2
  let docname := initFromString o.ddocFile "Df" docdir.2
  let jsonfilename := initFromString o.jsonFile "Xf" docname.2
  let hdrdir := initFromString o.hdrDir "Hd" jsonfilename.2
  let hdrname := initFromString o.hdrFile "Hf" hdrdir.2
  let moduleDepsFile := initFromString o.moduleDepsFile "deps" hdrname.2
  ({ p with
      objname := objname.1, objdir := objdir.1, docdir := docdir.1,
      docname := docname.1,
      doDocComments := p.doDocComments || (docdir.1.isSome || docname.1.isSome),
      jsonfilename := jsonfilename.1,
      doJsonGeneration := if jsonfilename.1.isSome then true else p.doJsonGeneration,
      hdrdir := hdrdir.1, hdrname := hdrname.1,
      doHdrGeneration := p.doHdrGeneration || (hdrdir.1.isSome || hdrname.1.isSome),
      moduleDepsFile := moduleDepsFile.1, moduleDeps := moduleDepsFile.1.isSome,
      -- Cache options
      useCompileCache := if o.ir2objCacheDir != "" then some o.ir2objCacheDir else none },
    moduleDepsFile.2)

/-- The function `parseCommandLine`, from the point where
`cl::ParseCommandLineOptions` has stored the switches (`o`). The statements
that only set parameters no part of the coordinator reads (link switches,
coverage, relocation model) are left out. -/
def parseCommandLine (env : Env X) (g : Global) (o : Opts) (s : St X) :
    CommandLine X :=
  let helpOnly : Bool := o.mCPU == "help" || o.mAttrs.contains "help"
  let ps := stringOptions o s
  let s := processVersions env CondKind.debug o.debugArgs ps.2
  let s := processVersions env CondKind.version o.versions s
  let p := outputFlags o ps.1
  let r := runSwitch o s
  let p : Params := { p with run := r.1 }
  let sourceFiles := r.2.1 ++ o.fileList.filter (fun file => file != "")
  let s := if o.noDefaultLib then r.2.2.call Event.deprecation env.deprecation else r.2.2
  let p := assertsAndBounds o p
  -- LDC output determination
  let p := autodetect g o p
  let p := onlyLinkIfPossible o p
  let q := outputNames o sourceFiles.length p s
  { params := q.1, sourceFiles := sourceFiles, helpOnly := helpOnly, st := q.2 }

/-! ## Intake: the loop "Create Modules" (POSIX build) -/

/-- What the intake loop does with one file name. -/
inductive FileKind where
  | objfile
  | libfile
  | ddocfile
  | jsonfile
  | source (name : String)
  | unrecognized (ext : String)
  | invalid
deriving DecidableEq, Repr

/-- The body of the loop "Create Modules" up to the decision what the file is,
in the `LDC_POSIX` build: the extension of the base name decides. For a source
file, `name` is the base name without its extension. -/
def classify (g : Global) (file : String) : FileKind :=
  let p := FileName.name file
  match FileName.ext p with
  | some ext =>
    if strcmpEq ext g.obj_ext || strcmpEq ext g.bc_ext then FileKind.objfile
    else if strcmpEq ext "a" then FileKind.libfile
    else if strcmpEq ext g.ddoc_ext then FileKind.ddocfile
    else if FileName.equals ext g.json_ext then FileKind.jsonfile
    else if stricmpEq ext g.mars_ext || stricmpEq ext g.hdr_ext ||
        FileName.equals ext "dd" then
      let name := String.mk (p.data.take (p.data.length - (ext.data.length + 1)))
      if name == "" || name == ".." || name == "." then FileKind.invalid
      else FileKind.source name
    else FileKind.unrecognized ext
  | none => if p == "" then FileKind.invalid else FileKind.source p

/-- The state of the intake loop: `global.params`, the array `modules`, the
world and the events so far, and whether the loop left through `fatal()`. -/
structure Intake (X : Type) where
  params : Params
  modules : List Module
  st : St X
  failed : Bool

/-- The loop "Create Modules" from index `i` on, over the files not yet
looked at. -/
def createModules (env : Env X) (g : Global) :
    List String → Nat → Params → List Module → St X → Intake X
  | [], _, p, modules, s => { params := p, modules := modules, st := s, failed := false }
  | file :: rest, i, p, modules, s =>
    match classify g file with
    | FileKind.objfile =>
      createModules env g rest (i + 1) p modules
        { s with world := { s.world with objfiles := s.world.objfiles ++ [file] } }
    | FileKind.libfile =>
      createModules env g rest (i + 1) { p with libfiles := p.libfiles ++ [file] } modules s
    | FileKind.ddocfile =>
      createModules env g rest (i + 1) { p with ddocfiles := p.ddocfiles ++ [file] } modules s
    | FileKind.jsonfile =>
      createModules env g rest (i + 1)
        { p with doJsonGeneration := true, jsonfilename := some file } modules s
    | FileKind.source name =>
      let m : Module := { index := i, file := file, ident := name }
      createModules env g rest (i + 1) p (modules ++ [m])
        (s.call (Event.create m) (env.create m))
    | FileKind.unrecognized ext =>
      { params := p, modules := modules,
        st := error s ("unrecognized file extension " ++ ext ++ "\n"), failed := true }
    | FileKind.invalid =>
      { params := p, modules := modules,
        st := error s ("invalid file name '" ++ file ++ "'"), failed := true }

/-- The loop "Read files": the module made for `global.main_d` gets a fixed
buffer, every other module is read. -/
def readFiles (env : Env X) (g : Global) (modules : List Module) (s : St X) : St X :=
  modules.foldl
    (fun s m =>
      if strcmpEq (env.srcfileName m) g.main_d then
        s.call (Event.setbuffer m) (env.setbuffer m)
      else s.call (Event.read m) (env.read m))
    s

/-! ## The pipeline -/

/-- The last part of `cppmain`, from `int status = EXIT_SUCCESS;` to
`return status;`: link, archive, run. -/
def finish (env : Env X) (o : Opts) (p : Params) (modules : List Module)
    (w : World X) : Run X :=
  if w.objfiles.length = 0 then
    if p.link then
      { exit := Exit.returned EXIT_SUCCESS, world := w.error,
        trace := [Event.error "no object files to link"], modules := modules }
    else if o.createStaticLib then
      { exit := Exit.returned EXIT_SUCCESS, world := w.error,
        trace := [Event.error "no object files"], modules := modules }
    else
      { exit := Exit.returned EXIT_SUCCESS, world := w, trace := [], modules := modules }
  else
    let l : (Int × World X) × List Event :=
      if p.link then
        (env.linkObjToBinary o.createSharedLib o.staticFlag w, [Event.linkObjToBinary])
      else if o.createStaticLib then
        (env.createStaticLibrary w, [Event.createStaticLibrary])
      else ((EXIT_SUCCESS, w), [])
    if p.run && l.1.1 == EXIT_SUCCESS then
      let r := env.runExecutable l.1.2
      let w2 := modules.foldl (fun w m => env.deleteObjFile m w) r.2
      { exit := Exit.returned r.1, world := env.deleteExecutable w2,
        trace := l.2 ++ [Event.runExecutable] ++ modules.map Event.deleteObjFile ++
          [Event.deleteExecutable],
        modules := modules }
    else
      { exit := Exit.returned l.1.1, world := l.1.2, trace := l.2, modules := modules }

/-- The loop over the modules inside "Generate one or more object/IR/bitcode
files": `cg.emit(m); if (global.errors) fatal();`. -/
def emitModules (env : Env X) (modules : List Module) :
    List Module → World X → (World X → Run X) → Run X
  | [], w, k => k w
  | m :: rest, w, k =>
    call (Event.emit m) (env.emit m) w fun w =>
    checkErrors CheckSite.afterEmit w modules (emitModules env modules rest w k)

/-- The block `if (global.params.obj && !modules.empty()) { ... }`: the code
generator is constructed, every module is emitted, and the generator is
destroyed at the end of the block. -/
def codegen (env : Env X) (o : Opts) (p : Params) (modules : List Module)
    (w : World X) (k : World X → Run X) : Run X :=
  if p.obj && !modules.isEmpty then
    call Event.codeGenerator (env.codeGenerator o.singleObj) w fun w =>
    emitModules env modules modules w fun w =>
    call Event.codeGeneratorDone env.codeGeneratorDone w k
  else k w

/-- The part of `cppmain` from `writeModuleDependencyFile()` on. -/
def backEnd (env : Env X) (o : Opts) (p : Params) (modules : List Module)
    (w : World X) : Run X :=
  call Event.writeModuleDependencyFile env.writeModuleDependencyFile w fun w =>
  codegen env o p modules w fun w =>
  forEachIf p.doDocComments Event.gendocfile env.gendocfile modules w fun w =>
  callIf p.doJsonGeneration Event.emitJson (env.emitJson modules) w fun w =>
  call Event.pruneCache env.pruneCache w fun w =>
  call Event.freeRuntime env.freeRuntime w fun w =>
  checkErrors CheckSite.afterShutdown w modules (finish env o p modules w)

/-- The part of `cppmain` from the check that follows the parse loop to the
check that follows `Module::runDeferredSemantic3()`, and then the back end. -/
def frontEnd (env : Env X) (o : Opts) (p : Params) (modules : List Module)
    (w : World X) : Run X :=
  checkErrors CheckSite.afterParse w modules <|
  forEachIf p.doHdrGeneration Event.genhdrfile env.genhdrfile modules w fun w =>
  checkErrors CheckSite.afterHdrGeneration w modules <|
  forEach Event.importAll env.importAll modules w fun w =>
  checkErrors CheckSite.afterImportAll w modules <|
  forEach Event.semantic env.semantic modules w fun w =>
  checkErrors CheckSite.afterSemantic w modules <|
  call Event.runDeferredSemantic env.runDeferredSemantic w fun w =>
  forEach Event.semantic2 env.semantic2 modules w fun w =>
  checkErrors CheckSite.afterSemantic2 w modules <|
  forEach Event.semantic3 env.semantic3 modules w fun w =>
  checkErrors CheckSite.afterSemantic3 w modules <|
  call Event.runDeferredSemantic3 env.runDeferredSemantic3 w fun w =>
  checkErrorsOrWarnings CheckSite.afterDeferredSemantic3 w modules <|
  backEnd env o p modules w

/-- The number of values of `unsigned`. -/
def UINT_RANGE : Nat := 4294967296

/-- The loop "Parse files",
`for (unsigned i = 0; i < modules.dim; i++) { ... modules.remove(i); i--; ... }`,
from index `i` on, followed by the rest of `cppmain` (`k`, which receives the
array and the world the loop leaves). The index is an `unsigned`: `i--` and
`i++` are computed modulo `UINT_RANGE`. `fuel` bounds the number of iterations;
a loop that needs more ends the run as `Exit.hang`. -/
def parseFiles (env : Env X) (o : Opts) :
    Nat → Nat → List Module → World X → (List Module → World X → Run X) → Run X
  | 0, i, modules, w, k =>
    if i < modules.length then
      { exit := Exit.hang, world := w, trace := [], modules := modules }
    else k modules w
  | fuel + 1, i, modules, w, k =>
    match modules.get? i with
    | none => k modules w
    | some m =>
      let w1 := env.parse m w
      let w2 := env.buildTargetFiles m o.singleObj (o.createSharedLib || o.createStaticLib) w1
      let w3 := env.deleteObjFile m w2
      if env.isDocFile m w3 then
        -- Remove m from list of modules
        (parseFiles env o fuel (((i + (UINT_RANGE - 1)) % UINT_RANGE + 1) % UINT_RANGE)
            (modules.eraseIdx i) (env.gendocfile m w3) k).after
          [Event.parse m, Event.buildTargetFiles m, Event.deleteObjFile m,
            Event.gendocfile m]
      else
        (parseFiles env o fuel ((i + 1) % UINT_RANGE) modules w3 k).after
          [Event.parse m, Event.buildTargetFiles m, Event.deleteObjFile m]

/-- The output name the cache check computes (`filename`), null when neither
`global.params.exefile` nor `global.params.objname` is set. -/
def cacheFilename (env : Env X) (g : Global) (p : Params) (w : World X) :
    Option String :=
  match p.exefile.orElse (fun _ => p.objname) with
  | some oname =>
    let filename :=
      env.forceExt oname (if env.isOSWindows w then g.obj_ext_alt else g.obj_ext)
    match p.objdir with
    | some objdir => some (env.combine objdir (FileName.name filename))
    | none => some filename
  | none => none

/-- The part of `cppmain` from the loop "Parse files" on. The loop runs at most
once per module of the array it starts with. -/
def parseAndCompile (env : Env X) (o : Opts) (p : Params) (modules : List Module)
    (w : World X) : Run X :=
  parseFiles env o modules.length 0 modules w fun modules w =>
  frontEnd env o p modules w

/-- The part of `cppmain` from the cache check
`if (global.params.useCompileCache && canDoSourceCachedBuild())` on. -/
def compileModules (env : Env X) (g : Global) (o : Opts) (p : Params)
    (modules : List Module) (w : World X) : Run X :=
  if p.useCompileCache.isSome && canDoSourceCachedBuild o p then
    match cacheFilename env g p w with
    | some filename =>
      let r := env.attemptRecoverFromCache modules filename w
      if r.1 then
        -- Cached compile found!
        { exit := Exit.returned EXIT_SUCCESS, world := r.2,
          trace := [Event.attemptRecoverFromCache filename true], modules := modules }
      else
        (parseAndCompile env o p modules r.2).after
          [Event.attemptRecoverFromCache filename false]
    | none => parseAndCompile env o p modules w
  else parseAndCompile env o p modules w

/-- The checks of the `-m32` / `-m64` switches at "Set up the TargetMachine". -/
def targetSwitches (o : Opts) (s : St X) : St X :=
  let s1 :=
    if (o.m32bits || o.m64bits) && (o.mArch != "" || o.mTargetTriple != "") then
      error s ("-m32 and -m64 switches cannot be used together with -march " ++
        "and -mtriple switches")
    else s
  if o.m64bits && o.m32bits then error s1 "cannot use both -m32 and -m64 options"
  else s1

/-! ## The predefined versions -/

/-- The build of the driver that is modelled defines `IN_WEKA`. -/
def IN_WEKA : Bool := true

/-- The build of the driver that is modelled is the one for LLVM 3.8: the
text of the constant `LDC_LLVM_VER`. -/
def LDC_LLVM_VER : String := "308"

/-- The call `VersionCondition::addPredefinedGlobalIdent(ident)`. -/
def addPredefinedGlobalIdent (env : Env X) (ident : String) (s : St X) : St X :=
  s.call (Event.addPredefinedGlobalIdent ident) (env.addPredefinedGlobalIdent ident)

/-- Such a call inside `if (c) { ... }`. -/
def addPredefinedGlobalIdentIf (env : Env X) (c : Bool) (ident : String) (s : St X) :
    St X :=
  if c then addPredefinedGlobalIdent env ident s else s

/-- The function `registerMipsABI`. -/
def registerMipsABI (env : Env X) (t : Target) (s : St X) : St X :=
  match t.mipsABI with
  | MipsABI.EABI => addPredefinedGlobalIdent env "MIPS_EABI" s
  | MipsABI.O32 => addPredefinedGlobalIdent env "MIPS_O32" s
  | MipsABI.N32 => addPredefinedGlobalIdent env "MIPS_N32" s
  | MipsABI.N64 => addPredefinedGlobalIdent env "MIPS_N64" s
  | MipsABI.Unknown => s

/-- The function `registerPredefinedFloatABI(soft, hard, softfp)`; `softfp` is
`none` for the null pointer, its default. With LLVM 3.7 or later `useFPU` is
the test for the hard float ABI. The two `assert`s expand to nothing in the
build with `NDEBUG`: the first holds anyway, by the definition of `useFPU`, and
the branch of the second (a float ABI that is neither soft nor hard) registers
nothing more. -/
def registerPredefinedFloatABI (env : Env X) (t : Target) (soft hard : String)
    (softfp : Option String) (s : St X) : St X :=
  -- Use target floating point unit instead of s/w float routines
  let useFPU : Bool := decide (t.floatABIType = FloatABI.Hard)
  let s := addPredefinedGlobalIdent env (if useFPU then "D_HardFloat" else "D_SoftFloat") s
  match t.floatABIType with
  | FloatABI.Soft =>
    addPredefinedGlobalIdent env
      (match softfp with
        | some name => if useFPU then name else soft
        | none => soft) s
  | FloatABI.Hard => addPredefinedGlobalIdent env hard s
  | FloatABI.Default => s

/-- What `registerPredefinedVersions` leaves: the state, and whether it left
through `fatal()`. -/
structure Registered (X : Type) where
  st : St X
  failed : Bool

/-- The first `switch` of `registerPredefinedTargetVersions`, on the
architecture of the target triple. Its `default` case reports an error and
calls `fatal()`. -/
def registerArchVersions (env : Env X) (p : Params) (t : Target) (s : St X) :
    Registered X :=
  match t.arch with
  | Arch.x86 =>
    { st := s |> addPredefinedGlobalIdent env "X86"
        |> addPredefinedGlobalIdentIf env p.useInlineAsm "D_InlineAsm_X86"
        |> addPredefinedGlobalIdent env "D_HardFloat",
      failed := false }
  | Arch.x86_64 =>
    { st := s |> addPredefinedGlobalIdent env "X86_64"
        |> addPredefinedGlobalIdentIf env p.useInlineAsm "D_InlineAsm_X86_64"
        |> addPredefinedGlobalIdent env "D_HardFloat",
      failed := false }
  | Arch.ppc =>
    { st := s |> addPredefinedGlobalIdent env "PPC"
        |> registerPredefinedFloatABI env t "PPC_SoftFloat" "PPC_HardFloat" none,
      failed := false }
  | Arch.ppc64 =>
    { st := s |> addPredefinedGlobalIdent env "PPC64"
        |> registerPredefinedFloatABI env t "PPC_SoftFloat" "PPC_HardFloat" none
        |> addPredefinedGlobalIdentIf env (decide (t.os = OS.Linux)) "ELFv1",
      failed := false }
  | Arch.ppc64le =>
    { st := s |> addPredefinedGlobalIdent env "PPC64"
        |> registerPredefinedFloatABI env t "PPC_SoftFloat" "PPC_HardFloat" none
        |> addPredefinedGlobalIdentIf env (decide (t.os = OS.Linux)) "ELFv2",
      failed := false }
  | Arch.arm =>
    { st := s |> addPredefinedGlobalIdent env "ARM"
        |> registerPredefinedFloatABI env t "ARM_SoftFloat" "ARM_HardFloat"
            (some "ARM_SoftFP"),
      failed := false }
  | Arch.armeb =>
    { st := s |> addPredefinedGlobalIdent env "ARM"
        |> registerPredefinedFloatABI env t "ARM_SoftFloat" "ARM_HardFloat"
            (some "ARM_SoftFP"),
      failed := false }
  | Arch.thumb =>
    { st := s |> addPredefinedGlobalIdent env "ARM"
        |> addPredefinedGlobalIdent env "Thumb" -- For backwards compatibility.
        |> addPredefinedGlobalIdent env "ARM_Thumb"
        |> registerPredefinedFloatABI env t "ARM_SoftFloat" "ARM_HardFloat"
            (some "ARM_SoftFP"),
      failed := false }
  | Arch.aarch64 =>
    { st := s |> addPredefinedGlobalIdent env "AArch64"
        |> registerPredefinedFloatABI env t "ARM_SoftFloat" "ARM_HardFloat"
            (some "ARM_SoftFP"),
      failed := false }
  | Arch.aarch64_be =>
    { st := s |> addPredefinedGlobalIdent env "AArch64"
        |> registerPredefinedFloatABI env t "ARM_SoftFloat" "ARM_HardFloat"
            (some "ARM_SoftFP"),
      failed := false }
  | Arch.mips =>
    { st := s |> addPredefinedGlobalIdent env "MIPS"
        |> registerPredefinedFloatABI env t "MIPS_SoftFloat" "MIPS_HardFloat" none
        |> registerMipsABI env t,
      failed := false }
  | Arch.mipsel =>
    { st := s |> addPredefinedGlobalIdent env "MIPS"
        |> registerPredefinedFloatABI env t "MIPS_SoftFloat" "MIPS_HardFloat" none
        |> registerMipsABI env t,
      failed := false }
  | Arch.mips64 =>
    { st := s |> addPredefinedGlobalIdent env "MIPS64"
        |> registerPredefinedFloatABI env t "MIPS_SoftFloat" "MIPS_HardFloat" none
        |> registerMipsABI env t,
      failed := false }
  | Arch.mips64el =>
    { st := s |> addPredefinedGlobalIdent env "MIPS64"
        |> registerPredefinedFloatABI env t "MIPS_SoftFloat" "MIPS_HardFloat" none
        |> registerMipsABI env t,
      failed := false }
  | Arch.sparc =>
    { st := s |> addPredefinedGlobalIdent env "SPARC"
        |> registerPredefinedFloatABI env t "SPARC_SoftFloat" "SPARC_HardFloat" none,
      failed := false }
  | Arch.sparcv9 =>
    { st := s |> addPredefinedGlobalIdent env "SPARC64"
        |> registerPredefinedFloatABI env t "SPARC_SoftFloat" "SPARC_HardFloat" none,
      failed := false }
  | Arch.nvptx =>
    { st := s |> addPredefinedGlobalIdent env "NVPTX"
        |> addPredefinedGlobalIdent env "D_HardFloat",
      failed := false }
  | Arch.nvptx64 =>
    { st := s |> addPredefinedGlobalIdent env "NVPTX64"
        |> addPredefinedGlobalIdent env "D_HardFloat",
      failed := false }
  | Arch.systemz =>
    { st := s |> addPredefinedGlobalIdent env "SystemZ"
        |> addPredefinedGlobalIdent env "S390X" -- For backwards compatibility.
        |> addPredefinedGlobalIdent env "D_HardFloat",
      failed := false }
  | Arch.other =>
    { st := error s ("invalid cpu architecture specified: " ++ t.archName),
      failed := true }

/-- The second `switch` of `registerPredefinedTargetVersions`, on the operating
system of the target triple. For a Cygwin environment, and for a system
without a case that is not an Android environment, it reports an error and
calls `fatal()`. -/
def registerOSVersions (env : Env X) (t : Target) (s : St X) : Registered X :=
  match t.os with
  | OS.Win32 =>
    let s := s |> addPredefinedGlobalIdent env "Windows"
      |> addPredefinedGlobalIdent env (if t.is64bit then "Win64" else "Win32")
      |> addPredefinedGlobalIdentIf env t.isKnownWindowsMSVCEnvironment "CRuntime_Microsoft"
      |> addPredefinedGlobalIdentIf env t.isWindowsGNUEnvironment "mingw32"
      |> addPredefinedGlobalIdentIf env t.isWindowsGNUEnvironment "MinGW"
    if t.isWindowsCygwinEnvironment then
      { st := error s "Cygwin is not yet supported", failed := true }
    else { st := s, failed := false }
  | OS.Linux =>
    let s := s |> addPredefinedGlobalIdent env "linux"
      |> addPredefinedGlobalIdent env "Posix"
    if t.isAndroid then
      { st := s |> addPredefinedGlobalIdent env "Android"
          |> addPredefinedGlobalIdent env "CRuntime_Bionic",
        failed := false }
    else { st := addPredefinedGlobalIdent env "CRuntime_Glibc" s, failed := false }
  | OS.Haiku =>
    { st := s |> addPredefinedGlobalIdent env "Haiku"
        |> addPredefinedGlobalIdent env "Posix",
      failed := false }
  | OS.Darwin =>
    { st := s |> addPredefinedGlobalIdent env "OSX"
        |> addPredefinedGlobalIdent env "darwin" -- For backwards compatibility.
        |> addPredefinedGlobalIdent env "Posix",
      failed := false }
  | OS.MacOSX =>
    { st := s |> addPredefinedGlobalIdent env "OSX"
        |> addPredefinedGlobalIdent env "darwin" -- For backwards compatibility.
        |> addPredefinedGlobalIdent env "Posix",
      failed := false }
  | OS.FreeBSD =>
    { st := s |> addPredefinedGlobalIdent env "FreeBSD"
        |> addPredefinedGlobalIdent env "Posix",
      failed := false }
  | OS.Solaris =>
    { st := s |> addPredefinedGlobalIdent env "Solaris"
        |> addPredefinedGlobalIdent env "Posix",
      failed := false }
  | OS.DragonFly =>
    { st := s |> addPredefinedGlobalIdent env "DragonFlyBSD"
        |> addPredefinedGlobalIdent env "Posix",
      failed := false }
  | OS.NetBSD =>
    { st := s |> addPredefinedGlobalIdent env "NetBSD"
        |> addPredefinedGlobalIdent env "Posix",
      failed := false }
  | OS.OpenBSD =>
    { st := s |> addPredefinedGlobalIdent env "OpenBSD"
        |> addPredefinedGlobalIdent env "Posix",
      failed := false }
  | OS.AIX =>
    { st := s |> addPredefinedGlobalIdent env "AIX"
        |> addPredefinedGlobalIdent env "Posix",
      failed := false }
  | OS.other =>
    if t.isAndroid then
      { st := addPredefinedGlobalIdent env "Android" s, failed := false }
    else
      { st := error s ("target '" ++ t.str ++ "' is not yet supported"), failed := true }

/-- The function `registerPredefinedTargetVersions`: the `switch` on the
architecture, the endianness, `D_LP64`, `D_PIC`, and the `switch` on the
operating system. -/
def registerPredefinedTargetVersions (env : Env X) (p : Params) (t : Target) (s : St X) :
    Registered X :=
  let a := registerArchVersions env p t s
  if a.failed then a
  else
  -- endianness
  let s := addPredefinedGlobalIdent env
    (if t.isLittleEndian then "LittleEndian" else "BigEndian") a.st
  -- a generic 64bit version
  let s := addPredefinedGlobalIdentIf env t.isLP64 "D_LP64" s
  let s := addPredefinedGlobalIdentIf env t.isPIC "D_PIC" s
  -- parse the OS out of the target triple
  registerOSVersions env t s

/-- The function `registerPredefinedVersions`, for the target `t` that
`createTargetMachine` has set up: the version identifiers of the
configuration are registered one by one; for a target that is not supported,
`registerPredefinedTargetVersions` reports an error and calls `fatal()`. -/
def registerPredefinedVersions (env : Env X) (o : Opts) (p : Params) (t : Target)
    (s : St X) : Registered X :=
  let s := addPredefinedGlobalIdentIf env IN_WEKA "WEKA" s
  let s := addPredefinedGlobalIdent env "LDC" s
  let s := addPredefinedGlobalIdent env "all" s
  let s := addPredefinedGlobalIdent env "D_Version2" s
  let s := addPredefinedGlobalIdentIf env p.doDocComments "D_Ddoc" s
  let s := addPredefinedGlobalIdentIf env p.useUnitTests "unittest" s
  let s := addPredefinedGlobalIdentIf env p.useAssert "assert" s
  let s := addPredefinedGlobalIdentIf env
    (decide (p.useArrayBounds = BoundsCheck.BOUNDSCHECKoff)) "D_NoBoundsChecks" s
  let r := registerPredefinedTargetVersions env p t s
  if r.failed then r
  else
  let s := addPredefinedGlobalIdentIf env t.hasObjectiveC "D_ObjectiveC" r.st
  -- Pass sanitizer arguments to linker. Requires clang.
  let s := addPredefinedGlobalIdentIf env
    (decide (o.sanitize = SanitizerCheck.AddressSanitizer)) "LDC_AddressSanitizer" s
  let s := addPredefinedGlobalIdentIf env
    (decide (o.sanitize = SanitizerCheck.MemorySanitizer)) "LDC_MemorySanitizer" s
  let s := addPredefinedGlobalIdentIf env
    (decide (o.sanitize = SanitizerCheck.ThreadSanitizer)) "LDC_ThreadSanitizer" s
  -- Expose LLVM version to runtime
  { st := addPredefinedGlobalIdent env ("LDC_LLVM_" ++ LDC_LLVM_VER) s, failed := false }

/-- The part of `cppmain` from the loop "Create Modules" on, for the list
`files` and `global.params` as `parseCommandLine` left them. -/
def createAndCompile (env : Env X) (g : Global) (o : Opts) (p : Params)
    (files : List String) (w : World X) : Run X :=
  -- Create Modules
  let c := createModules env g files 0 p [] { world := w, trace := [] }
  Run.after c.st.trace <|
  if c.failed then fatal c.st.world c.modules
  else
  -- Read files
  let r := readFiles env g c.modules { world := c.st.world, trace := [] }
  Run.after r.trace <|
  compileModules env g o c.params c.modules r.world

/-- The function `cppmain`, from the call of `parseCommandLine` on, for the
switches `o` and the initial world `w0`. Setting up the target machine and the
target ABI is the single external call `targetSetup`; the target it has set up
is then read (`env.target`) by `registerPredefinedVersions`. The front-end
initialisation ("Initialization") and the two import search paths are the
single external call `frontEndInit`. `dumpPredefinedVersions` only prints. -/
def cppmain (env : Env X) (g : Global) (o : Opts) (w0 : World X) : Run X :=
  let cl := parseCommandLine env g o { world := w0, trace := [] }
  Run.after cl.st.trace <|
  if cl.sourceFiles.length = 0 && !cl.helpOnly then
    { exit := Exit.returned EXIT_FAILURE, world := cl.st.world,
      trace := [Event.PrintHelpMessage], modules := [] }
  else
  checkErrors CheckSite.afterCommandLine cl.st.world [] <|
  let t := targetSwitches o { world := cl.st.world, trace := [] }
  Run.after t.trace <|
  checkErrors CheckSite.afterTargetSwitches t.world [] <|
  call Event.targetSetup env.targetSetup t.world fun w =>
  -- Set predefined version identifiers.
  let v := registerPredefinedVersions env o cl.params (env.target w) { world := w, trace := [] }
  Run.after v.st.trace <|
  if v.failed then fatal v.st.world []
  else
  call Event.frontEndInit env.frontEndInit v.st.world fun w =>
  createAndCompile env g o cl.params
    (if cl.params.addMain then cl.sourceFiles ++ [g.main_d] else cl.sourceFiles) w

/-! ## A concrete environment, for evaluating the driver on examples -/

/-- The target `x86_64-unknown-linux-gnu`. -/
def linuxTarget : Target where
  arch := Arch.x86_64
  archName := "x86_64"
  str := "x86_64-unknown-linux-gnu"
  os := OS.Linux
  isAndroid := false
  isKnownWindowsMSVCEnvironment := false
  isWindowsGNUEnvironment := false
  isWindowsCygwinEnvironment := false
  floatABIType := FloatABI.Hard
  isPIC := false
  isLittleEndian := true
  mipsABI := MipsABI.Unknown
  isLP64 := true
  is64bit := true
  hasObjectiveC := false

/-- An environment whose external functions leave the world as it is: the
target is `linuxTarget`, no stage reports anything, no module is a
documentation file, the cache never has the artifact, the linker succeeds.
`forceExt` replaces the extension and `combine` joins with `/`. -/
def quietEnv : Env Unit where
  isValidIdentifier := fun _ => true
  setGlobalLevel := fun _ _ w => w
  addGlobalIdent := fun _ _ w => w
  deprecation := fun w => w
  targetSetup := fun w => w
  target := fun _ => linuxTarget
  addPredefinedGlobalIdent := fun _ w => w
  frontEndInit := fun w => w
  isOSWindows := fun _ => false
  forceExt := fun name ext =>
    match FileName.ext name with
    | some e => String.mk (name.data.take (name.data.length - e.data.length)) ++ ext
    | none => name ++ "." ++ ext
  combine := fun dir name => dir ++ "/" ++ name
  srcfileName := fun m => m.file
  create := fun _ w => w
  setbuffer := fun _ w => w
  read := fun _ w => w
  attemptRecoverFromCache := fun _ _ w => (false, w)
  parse := fun _ w => w
  buildTargetFiles := fun _ _ _ w => w
  deleteObjFile := fun _ w => w
  isDocFile := fun _ _ => false
  gendocfile := fun _ w => w
  genhdrfile := fun _ w => w
  importAll := fun _ w => w
  semantic := fun _ w => w
  runDeferredSemantic := fun w => w
  semantic2 := fun _ w => w
  semantic3 := fun _ w => w
  runDeferredSemantic3 := fun w => w
  writeModuleDependencyFile := fun w => w
  codeGenerator := fun _ w => w
  emit := fun _ w => w
  codeGeneratorDone := fun w => w
  emitJson := fun _ w => w
  pruneCache := fun w => w
  freeRuntime := fun w => w
  linkObjToBinary := fun _ _ w => (0, w)
  createStaticLibrary := fun w => (0, w)
  runExecutable := fun w => (0, w)
  deleteExecutable := fun w => w

/-- The world at the start of a run: no error, no warning, no object file. -/
def World.start : World Unit :=
  { errors := 0, warnings := 0, objfiles := [], ext := () }

/-- The switches `-c -singleobj -of=foo.ll` with a cache directory, for the
source file `foo.d`. -/
def optsLlOutput : Opts :=
  { compileOnly := true, singleObj := true, p_singleObj := true,
    objectFile := some "foo.ll", ir2objCacheDir := "cache", fileList := ["foo.d"] }

/-- The switches `-singleobj -of=foo.o` with a cache directory and without
`-c`, for the source file `foo.d`. -/
def optsLinking : Opts :=
  { singleObj := true, p_singleObj := true, objectFile := some "foo.o",
    ir2objCacheDir := "cache", fileList := ["foo.d"] }

/-- The switch `-c` alone (one object file per module, no cache directory),
for the source file `foo.d`. -/
def optsCompileOnly : Opts :=
  { compileOnly := true, fileList := ["foo.d"] }

/-- The module the intake creates for the single argument `foo.d`. -/
def fooModule : Module :=
  { index := 0, file := "foo.d", ident := "foo" }

/-- The environment `quietEnv` in which the drain after semantic pass 1,
`Module::runDeferredSemantic`, reports one error. -/
def failingDrainEnv : Env Unit :=
  { quietEnv with runDeferredSemantic := World.error }

/-! ## Vocabulary for the statements -/

/-- What `registerPredefinedVersions` leaves in the run of `cppmain` for the
switches `o` (when the run gets that far): it is called in the world
`targetSetup` leaves, for the target read there. -/
def registered (env : Env X) (g : Global) (o : Opts) (w0 : World X) : Registered X :=
  let cl := parseCommandLine env g o { world := w0, trace := [] }
  let t := targetSwitches o { world := cl.st.world, trace := [] }
  let w := env.targetSetup t.world
  registerPredefinedVersions env o cl.params (env.target w) { world := w, trace := [] }

/-- The state of the intake loop when it ends, in the run of `cppmain` for the
switches `o` (when the run gets that far): `global.params` as the cache check
and the pipeline read them, and the array `modules` as created. -/
def intake (env : Env X) (g : Global) (o : Opts) (w0 : World X) : Intake X :=
  let cl := parseCommandLine env g o { world := w0, trace := [] }
  let files := if cl.params.addMain then cl.sourceFiles ++ [g.main_d] else cl.sourceFiles
  createModules env g files 0 cl.params []
    { world := env.frontEndInit (registered env g o w0).st.world, trace := [] }

/-- Whether the run of `cppmain` arrives at the cache check: some file is given
(or help is asked for), the command line and the target switches report no
error, the target is supported (`registerPredefinedVersions` does not leave
through `fatal()`), and the intake rejects no file name. -/
def reachesCacheCheck (env : Env X) (g : Global) (o : Opts) (w0 : World X) : Bool :=
  let cl := parseCommandLine env g o { world := w0, trace := [] }
  let t := targetSwitches o { world := cl.st.world, trace := [] }
  !(decide (cl.sourceFiles.length = 0) && !cl.helpOnly) &&
    decide (cl.st.world.errors = 0) && decide (t.world.errors = 0) &&
    !(registered env g o w0).failed &&
    !(intake env g o w0).failed

/-- The world and the events of a run of `cppmain` when it arrives at the
cache check, after the loop "Read files". -/
def atCacheCheck (env : Env X) (g : Global) (o : Opts) (w0 : World X) : St X :=
  let cl := parseCommandLine env g o { world := w0, trace := [] }
  let t := targetSwitches o { world := cl.st.world, trace := [] }
  let c := intake env g o w0
  let r := readFiles env g c.modules { world := c.st.world, trace := [] }
  { world := r.world,
    trace := cl.st.trace ++ ([Event.check CheckSite.afterCommandLine 0 cl.st.world.warnings] ++
      (t.trace ++ ([Event.check CheckSite.afterTargetSwitches 0 t.world.warnings] ++
        ([Event.targetSetup] ++ ((registered env g o w0).st.trace ++
          ([Event.frontEndInit] ++ (c.st.trace ++ r.trace))))))) }

/-- The stages of the pipeline, in the order of the coordinator. -/
inductive Stage where
  | parse
  | hdrgen
  | importAll
  | semantic
  | deferred
  | semantic2
  | semantic3
  | deferred3
  | codegen
deriving DecidableEq, Repr

/-- The position of a stage in the pipeline. -/
def Stage.order : Stage → Nat
  | Stage.parse => 0
  | Stage.hdrgen => 1
  | Stage.importAll => 2
  | Stage.semantic => 3
  | Stage.deferred => 4
  | Stage.semantic2 => 5
  | Stage.semantic3 => 6
  | Stage.deferred3 => 7
  | Stage.codegen => 8

/-- The stage an event is an invocation of: `Module::parse`, `genhdrfile`,
`importAll`, `semantic`, `runDeferredSemantic`, `semantic2`, `semantic3`,
`runDeferredSemantic3`, `CodeGenerator::emit`; `none` for every other event. -/
def Event.stage : Event → Option Stage
  | Event.parse _ => some Stage.parse
  | Event.genhdrfile _ => some Stage.hdrgen
  | Event.importAll _ => some Stage.importAll
  | Event.semantic _ => some Stage.semantic
  | Event.runDeferredSemantic => some Stage.deferred
  | Event.semantic2 _ => some Stage.semantic2
  | Event.semantic3 _ => some Stage.semantic3
  | Event.runDeferredSemantic3 => some Stage.deferred3
  | Event.emit _ => some Stage.codegen
  | _ => none

/-- The invocation of a stage function on a module (the two drains take no
module). -/
def Stage.call : Stage → Module → Event
  | Stage.parse, m => Event.parse m
  | Stage.hdrgen, m => Event.genhdrfile m
  | Stage.importAll, m => Event.importAll m
  | Stage.semantic, m => Event.semantic m
  | Stage.deferred, _ => Event.runDeferredSemantic
  | Stage.semantic2, m => Event.semantic2 m
  | Stage.semantic3, m => Event.semantic3 m
  | Stage.deferred3, _ => Event.runDeferredSemantic3
  | Stage.codegen, m => Event.emit m

/-- The successor of a batch stage among importAll, semantic (pass 1),
semantic2, semantic3 and code generation. -/
def Stage.nextBatch : Stage → Option Stage
  | Stage.importAll => some Stage.semantic
  | Stage.semantic => some Stage.semantic2
  | Stage.semantic2 => some Stage.semantic3
  | Stage.semantic3 => some Stage.codegen
  | _ => none

/-- Whether an event is an invocation of a pipeline stage function. -/
def Event.isStage (e : Event) : Bool := e.stage.isSome

/-- Whether an event is a step of the final link / archive / run part. -/
def Event.isLink : Event → Bool
  | Event.linkObjToBinary => true
  | Event.createStaticLibrary => true
  | Event.runExecutable => true
  | _ => false

/-- Whether an event is a call of `attemptRecoverFromCache`. -/
def Event.isRecover : Event → Bool
  | Event.attemptRecoverFromCache _ _ => true
  | _ => false

/-- Whether an event is a call of `attemptRecoverFromCache` that returned
true. -/
def Event.isHit : Event → Bool
  | Event.attemptRecoverFromCache _ hit => hit
  | _ => false

/-- Whether an event is a check of the counters that read a nonzero
`global.errors` or a nonzero `global.warnings`. -/
def Event.readsNonzero : Event → Bool
  | Event.check _ e wn => e != 0 || wn != 0
  | _ => false

/-- The events of `cppmain` up to and including the loop "Read files". -/
def Event.isIntake : Event → Bool
  | Event.error _ => true
  | Event.deprecation => true
  | Event.setLevel _ _ => true
  | Event.addIdent _ _ => true
  | Event.PrintHelpMessage => true
  | Event.targetSetup => true
  | Event.addPredefinedGlobalIdent _ => true
  | Event.frontEndInit => true
  | Event.create _ => true
  | Event.setbuffer _ => true
  | Event.read _ => true
  | Event.check CheckSite.afterCommandLine _ _ => true
  | Event.check CheckSite.afterTargetSwitches _ _ => true
  | Event.fatal => true
  | _ => false

/-- The six checks that follow a batch loop of the front end, with the stage
of the loop: parse, header generation, importAll, semantic, semantic2,
semantic3. -/
def CheckSite.batchStage : CheckSite → Option Stage
  | CheckSite.afterParse => some Stage.parse
  | CheckSite.afterHdrGeneration => some Stage.hdrgen
  | CheckSite.afterImportAll => some Stage.importAll
  | CheckSite.afterSemantic => some Stage.semantic
  | CheckSite.afterSemantic2 => some Stage.semantic2
  | CheckSite.afterSemantic3 => some Stage.semantic3
  | _ => none

/-- The events of `cppmain` from the loop "Parse files" on. -/
def Event.isPipeline : Event → Bool
  | Event.error _ => true
  | Event.parse _ => true
  | Event.buildTargetFiles _ => true
  | Event.deleteObjFile _ => true
  | Event.gendocfile _ => true
  | Event.genhdrfile _ => true
  | Event.importAll _ => true
  | Event.semantic _ => true
  | Event.runDeferredSemantic => true
  | Event.semantic2 _ => true
  | Event.semantic3 _ => true
  | Event.runDeferredSemantic3 => true
  | Event.writeModuleDependencyFile => true
  | Event.codeGenerator => true
  | Event.emit _ => true
  | Event.codeGeneratorDone => true
  | Event.emitJson => true
  | Event.pruneCache => true
  | Event.freeRuntime => true
  | Event.linkObjToBinary => true
  | Event.createStaticLibrary => true
  | Event.runExecutable => true
  | Event.deleteExecutable => true
  | Event.check CheckSite.afterCommandLine _ _ => false
  | Event.check CheckSite.afterTargetSwitches _ _ => false
  | Event.check _ _ _ => true
  | Event.fatal => true
  | _ => false

/-- The events of `cppmain` from `writeModuleDependencyFile()` on. -/
def Event.isBackEnd : Event → Bool
  | Event.error _ => true
  | Event.deleteObjFile _ => true
  | Event.gendocfile _ => true
  | Event.writeModuleDependencyFile => true
  | Event.codeGenerator => true
  | Event.emit _ => true
  | Event.codeGeneratorDone => true
  | Event.emitJson => true
  | Event.pruneCache => true
  | Event.freeRuntime => true
  | Event.linkObjToBinary => true
  | Event.createStaticLibrary => true
  | Event.runExecutable => true
  | Event.deleteExecutable => true
  | Event.check CheckSite.afterEmit _ _ => true
  | Event.check CheckSite.afterShutdown _ _ => true
  | Event.fatal => true
  | _ => false

/-- Fail-fast from position `k` of the pipeline on: whenever one of the six
batch checks of the run reads a nonzero error count, the stage of that check
is at position `k` or later, the run ends through `fatal()` right after the
check, and no stage after the stage of the check is invoked. -/
def FailFast (k : Nat) (r : Run X) : Prop :=
  ∀ (gt : CheckSite) (st : Stage) (e wn : Nat), gt.batchStage = some st → e ≠ 0 →
    Event.check gt e wn ∈ r.trace →
    k ≤ st.order ∧ r.exit = Exit.fatal ∧
    (∃ pre, r.trace = pre ++ [Event.check gt e wn, Event.fatal]) ∧
    ∀ ev ∈ r.trace, ∀ st', ev.stage = some st' → st'.order ≤ st.order

/-- The stage invocations that follow the parse loop in a run that passes
every check, for the modules `active` the parse loop leaves: the order of the
coordinator. Headers are generated only with `doHdrGeneration`, code only with
`global.params.obj`. -/
def afterParseStages (p : Params) (active : List Module) : List Event :=
  (if p.doHdrGeneration then active.map Event.genhdrfile else []) ++
  (active.map Event.importAll ++
  (active.map Event.semantic ++
  ([Event.runDeferredSemantic] ++
  (active.map Event.semantic2 ++
  (active.map Event.semantic3 ++
  ([Event.runDeferredSemantic3] ++
  (if p.obj then active.map Event.emit else [])))))))

/-- The stage invocations of a run that passes every check, for the modules
`all` the parse loop starts with and the modules `active` it leaves: parse,
header generation (only with `doHdrGeneration`), importAll, semantic (pass 1),
`runDeferredSemantic`, semantic2, semantic3, `runDeferredSemantic3`, code
generation (only with `global.params.obj`). -/
def expectedStages (p : Params) (all active : List Module) : List Event :=
  all.map Event.parse ++ afterParseStages p active

/-- The stage invocations of the run `r` are an initial part of the list `E`,
and they are all of `E`, with the run returning a status, when every check of
the run reads zero errors and zero warnings. -/
def StagesOf (E : List Event) (r : Run X) : Prop :=
  r.trace.filter Event.isStage <+: E ∧
  ((∀ gt e wn, Event.check gt e wn ∈ r.trace → e = 0 ∧ wn = 0) →
    (∃ status, r.exit = Exit.returned status) ∧ r.trace.filter Event.isStage = E)

/-- Eligibility for a cache short-circuit as the specification words it: the
conjunction of single-object mode, object emission requested, no bitcode /
IR-text / assembly dump, no doc / JSON / header generation. -/
def eligibleBySpec (o : Opts) (p : Params) : Bool :=
  p.singleObj && !o.dontWriteObj &&
  !o.output_bc && !o.output_ll && !o.output_s &&
  !p.doDocComments && !p.doJsonGeneration && !p.doHdrGeneration

/-! ## More examples -/

/-- The environment `quietEnv` with a cache that has the artifact:
`attemptRecoverFromCache` returns true. -/
def hitEnv : Env Unit :=
  { quietEnv with attemptRecoverFromCache := fun _ _ w => (true, w) }

/-- The switches `-c -singleobj -of=foo.o` with a cache directory, for the
source file `foo.d`. -/
def optsCached : Opts :=
  { compileOnly := true, singleObj := true, p_singleObj := true,
    objectFile := some "foo.o", ir2objCacheDir := "cache", fileList := ["foo.d"] }

/-- The switch `-c` alone, for the source files `a.d` and `b.d`. -/
def optsTwoModules : Opts :=
  { compileOnly := true, fileList := ["a.d", "b.d"] }

/-- The modules the intake creates for the arguments `a.d` and `b.d`. -/
def aModule : Module :=
  { index := 0, file := "a.d", ident := "a" }

def bModule : Module :=
  { index := 1, file := "b.d", ident := "b" }

/-- The environment `quietEnv` in which `CodeGenerator::emit` reports one
error for every module. -/
def failingEmitEnv : Env Unit :=
  { quietEnv with emit := fun _ w => w.error }

/-- The environment `quietEnv` in which `Module::parse` raises
`global.warnings` by one and reports no error. -/
def warningParseEnv : Env Unit :=
  { quietEnv with parse := fun _ w => { w with warnings := w.warnings + 1 } }

/-! ## Vocabulary for the checks of the counters -/

/-- Whether the check at the site `g` that reads the counters `e` and `wn`
calls `fatal()`: a nonzero `global.errors`, or, at the check that follows
`Module::runDeferredSemantic3()`, a nonzero `global.warnings`. -/
def CheckSite.fails (g : CheckSite) (e wn : Nat) : Bool :=
  e != 0 || (g == CheckSite.afterDeferredSemantic3 && wn != 0)

/-- Every check of the run decides at once: a check that fails is followed by
`fatal()` and nothing else, and the run ends through `fatal()`; a check that
does not fail is not followed by `fatal()`. -/
def Checked (r : Run X) : Prop :=
  ∀ pre g e wn post, r.trace = pre ++ Event.check g e wn :: post →
    (g.fails e wn = true → post = [Event.fatal] ∧ r.exit = Exit.fatal) ∧
    (g.fails e wn = false → post.head? ≠ some Event.fatal)

/-- A run in which every check decides at once and which does not begin with
`fatal()`: what may follow a check that does not fail. -/
def CheckedStart (r : Run X) : Prop :=
  r.trace.head? ≠ some Event.fatal ∧ Checked r

/-- Every check inside the `emit` loop directly follows a call of
`CodeGenerator::emit`. -/
def FollowsEmit (t : List Event) : Prop :=
  ∀ pre e wn post, t = pre ++ Event.check CheckSite.afterEmit e wn :: post →
    ∃ pre' m, pre = pre' ++ [Event.emit m]

/-- The events of the last part of `cppmain`, after the check that follows
`freeRuntime()`: link, archive, run, and the errors about missing object
files. -/
def Event.isFinish : Event → Bool
  | Event.error _ => true
  | Event.linkObjToBinary => true
  | Event.createStaticLibrary => true
  | Event.runExecutable => true
  | Event.deleteObjFile _ => true
  | Event.deleteExecutable => true
  | _ => false

/-! ## Vocabulary for the order of the events -/

/-- The position of an event in the order of `cppmain`; `none` for the events
that occur at more than one position: a reported error, `deleteObjFile` (parse
loop and after `runExecutable`) and `gendocfile` (parse loop and documentation
generation). A check has the position that follows what it checks; the check
inside the `emit` loop shares the position of `emit`; the registration of the
predefined versions and the front-end initialisation share the position of
the target setup. -/
def Event.rank : Event → Option Nat
  | Event.deprecation => some 0
  | Event.setLevel _ _ => some 0
  | Event.addIdent _ _ => some 0
  | Event.PrintHelpMessage => some 1
  | Event.check CheckSite.afterCommandLine _ _ => some 1
  | Event.check CheckSite.afterTargetSwitches _ _ => some 2
  | Event.targetSetup => some 3
  | Event.addPredefinedGlobalIdent _ => some 3
  | Event.frontEndInit => some 3
  | Event.create _ => some 4
  | Event.setbuffer _ => some 5
  | Event.read _ => some 5
  | Event.attemptRecoverFromCache _ _ => some 6
  | Event.parse _ => some 7
  | Event.buildTargetFiles _ => some 7
  | Event.check CheckSite.afterParse _ _ => some 8
  | Event.genhdrfile _ => some 9
  | Event.check CheckSite.afterHdrGeneration _ _ => some 10
  | Event.importAll _ => some 11
  | Event.check CheckSite.afterImportAll _ _ => some 12
  | Event.semantic _ => some 13
  | Event.check CheckSite.afterSemantic _ _ => some 14
  | Event.runDeferredSemantic => some 15
  | Event.semantic2 _ => some 16
  | Event.check CheckSite.afterSemantic2 _ _ => some 17
  | Event.semantic3 _ => some 18
  | Event.check CheckSite.afterSemantic3 _ _ => some 19
  | Event.runDeferredSemantic3 => some 20
  | Event.check CheckSite.afterDeferredSemantic3 _ _ => some 21
  | Event.writeModuleDependencyFile => some 22
  | Event.codeGenerator => some 23
  | Event.emit _ => some 24
  | Event.check CheckSite.afterEmit _ _ => some 24
  | Event.codeGeneratorDone => some 25
  | Event.emitJson => some 26
  | Event.pruneCache => some 27
  | Event.freeRuntime => some 28
  | Event.check CheckSite.afterShutdown _ _ => some 29
  | Event.linkObjToBinary => some 30
  | Event.createStaticLibrary => some 30
  | Event.runExecutable => some 31
  | Event.deleteExecutable => some 32
  | Event.fatal => some 33
  | Event.error _ => none
  | Event.deleteObjFile _ => none
  | Event.gendocfile _ => none

/-- The event `a` does not belong after the event `b`. -/
def Event.notAfter (a b : Event) : Prop :=
  ∀ i j, a.rank = some i → b.rank = some j → i ≤ j

/-- The events `t` occur in the order of `cppmain`, from position `k` on. -/
def Ordered (k : Nat) (t : List Event) : Prop :=
  t.Pairwise Event.notAfter ∧ ∀ x ∈ t, ∀ i, x.rank = some i → k ≤ i

/-- The stages whose loop over the active modules has no check inside, after
the parse loop: header generation, importAll, semantic, semantic2,
semantic3. -/
def Stage.isBatch : Stage → Bool
  | Stage.hdrgen => true
  | Stage.importAll => true
  | Stage.semantic => true
  | Stage.semantic2 => true
  | Stage.semantic3 => true
  | _ => false

/-- Among the events `t`, a batch stage that is invoked at all is invoked on
every module of `ms`. -/
def WholeBatches (ms : List Module) (t : List Event) : Prop :=
  ∀ s : Stage, s.isBatch = true → (∃ x ∈ t, x.stage = some s) → ∀ m ∈ ms, s.call m ∈ t

/-- The events `t` occur in the order of `cppmain` from position `k` on, in
whole batches over the modules `ms`. -/
def Scheduled (ms : List Module) (k : Nat) (t : List Event) : Prop :=
  Ordered k t ∧ WholeBatches ms t

/-! ## The parse stage, module by module -/

/-- The parse stage as the specification words it: every module is parsed
once, in the order of the array, and the answer of `isDocFile` after its parse
says whether the module is a documentation file (which is then generated and
dropped). The result lists the modules with that answer, and gives the world
the stage leaves. -/
def parseBatch (env : Env X) (o : Opts) :
    List Module → World X → List (Module × Bool) × World X
  | [], w => ([], w)
  | m :: rest, w =>
    let w3 := env.deleteObjFile m
      (env.buildTargetFiles m o.singleObj (o.createSharedLib || o.createStaticLib)
        (env.parse m w))
    let doc := env.isDocFile m w3
    let r := parseBatch env o rest (if doc then env.gendocfile m w3 else w3)
    ((m, doc) :: r.1, r.2)

/-- The events of the parse stage, for the modules with their `isDocFile`
answers. -/
def parseEvents : List (Module × Bool) → List Event
  | [] => []
  | (m, doc) :: rest =>
    [Event.parse m, Event.buildTargetFiles m, Event.deleteObjFile m] ++
      ((if doc then [Event.gendocfile m] else []) ++ parseEvents rest)

/-- The modules whose `isDocFile` answer is false, in their original order. -/
def activeModules (l : List (Module × Bool)) : List Module :=
  (l.filter fun d => !d.2).map Prod.fst

/-- The environment `quietEnv` in which the module of `b.dd` is a
documentation file. -/
def docEnv : Env Unit :=
  { quietEnv with isDocFile := fun m _ => m.file == "b.dd" }

/-- The module the intake creates for the second argument `b.dd`. -/
def docModule : Module :=
  { index := 1, file := "b.dd", ident := "b" }

/-! ## The lifecycle of one module -/

/-- The stage functions of the lifecycle of the module `m`, in the order of
the lifecycle: `read`, `parse`, `importAll`, `semantic`, `semantic2`,
`semantic3`, `CodeGenerator::emit`. -/
def lifecycle (m : Module) : List Event :=
  [Event.read m, Event.parse m, Event.importAll m, Event.semantic m, Event.semantic2 m,
    Event.semantic3 m, Event.emit m]

/-! ## Vocabulary for the intake -/

/-- Whether the intake loop rejects a file with a fatal error. -/
def FileKind.isRejected : FileKind → Bool
  | FileKind.unrecognized _ => true
  | FileKind.invalid => true
  | _ => false

/-- Whether an event is a call of `Module::create`. -/
def Event.isCreate : Event → Bool
  | Event.create _ => true
  | _ => false

/-- The files the intake loop takes before it stops: all of them, or those
before the first rejected file. -/
def acceptedFiles (g : Global) (files : List String) : List String :=
  files.takeWhile fun file => !(classify g file).isRejected

/-- The `Module` objects for the source files among `files`, in input order;
`i` is the index of the first file in the array `files` of the driver. -/
def sourceModules (g : Global) : Nat → List String → List Module
  | _, [] => []
  | i, file :: rest =>
    match classify g file with
    | FileKind.source name =>
      { index := i, file := file, ident := name } :: sourceModules g (i + 1) rest
    | _ => sourceModules g (i + 1) rest

/-- The intake classification as the specification words it, on a POSIX host,
with the test for a source file first: a base name without extension, or with
the extension `d` or `di` (compared case-insensitively) or `dd`, is a source
file, and the module is named after the base name without its extension,
which must not be empty, `.` or `..`; `o` and `bc` are object files, `a` a
library, `ddoc` a documentation macro file, `json` the JSON file; any other
extension is not recognized. -/
def kindBySpec (file : String) : FileKind :=
  let base := FileName.name file
  match FileName.ext base with
  | none => if base == "" then FileKind.invalid else FileKind.source base
  | some ext =>
    if stricmpEq ext "d" || stricmpEq ext "di" || ext == "dd" then
      let name := String.mk (base.data.take (base.data.length - (ext.data.length + 1)))
      if name == "" || name == ".." || name == "." then FileKind.invalid
      else FileKind.source name
    else if ext == "o" || ext == "bc" then FileKind.objfile
    else if ext == "a" then FileKind.libfile
    else if ext == "ddoc" then FileKind.ddocfile
    else if ext == "json" then FileKind.jsonfile
    else FileKind.unrecognized ext

/-- The switch `-c` alone, for the file `.d`, a base name that is all
extension. -/
def optsHiddenName : Opts :=
  { compileOnly := true, fileList := [".d"] }

/-! ## Vocabulary for the command line and the cache check -/

/-- Whether an event is a reported error. -/
def Event.isError : Event → Bool
  | Event.error _ => true
  | _ => false

/-- Whether an event is a call of `read` or of `setbuffer`, the two ways the
loop "Read files" gives a module its source. -/
def Event.isRead : Event → Bool
  | Event.read _ => true
  | Event.setbuffer _ => true
  | _ => false

/-- The switches `-c -singleobj -of=foo.o` with a cache directory, for the
file `foo.xyz`, whose extension the intake does not recognize. -/
def optsCachedBadFile : Opts :=
  { compileOnly := true, singleObj := true, p_singleObj := true,
    objectFile := some "foo.o", ir2objCacheDir := "cache", fileList := ["foo.xyz"] }

/-! ## The deferred queue -/

/-- Modelled from the spec: one drain pass of the deferred queue (the body of
`Module::runDeferredSemantic` and `Module::runDeferredSemantic3`, ddmd, not
under src/). All currently queued items are visited in insertion order;
`resolve` is the resolution action of an item: it changes the state and
returns the items it defers. The pass returns the state it leaves and the
items added during the pass, in insertion order. -/
def drainPass {ι σ : Type} (resolve : ι → σ → σ × List ι) : List ι → σ → σ × List ι
  | [], s => (s, [])
  | item :: rest, s =>
    let r := resolve item s
    let q := drainPass resolve rest r.1
    (q.1, r.2 ++ q.2)

/-- Modelled from the spec: how a drain of the deferred queue ends (ddmd, not
under src/): at a fixpoint, or with the error
`DeferredResolutionNonConvergence`, which carries the items still pending. -/
inductive DrainResult (ι σ : Type) where
  | fixpoint (state : σ)
  | nonConvergence (state : σ) (pending : List ι)

/-- Modelled from the spec: the drain of the deferred queue (ddmd, not under
src/): drain passes are repeated until a pass adds zero new items (fixpoint)
or the configured iteration bound is hit, which is a hard error. -/
def drain {ι σ : Type} (resolve : ι → σ → σ × List ι) :
    Nat → List ι → σ → DrainResult ι σ
  | 0, queue, s =>
    if queue.isEmpty then DrainResult.fixpoint s else DrainResult.nonConvergence s queue
  | bound + 1, queue, s =>
    let r := drainPass resolve queue s
    if r.2.isEmpty then DrainResult.fixpoint r.1 else drain resolve bound r.2 r.1

/-- The state and the queue after `k` drain passes in a row. -/
def drainPasses {ι σ : Type} (resolve : ι → σ → σ × List ι) :
    Nat → List ι → σ → σ × List ι
  | 0, queue, s => (s, queue)
  | k + 1, queue, s =>
    drainPasses resolve k (drainPass resolve queue s).2 (drainPass resolve queue s).1

/-! ## More examples and vocabulary: the last part of `cppmain`, `processVersions` -/

/-- The command line `b.dd` alone (no `-c`, so the driver is to link), for a
documentation source file. -/
def optsDocOnly : Opts :=
  { fileList := ["b.dd"] }

/-- The switches `-c -singleobj -of=foo.o` with a cache directory, for the
source file `foo.d` and the JSON file `x.json`. -/
def optsCachedJson : Opts :=
  { compileOnly := true, singleObj := true, p_singleObj := true,
    objectFile := some "foo.o", ir2objCacheDir := "cache", fileList := ["foo.d", "x.json"] }

/-- The array `files` the intake loop of `cppmain` goes through: the list
`sourceFiles` of `parseCommandLine`, and `global.main_d` with `-main`. -/
def inputFiles (env : Env X) (g : Global) (o : Opts) (w0 : World X) : List String :=
  let cl := parseCommandLine env g o { world := w0, trace := [] }
  if cl.params.addMain then cl.sourceFiles ++ [g.main_d] else cl.sourceFiles

/-- What `processVersions` does with one entry of its list, as one event: an
entry that begins with a decimal digit gives `setLevel(n)` when the whole
entry is a decimal number `n` with `n <= INT_MAX`, and the error "Invalid ...
level" otherwise; an entry that does not begin with a digit gives `addIdent`
of the entry when `Identifier::isValidIdentifier` accepts it, and the error
"Invalid ... identifier or level" otherwise. -/
def versionEvent (env : Env X) (kind : CondKind) (i : String) : Event :=
  if firstIsDigit i then
    if i.data.all Char.isDigit && decide (digitsValue i.data ≤ INT_MAX) then
      Event.setLevel kind (digitsValue i.data)
    else Event.error ("Invalid " ++ kind.type ++ " level: " ++ i)
  else if env.isValidIdentifier i then Event.addIdent kind i
  else Event.error ("Invalid " ++ kind.type ++ " identifier or level: '" ++ i ++ "'")

/-- What the one event of an entry does to the world. -/
def versionEffect (env : Env X) (kind : CondKind) (i : String) (w : World X) : World X :=
  match versionEvent env kind i with
  | Event.setLevel k level => env.setGlobalLevel k level w
  | Event.addIdent k ident => env.addGlobalIdent k ident w
  | _ => w.error

/-! ## `tryGetExplicitConfFile` -/

/-- The test `strncmp(a, b, n) == 0`: the two strings agree on their first `n`
characters (on all of them, for a string that ends before). -/
def strncmpEq (a b : String) (n : Nat) : Bool :=
  a.data.take n == b.data.take n

/-- The loop `for (int i = ...; i >= 1; --i)` of `tryGetExplicitConfFile`, from
the index `i` down: the first argument found that starts with `-conf=` gives
the text after these six characters (`argv[i] + 6`). The array `argv` holds
`argc` strings, so every index of the loop is inside the array (the last case
of the `match` does not occur). -/
def tryGetExplicitConfFileFrom (argv : List String) : Nat → Option String
  | 0 => none
  | i + 1 =>
    match argv.get? (i + 1) with
    | some arg =>
      if strncmpEq arg "-conf=" 6 then some (String.mk (arg.data.drop 6))
      else tryGetExplicitConfFileFrom argv i
    | none => tryGetExplicitConfFileFrom argv i

/-- The function `tryGetExplicitConfFile(argc, argv)` for the array `argv` of
`argc` strings: the loop begins at the back, at `argc - 1`; the result is the
null pointer (`none`) when the loop ends without a match. -/
def tryGetExplicitConfFile (argv : List String) : Option String :=
  tryGetExplicitConfFileFrom argv (argv.length - 1)

/-! ## Vocabulary for the run from the parse loop on -/

/-- Whether the cache check of the run finds the artifact: a cache directory
is configured, the build is eligible, an output name is available, and
`attemptRecoverFromCache` returns true. -/
def cacheHit (env : Env X) (g : Global) (o : Opts) (w0 : World X) : Bool :=
  let c := intake env g o w0
  let w := (atCacheCheck env g o w0).world
  c.params.useCompileCache.isSome && canDoSourceCachedBuild o c.params &&
    match cacheFilename env g c.params w with
    | some filename => (env.attemptRecoverFromCache c.modules filename w).1
    | none => false

/-- Whether the run of `cppmain` arrives at the loop "Parse files": it arrives
at the cache check, and the cache check does not return. -/
def reachesParse (env : Env X) (g : Global) (o : Opts) (w0 : World X) : Bool :=
  reachesCacheCheck env g o w0 && !cacheHit env g o w0

/-- The world in which the loop "Parse files" starts: the world the loop "Read
files" leaves, or, when the cache lookup was attempted, the world the lookup
leaves. -/
def atParse (env : Env X) (g : Global) (o : Opts) (w0 : World X) : World X :=
  let c := intake env g o w0
  let w := (atCacheCheck env g o w0).world
  if c.params.useCompileCache.isSome && canDoSourceCachedBuild o c.params then
    match cacheFilename env g c.params w with
    | some filename => (env.attemptRecoverFromCache c.modules filename w).2
    | none => w
  else w

/-- The parse stage of the run, module by module: the modules of the intake
with their `isDocFile` answers, and the world the loop "Parse files" leaves. -/
def parsed (env : Env X) (g : Global) (o : Opts) (w0 : World X) :
    List (Module × Bool) × World X :=
  parseBatch env o (intake env g o w0).modules (atParse env g o w0)

/-- The world a loop `for (unsigned i = 0; i < modules.dim; i++) f(modules[i]);`
leaves. -/
def loopWorld (f : Module → World X → World X) (ms : List Module) (w : World X) : World X :=
  ms.foldl (fun w m => f m w) w

/-- The world in which the part of `cppmain` that follows the parse loop is
when the loop (or the call) of a stage has finished, for the modules `ms` and
the world `w` the parse loop leaves, provided the run gets that far: the
stages follow one another as in `cppmain`, headers are generated only with
`doHdrGeneration`, `runDeferredSemantic` precedes the `semantic2` loop, and
the code generator is constructed, after `writeModuleDependencyFile`, only
with `global.params.obj` and a non-empty array (for code generation the world
is the one after the last `emit`). -/
def stageWorld (env : Env X) (o : Opts) (p : Params) (ms : List Module) (w : World X)
    (s : Stage) : World X :=
  let w1 := if p.doHdrGeneration then loopWorld env.genhdrfile ms w else w
  let w2 := loopWorld env.importAll ms w1
  let w3 := loopWorld env.semantic ms w2
  let w4 := env.runDeferredSemantic w3
  let w5 := loopWorld env.semantic2 ms w4
  let w6 := loopWorld env.semantic3 ms w5
  let w7 := env.runDeferredSemantic3 w6
  match s with
  | Stage.parse => w
  | Stage.hdrgen => w1
  | Stage.importAll => w2
  | Stage.semantic => w3
  | Stage.deferred => w4
  | Stage.semantic2 => w5
  | Stage.semantic3 => w6
  | Stage.deferred3 => w7
  | Stage.codegen =>
    if p.obj && !ms.isEmpty then
      loopWorld env.emit ms (env.codeGenerator o.singleObj (env.writeModuleDependencyFile w7))
    else env.writeModuleDependencyFile w7

/-- The world of the run of `cppmain` when the loop (or the call) of the stage
`s` has finished, provided the run gets that far: for the parse stage, the
world the loop "Parse files" leaves; for a later stage, `stageWorld` for the
modules that loop leaves. -/
def worldAfter (env : Env X) (g : Global) (o : Opts) (w0 : World X) (s : Stage) : World X :=
  stageWorld env o (intake env g o w0).params (activeModules (parsed env g o w0).1)
    (parsed env g o w0).2 s

/-- The six stages whose batch loop is followed by a check of `global.errors`
alone, in the order of `cppmain`. -/
def batchStages : List Stage :=
  [Stage.parse, Stage.hdrgen, Stage.importAll, Stage.semantic, Stage.semantic2,
    Stage.semantic3]

/-- The world after `CodeGenerator::emit` for each module of the `emit` loop,
in the order of the loop, starting in the world `w`, provided the loop gets
that far. -/
def emitWorlds (env : Env X) : List Module → World X → List (Module × World X)
  | [], _ => []
  | m :: rest, w => (m, env.emit m w) :: emitWorlds env rest (env.emit m w)

/-- The modules of the `emit` loop of the run of `cppmain`, each with the world
in which the check inside the loop is evaluated after its `emit`, provided the
run gets that far: the loop is entered with `global.params.obj` and a
non-empty array, after `writeModuleDependencyFile` and the construction of the
code generator. -/
def emitChecks (env : Env X) (g : Global) (o : Opts) (w0 : World X) :
    List (Module × World X) :=
  if (intake env g o w0).params.obj && !(activeModules (parsed env g o w0).1).isEmpty then
    emitWorlds env (activeModules (parsed env g o w0).1)
      (env.codeGenerator o.singleObj
        (env.writeModuleDependencyFile (worldAfter env g o w0 Stage.deferred3)))
  else []

/-! ## More examples -/

/-- The environment `quietEnv` in which `Module::semantic` reports one error
for the module of `a.d` and none for any other module. -/
def failingSemanticEnv : Env Unit :=
  { quietEnv with semantic := fun m w => if m.file == "a.d" then w.error else w }

/-- The switch `-c` alone, for the source files `a.d`, `b.d` and `c.d`. -/
def optsThreeModules : Opts :=
  { compileOnly := true, fileList := ["a.d", "b.d", "c.d"] }

/-- The module the intake creates for the third argument `c.d`. -/
def cModule : Module :=
  { index := 2, file := "c.d", ident := "c" }

/-- The environment `quietEnv` in which `CodeGenerator::emit` reports one
error for the module of `b.d` and none for any other module. -/
def failingEmitOnBEnv : Env Unit :=
  { quietEnv with emit := fun m w => if m.file == "b.d" then w.error else w }

/-- The target `x86_64-pc-windows-cygnus`, a Cygwin environment. -/
def cygwinTarget : Target :=
  { linuxTarget with
    str := "x86_64-pc-windows-cygnus", os := OS.Win32, isWindowsCygwinEnvironment := true }

/-- The environment `quietEnv` for the target `cygwinTarget`. -/
def cygwinEnv : Env Unit :=
  { quietEnv with target := fun _ => cygwinTarget }

/-- A property of both branches is a property of the conditional. -/
theorem ite_of {α : Type} {P : α → Prop} {c : Prop} [Decidable c] {a b : α} (ha : P a)
    (hb : P b) : P (if c then a else b) := by
  split_ifs <;> assumption

/-! ## The events of the registration of the predefined versions, for any property -/

theorem front_error {P : Event → Prop} {s : St X} (hs : ∀ x ∈ s.trace, P x)
    (herr : ∀ msg, P (Event.error msg)) (msg : String) :
    ∀ x ∈ (error s msg).trace, P x := by
  simp only [error, List.forall_mem_append, List.forall_mem_cons]
  exact ⟨hs, herr msg, by simp⟩

theorem front_call {P : Event → Prop} {s : St X} (hs : ∀ x ∈ s.trace, P x) {e : Event}
    (he : P e) (f : World X → World X) :
    ∀ x ∈ (s.call e f).trace, P x := by
  simp only [St.call, List.forall_mem_append, List.forall_mem_cons]
  exact ⟨hs, he, by simp⟩

theorem front_addPredefinedGlobalIdent {P : Event → Prop} (env : Env X) (ident : String)
    (hadd : ∀ i, P (Event.addPredefinedGlobalIdent i)) {s : St X}
    (hs : ∀ x ∈ s.trace, P x) :
    ∀ x ∈ (addPredefinedGlobalIdent env ident s).trace, P x :=
  front_call hs (hadd _) _

theorem front_addPredefinedGlobalIdentIf {P : Event → Prop} (env : Env X) (c : Bool)
    (ident : String) (hadd : ∀ i, P (Event.addPredefinedGlobalIdent i)) {s : St X}
    (hs : ∀ x ∈ s.trace, P x) :
    ∀ x ∈ (addPredefinedGlobalIdentIf env c ident s).trace, P x := by
  unfold addPredefinedGlobalIdentIf
  split_ifs
  · exact front_addPredefinedGlobalIdent env _ hadd hs
  · exact hs

theorem front_registerMipsABI {P : Event → Prop} (env : Env X) (t : Target)
    (hadd : ∀ i, P (Event.addPredefinedGlobalIdent i)) {s : St X}
    (hs : ∀ x ∈ s.trace, P x) :
    ∀ x ∈ (registerMipsABI env t s).trace, P x := by
  unfold registerMipsABI
  split <;> first
    | exact hs
    | exact front_addPredefinedGlobalIdent env _ hadd hs

theorem front_registerPredefinedFloatABI {P : Event → Prop} (env : Env X) (t : Target)
    (soft hard : String) (softfp : Option String)
    (hadd : ∀ i, P (Event.addPredefinedGlobalIdent i)) {s : St X}
    (hs : ∀ x ∈ s.trace, P x) :
    ∀ x ∈ (registerPredefinedFloatABI env t soft hard softfp s).trace, P x := by
  unfold registerPredefinedFloatABI
  dsimp only
  split <;> first
    | exact front_addPredefinedGlobalIdent env _ hadd hs
    | exact front_addPredefinedGlobalIdent env _ hadd
        (front_addPredefinedGlobalIdent env _ hadd hs)

/-- The events of the `switch` on the architecture are registrations of
version identifiers and one reported error. -/
theorem front_registerArchVersions {P : Event → Prop} (env : Env X) (p : Params)
    (t : Target) (hadd : ∀ i, P (Event.addPredefinedGlobalIdent i))
    (herr : ∀ msg, P (Event.error msg)) {s : St X} (hs : ∀ x ∈ s.trace, P x) :
    ∀ x ∈ (registerArchVersions env p t s).st.trace, P x := by
  unfold registerArchVersions
  split <;> (try dsimp only) <;>
    repeat first
      | exact hs
      | refine front_addPredefinedGlobalIdent env _ hadd ?_
      | refine front_addPredefinedGlobalIdentIf env _ _ hadd ?_
      | refine front_registerPredefinedFloatABI env _ _ _ _ hadd ?_
      | refine front_registerMipsABI env _ hadd ?_
      | refine front_error ?_ herr _

/-- The events of the `switch` on the operating system are registrations of
version identifiers and one reported error. -/
theorem front_registerOSVersions {P : Event → Prop} (env : Env X) (t : Target)
    (hadd : ∀ i, P (Event.addPredefinedGlobalIdent i))
    (herr : ∀ msg, P (Event.error msg)) {s : St X} (hs : ∀ x ∈ s.trace, P x) :
    ∀ x ∈ (registerOSVersions env t s).st.trace, P x := by
  unfold registerOSVersions
  split <;> (try dsimp only) <;> (try split_ifs) <;> (try dsimp only) <;>
    repeat first
      | exact hs
      | refine front_addPredefinedGlobalIdent env _ hadd ?_
      | refine front_addPredefinedGlobalIdentIf env _ _ hadd ?_
      | refine front_error ?_ herr _

theorem front_registerPredefinedTargetVersions {P : Event → Prop} (env : Env X)
    (p : Params) (t : Target) (hadd : ∀ i, P (Event.addPredefinedGlobalIdent i))
    (herr : ∀ msg, P (Event.error msg)) {s : St X} (hs : ∀ x ∈ s.trace, P x) :
    ∀ x ∈ (registerPredefinedTargetVersions env p t s).st.trace, P x := by
  unfold registerPredefinedTargetVersions
  dsimp only
  by_cases hf : (registerArchVersions env p t s).failed = true
  · rw [if_pos hf]
    exact front_registerArchVersions env p t hadd herr hs
  · rw [if_neg hf]
    refine front_registerOSVersions env t hadd herr ?_
    refine front_addPredefinedGlobalIdentIf env _ _ hadd ?_
    refine front_addPredefinedGlobalIdentIf env _ _ hadd ?_
    refine front_addPredefinedGlobalIdent env _ hadd ?_
    exact front_registerArchVersions env p t hadd herr hs

/-- The events of `registerPredefinedVersions` are registrations of version
identifiers and, for a target that is not supported, one reported error. -/
theorem front_registerPredefinedVersions {P : Event → Prop} (env : Env X) (o : Opts)
    (p : Params) (t : Target) (hadd : ∀ i, P (Event.addPredefinedGlobalIdent i))
    (herr : ∀ msg, P (Event.error msg)) {s : St X} (hs : ∀ x ∈ s.trace, P x) :
    ∀ x ∈ (registerPredefinedVersions env o p t s).st.trace, P x := by
  have h1 : ∀ x ∈ (registerPredefinedTargetVersions env p t
      (addPredefinedGlobalIdentIf env
        (decide (p.useArrayBounds = BoundsCheck.BOUNDSCHECKoff)) "D_NoBoundsChecks"
        (addPredefinedGlobalIdentIf env p.useAssert "assert"
          (addPredefinedGlobalIdentIf env p.useUnitTests "unittest"
            (addPredefinedGlobalIdentIf env p.doDocComments "D_Ddoc"
              (addPredefinedGlobalIdent env "D_Version2"
                (addPredefinedGlobalIdent env "all"
                  (addPredefinedGlobalIdent env "LDC"
                    (addPredefinedGlobalIdentIf env IN_WEKA "WEKA" s))))))))).st.trace,
      P x := by
    refine front_registerPredefinedTargetVersions env p t hadd herr ?_
    repeat first
      | exact hs
      | refine front_addPredefinedGlobalIdent env _ hadd ?_
      | refine front_addPredefinedGlobalIdentIf env _ _ hadd ?_
  unfold registerPredefinedVersions
  dsimp only
  split_ifs
  · exact h1
  · repeat first
      | exact h1
      | refine front_addPredefinedGlobalIdent env _ hadd ?_
      | refine front_addPredefinedGlobalIdentIf env _ _ hadd ?_

/-- The events of the registration in a run of `cppmain`. -/
theorem front_registered {P : Event → Prop} (env : Env X) (g : Global) (o : Opts)
    (w0 : World X) (hadd : ∀ i, P (Event.addPredefinedGlobalIdent i))
    (herr : ∀ msg, P (Event.error msg)) :
    ∀ x ∈ (registered env g o w0).st.trace, P x :=
  front_registerPredefinedVersions env o _ _ hadd herr (by simp)

/-- The function `cppmain`, step by step, in terms of what the registration of
the predefined versions and the intake leave. -/
theorem cppmain_unfold (env : Env X) (g : Global) (o : Opts) (w0 : World X) :
    cppmain env g o w0 =
      Run.after (parseCommandLine env g o { world := w0, trace := [] }).st.trace
        (if (parseCommandLine env g o { world := w0, trace := [] }).sourceFiles.length = 0 &&
            !(parseCommandLine env g o { world := w0, trace := [] }).helpOnly then
          { exit := Exit.returned EXIT_FAILURE,
            world := (parseCommandLine env g o { world := w0, trace := [] }).st.world,
            trace := [Event.PrintHelpMessage], modules := [] }
        else
          checkErrors CheckSite.afterCommandLine
            (parseCommandLine env g o { world := w0, trace := [] }).st.world []
          (Run.after (targetSwitches o
              { world := (parseCommandLine env g o { world := w0, trace := [] }).st.world,
                trace := [] }).trace
          (checkErrors CheckSite.afterTargetSwitches (targetSwitches o
              { world := (parseCommandLine env g o { world := w0, trace := [] }).st.world,
                trace := [] }).world []
          (Run.after [Event.targetSetup]
          (Run.after (registered env g o w0).st.trace
          (if (registered env g o w0).failed then fatal (registered env g o w0).st.world []
          else
            Run.after [Event.frontEndInit]
            (Run.after (intake env g o w0).st.trace
            (if (intake env g o w0).failed then
              fatal (intake env g o w0).st.world (intake env g o w0).modules
            else
              Run.after (readFiles env g (intake env g o w0).modules
                { world := (intake env g o w0).st.world, trace := [] }).trace
              (compileModules env g o (intake env g o w0).params
                (intake env g o w0).modules
                (readFiles env g (intake env g o w0).modules
                  { world := (intake env g o w0).st.world, trace := [] }).world))))))))) :=
  rfl

/-! ## Basic facts about the combinators -/

@[simp] theorem Run.after_trace (t : List Event) (r : Run X) :
    (r.after t).trace = t ++ r.trace := rfl

@[simp] theorem Run.after_exit (t : List Event) (r : Run X) :
    (r.after t).exit = r.exit := rfl

@[simp] theorem Run.after_world (t : List Event) (r : Run X) :
    (r.after t).world = r.world := rfl

@[simp] theorem Run.after_modules (t : List Event) (r : Run X) :
    (r.after t).modules = r.modules := rfl

theorem Run.after_after (t u : List Event) (r : Run X) :
    (r.after u).after t = r.after (t ++ u) := by
  simp [Run.after, List.append_assoc]

theorem Run.after_nil (r : Run X) : r.after [] = r := rfl

/-- The loop `forEach` runs the rest of the program in the world the calls
leave, after one event per module, in the order of the array. -/
theorem forEach_eq (e : Module → Event) (f : Module → World X → World X)
    (ms : List Module) (w : World X) (k : World X → Run X) :
    forEach e f ms w k = (k (ms.foldl (fun w m => f m w) w)).after (ms.map e) := by
  induction ms generalizing w with
  | nil => rfl
  | cons m rest ih =>
    simp only [forEach, call, ih, List.foldl_cons, List.map_cons, Run.after_after,
      List.singleton_append]

/-! ## Rules for "every event of the trace satisfies `P`" -/

theorem all_call {P : Event → Prop} {e : Event} {f : World X → World X} {w : World X}
    {k : World X → Run X} (he : P e) (hk : ∀ w, ∀ x ∈ (k w).trace, P x) :
    ∀ x ∈ (call e f w k).trace, P x := by
  simp only [call, Run.after_trace, List.forall_mem_append, List.forall_mem_cons]
  exact ⟨⟨he, by simp⟩, hk _⟩

theorem all_callIf {P : Event → Prop} {c : Bool} {e : Event} {f : World X → World X}
    {w : World X} {k : World X → Run X} (he : P e) (hk : ∀ w, ∀ x ∈ (k w).trace, P x) :
    ∀ x ∈ (callIf c e f w k).trace, P x := by
  unfold callIf
  split_ifs
  · exact all_call he hk
  · exact hk _

theorem all_forEach {P : Event → Prop} {e : Module → Event}
    {f : Module → World X → World X} {ms : List Module} {w : World X}
    {k : World X → Run X} (he : ∀ m, P (e m)) (hk : ∀ w, ∀ x ∈ (k w).trace, P x) :
    ∀ x ∈ (forEach e f ms w k).trace, P x := by
  simp only [forEach_eq, Run.after_trace, List.forall_mem_append, List.forall_mem_map]
  exact ⟨fun m _ => he m, hk _⟩

theorem all_forEachIf {P : Event → Prop} {c : Bool} {e : Module → Event}
    {f : Module → World X → World X} {ms : List Module} {w : World X}
    {k : World X → Run X} (he : ∀ m, P (e m)) (hk : ∀ w, ∀ x ∈ (k w).trace, P x) :
    ∀ x ∈ (forEachIf c e f ms w k).trace, P x := by
  unfold forEachIf
  split_ifs
  · exact all_forEach he hk
  · exact hk _

theorem all_checkErrors {P : Event → Prop} {g : CheckSite} {w : World X} {ms : List Module}
    {k : Run X} (hc : ∀ e wn, P (Event.check g e wn)) (hf : P Event.fatal)
    (hk : ∀ x ∈ k.trace, P x) :
    ∀ x ∈ (checkErrors g w ms k).trace, P x := by
  simp only [checkErrors, Run.after_trace, List.forall_mem_append, List.forall_mem_cons]
  refine ⟨⟨hc _ _, by simp⟩, ?_⟩
  split_ifs
  · simpa [fatal] using hf
  · exact hk

theorem all_checkErrorsOrWarnings {P : Event → Prop} {g : CheckSite} {w : World X}
    {ms : List Module} {k : Run X} (hc : ∀ e wn, P (Event.check g e wn))
    (hf : P Event.fatal) (hk : ∀ x ∈ k.trace, P x) :
    ∀ x ∈ (checkErrorsOrWarnings g w ms k).trace, P x := by
  simp only [checkErrorsOrWarnings, Run.after_trace, List.forall_mem_append,
    List.forall_mem_cons]
  refine ⟨⟨hc _ _, by simp⟩, ?_⟩
  split_ifs
  · simpa [fatal] using hf
  · exact hk

theorem all_emitModules (P : Event → Prop) (env : Env X) (all : List Module)
    {k : World X → Run X} (he : ∀ m, P (Event.emit m))
    (hc : ∀ e wn, P (Event.check CheckSite.afterEmit e wn)) (hf : P Event.fatal)
    (hk : ∀ w, ∀ x ∈ (k w).trace, P x) (ms : List Module) (w : World X) :
    ∀ x ∈ (emitModules env all ms w k).trace, P x := by
  induction ms generalizing w with
  | nil => exact hk w
  | cons m rest ih =>
    unfold emitModules
    exact all_call (he m) fun w => all_checkErrors hc hf (ih w)

theorem all_parseFiles (P : Event → Prop) (env : Env X) (o : Opts)
    {k : List Module → World X → Run X}
    (h1 : ∀ m, P (Event.parse m)) (h2 : ∀ m, P (Event.buildTargetFiles m))
    (h3 : ∀ m, P (Event.deleteObjFile m)) (h4 : ∀ m, P (Event.gendocfile m))
    (hk : ∀ ms w, ∀ x ∈ (k ms w).trace, P x) (fuel i : Nat)
    (ms : List Module) (w : World X) :
    ∀ x ∈ (parseFiles env o fuel i ms w k).trace, P x := by
  induction fuel generalizing i ms w with
  | zero =>
    unfold parseFiles
    split_ifs
    · simp
    · exact hk _ _
  | succ fuel ih =>
    unfold parseFiles
    split
    · exact hk _ _
    · dsimp only
      split_ifs <;>
        simp only [Run.after_trace, List.forall_mem_append, List.forall_mem_cons]
      · exact ⟨⟨h1 _, h2 _, h3 _, h4 _, by simp⟩, ih _ _ _⟩
      · exact ⟨⟨h1 _, h2 _, h3 _, by simp⟩, ih _ _ _⟩

/-! ## Which events each part of `cppmain` can produce -/

theorem finish_isPipeline (env : Env X) (o : Opts) (p : Params) (ms : List Module)
    (w : World X) : ∀ e ∈ (finish env o p ms w).trace, e.isPipeline = true := by
  unfold finish
  dsimp only
  split_ifs <;>
    simp only [List.forall_mem_append, List.forall_mem_cons, List.forall_mem_map,
      List.append_assoc, List.cons_append, List.nil_append] <;>
    simp [Event.isPipeline]

theorem backEnd_isPipeline (env : Env X) (o : Opts) (p : Params) (ms : List Module)
    (w : World X) : ∀ e ∈ (backEnd env o p ms w).trace, e.isPipeline = true := by
  have htail : ∀ w : World X, ∀ e ∈
      (forEachIf p.doDocComments Event.gendocfile env.gendocfile ms w fun w =>
        callIf p.doJsonGeneration Event.emitJson (env.emitJson ms) w fun w =>
        call Event.pruneCache env.pruneCache w fun w =>
        call Event.freeRuntime env.freeRuntime w fun w =>
        checkErrors CheckSite.afterShutdown w ms (finish env o p ms w)).trace,
      e.isPipeline = true := fun w =>
    all_forEachIf (fun _ => rfl) fun _ => all_callIf rfl fun _ => all_call rfl fun _ =>
      all_call rfl fun _ => all_checkErrors (fun _ _ => rfl) rfl
        (finish_isPipeline env o p ms _)
  unfold backEnd codegen
  refine all_call rfl fun w => ?_
  split_ifs
  · refine all_call rfl fun w => ?_
    refine all_emitModules (fun e => e.isPipeline = true) env ms (fun _ => rfl)
      (fun _ _ => rfl) rfl ?_ ms w
    intro w
    exact all_call rfl fun w => htail w
  · exact htail _

theorem frontEnd_isPipeline (env : Env X) (o : Opts) (p : Params) (ms : List Module)
    (w : World X) : ∀ e ∈ (frontEnd env o p ms w).trace, e.isPipeline = true := by
  unfold frontEnd
  exact all_checkErrors (fun _ _ => rfl) rfl <|
    all_forEachIf (fun _ => rfl) fun _ => all_checkErrors (fun _ _ => rfl) rfl <|
    all_forEach (fun _ => rfl) fun _ => all_checkErrors (fun _ _ => rfl) rfl <|
    all_forEach (fun _ => rfl) fun _ => all_checkErrors (fun _ _ => rfl) rfl <|
    all_call rfl fun _ => all_forEach (fun _ => rfl) fun _ =>
    all_checkErrors (fun _ _ => rfl) rfl <|
    all_forEach (fun _ => rfl) fun _ => all_checkErrors (fun _ _ => rfl) rfl <|
    all_call rfl fun _ => all_checkErrorsOrWarnings (fun _ _ => rfl) rfl <|
    backEnd_isPipeline env o p ms _

theorem parseAndCompile_isPipeline (env : Env X) (o : Opts) (p : Params)
    (ms : List Module) (w : World X) :
    ∀ e ∈ (parseAndCompile env o p ms w).trace, e.isPipeline = true :=
  all_parseFiles (fun e => e.isPipeline = true) env o (fun _ => rfl) (fun _ => rfl) (fun _ => rfl) (fun _ => rfl)
    (fun ms w => frontEnd_isPipeline env o p ms w) _ _ _ _

/-! ## The events before the cache check -/

theorem error_intake {s : St X} (hs : ∀ x ∈ s.trace, x.isIntake = true) (msg : String) :
    ∀ x ∈ (error s msg).trace, x.isIntake = true := by
  simp only [error, List.forall_mem_append, List.forall_mem_cons]
  exact ⟨hs, rfl, by simp⟩

theorem St.call_intake {s : St X} (hs : ∀ x ∈ s.trace, x.isIntake = true) {e : Event}
    (he : e.isIntake = true) (f : World X → World X) :
    ∀ x ∈ (s.call e f).trace, x.isIntake = true := by
  simp only [St.call, List.forall_mem_append, List.forall_mem_cons]
  exact ⟨hs, he, by simp⟩

theorem initFromString_intake {s : St X} (hs : ∀ x ∈ s.trace, x.isIntake = true)
    (src : Option String) (a : String) :
    ∀ x ∈ (initFromString src a s).2.trace, x.isIntake = true := by
  unfold initFromString
  split
  · exact hs
  · dsimp only
    split_ifs
    · exact error_intake hs _
    · exact hs

theorem processVersion_intake (env : Env X) (kind : CondKind) {s : St X}
    (hs : ∀ x ∈ s.trace, x.isIntake = true) (i : String) :
    ∀ x ∈ (processVersion env kind s i).trace, x.isIntake = true := by
  unfold processVersion
  dsimp only
  split_ifs
  · exact error_intake hs _
  · apply St.call_intake hs
    rfl
  · apply St.call_intake hs
    rfl
  · exact error_intake hs _

theorem processVersions_intake (env : Env X) (kind : CondKind) (list : List String)
    {s : St X} (hs : ∀ x ∈ s.trace, x.isIntake = true) :
    ∀ x ∈ (processVersions env kind list s).trace, x.isIntake = true := by
  unfold processVersions
  induction list generalizing s with
  | nil => exact hs
  | cons i rest ih => exact ih (processVersion_intake env kind hs i)

theorem runSwitch_intake (o : Opts) {s : St X} (hs : ∀ x ∈ s.trace, x.isIntake = true) :
    ∀ x ∈ (runSwitch o s).2.2.trace, x.isIntake = true := by
  unfold runSwitch
  split_ifs
  · split
    · dsimp only
      split
      · split_ifs
        · exact error_intake hs _
        · exact hs
      · exact hs
    · exact error_intake hs _
  · exact hs

theorem outputNames_intake (o : Opts) (dim : Nat) (p : Params) {s : St X}
    (hs : ∀ x ∈ s.trace, x.isIntake = true) :
    ∀ x ∈ (outputNames o dim p s).2.trace, x.isIntake = true := by
  unfold outputNames
  dsimp only
  split_ifs <;> first
    | exact hs
    | exact error_intake hs _
    | exact error_intake (error_intake hs _) _
    | exact error_intake (error_intake (error_intake hs _) _) _

theorem stringOptions_intake (o : Opts) {s : St X}
    (hs : ∀ x ∈ s.trace, x.isIntake = true) :
    ∀ x ∈ (stringOptions o s).2.trace, x.isIntake = true := by
  unfold stringOptions
  dsimp only
  exact initFromString_intake (initFromString_intake (initFromString_intake
    (initFromString_intake (initFromString_intake (initFromString_intake
      (initFromString_intake (initFromString_intake hs o.objectFile "of")
        o.objectDir "od") o.ddocDir "Dd") o.ddocFile "Df") o.jsonFile "Xf")
      o.hdrDir "Hd") o.hdrFile "Hf") o.moduleDepsFile "deps"

theorem parseCommandLine_intake (env : Env X) (g : Global) (o : Opts) (w0 : World X) :
    ∀ x ∈ (parseCommandLine env g o { world := w0, trace := [] }).st.trace,
      x.isIntake = true := by
  unfold parseCommandLine
  dsimp only
  apply outputNames_intake
  have h0 : ∀ x ∈ ({ world := w0, trace := [] } : St X).trace, x.isIntake = true := by
    simp
  have h := runSwitch_intake o
    (processVersions_intake env CondKind.version o.versions
      (processVersions_intake env CondKind.debug o.debugArgs
        (stringOptions_intake o h0)))
  split_ifs
  · apply St.call_intake h
    rfl
  · exact h

theorem targetSwitches_intake (o : Opts) {s : St X}
    (hs : ∀ x ∈ s.trace, x.isIntake = true) :
    ∀ x ∈ (targetSwitches o s).trace, x.isIntake = true := by
  unfold targetSwitches
  dsimp only
  split_ifs <;> first
    | exact hs
    | exact error_intake hs _
    | exact error_intake (error_intake hs _) _

theorem createModules_intake (env : Env X) (g : Global) (files : List String) (i : Nat)
    (p : Params) (ms : List Module) {s : St X} (hs : ∀ x ∈ s.trace, x.isIntake = true) :
    ∀ x ∈ (createModules env g files i p ms s).st.trace, x.isIntake = true := by
  induction files generalizing i p ms s with
  | nil => exact hs
  | cons file rest ih =>
    unfold createModules
    split
    · exact ih _ _ _ hs
    · exact ih _ _ _ hs
    · exact ih _ _ _ hs
    · exact ih _ _ _ hs
    · apply ih
      apply St.call_intake hs
      rfl
    · exact error_intake hs _
    · exact error_intake hs _

theorem readFiles_intake (env : Env X) (g : Global) (ms : List Module) {s : St X}
    (hs : ∀ x ∈ s.trace, x.isIntake = true) :
    ∀ x ∈ (readFiles env g ms s).trace, x.isIntake = true := by
  unfold readFiles
  induction ms generalizing s with
  | nil => exact hs
  | cons m rest ih =>
    simp only [List.foldl_cons]
    apply ih
    split_ifs
    · apply St.call_intake hs
      rfl
    · apply St.call_intake hs
      rfl

/-! ## The shape of a run -/

theorem checkErrors_cases (g : CheckSite) (w : World X) (ms : List Module) (k : Run X) :
    (w.errors ≠ 0 ∧
      checkErrors g w ms k = (fatal w ms).after [Event.check g w.errors w.warnings]) ∨
    (w.errors = 0 ∧ checkErrors g w ms k = k.after [Event.check g 0 w.warnings]) := by
  unfold checkErrors
  by_cases h : w.errors = 0
  · right
    simp [h]
  · left
    simp [h]

theorem checkErrorsOrWarnings_cases (g : CheckSite) (w : World X) (ms : List Module)
    (k : Run X) :
    ((w.errors ≠ 0 ∨ w.warnings ≠ 0) ∧
      checkErrorsOrWarnings g w ms k =
        (fatal w ms).after [Event.check g w.errors w.warnings]) ∨
    (w.errors = 0 ∧ w.warnings = 0 ∧
      checkErrorsOrWarnings g w ms k = k.after [Event.check g 0 0]) := by
  unfold checkErrorsOrWarnings
  by_cases h : w.errors ≠ 0 ∨ w.warnings ≠ 0
  · left
    exact ⟨h, by rw [if_pos h]⟩
  · right
    have h' := h
    simp only [not_or, not_not] at h'
    exact ⟨h'.1, h'.2, by rw [if_neg h, h'.1, h'.2]⟩

theorem checkErrors_of_ne (g : CheckSite) {w : World X} (h : w.errors ≠ 0) (ms : List Module)
    (k : Run X) :
    checkErrors g w ms k = (fatal w ms).after [Event.check g w.errors w.warnings] := by
  unfold checkErrors
  rw [if_pos h]

theorem checkErrors_of_eq (g : CheckSite) {w : World X} (h : w.errors = 0) (ms : List Module)
    (k : Run X) :
    checkErrors g w ms k = k.after [Event.check g 0 w.warnings] := by
  unfold checkErrors
  rw [if_neg (by simpa using h), h]

theorem atCacheCheck_intake (env : Env X) (g : Global) (o : Opts) (w0 : World X) :
    ∀ e ∈ (atCacheCheck env g o w0).trace, e.isIntake = true := by
  have hcl := parseCommandLine_intake env g o w0
  have hts := targetSwitches_intake o
    (s := { world := (parseCommandLine env g o { world := w0, trace := [] }).st.world,
            trace := [] }) (by simp)
  have hreg : ∀ e ∈ (registered env g o w0).st.trace, e.isIntake = true :=
    front_registered env g o w0 (fun _ => rfl) (fun _ => rfl)
  have hcm : ∀ e ∈ (intake env g o w0).st.trace, e.isIntake = true :=
    createModules_intake env g _ 0 _ [] (by simp)
  have hrf := readFiles_intake env g (intake env g o w0).modules
    (s := { world := (intake env g o w0).st.world, trace := [] }) (by simp)
  unfold atCacheCheck
  simp only [List.forall_mem_append, List.forall_mem_cons]
  exact ⟨hcl, ⟨rfl, by simp⟩, hts, ⟨rfl, by simp⟩, ⟨rfl, by simp⟩, hreg, ⟨rfl, by simp⟩,
    hcm, hrf⟩

/-- A run that arrives at the cache check is the run of `compileModules` on the
result of the intake, preceded by the intake events. -/
theorem cppmain_of_reaches (env : Env X) (g : Global) (o : Opts) (w0 : World X)
    (h : reachesCacheCheck env g o w0 = true) :
    cppmain env g o w0 =
      (compileModules env g o (intake env g o w0).params (intake env g o w0).modules
        (atCacheCheck env g o w0).world).after (atCacheCheck env g o w0).trace := by
  unfold reachesCacheCheck at h
  simp only [Bool.and_eq_true, Bool.not_eq_true', decide_eq_true_eq] at h
  obtain ⟨⟨⟨⟨h1, h2⟩, h3⟩, h5⟩, h4⟩ := h
  rw [cppmain_unfold, if_neg (by simpa using h1), checkErrors_of_eq _ h2,
    checkErrors_of_eq _ h3, h5, h4]
  unfold atCacheCheck
  simp only [Bool.false_eq_true, if_false, Run.after_after, List.append_assoc]

/-- A run that does not arrive at the cache check produces intake events only
and ends with `EXIT_FAILURE` or through `fatal()`. -/
theorem cppmain_of_not_reaches (env : Env X) (g : Global) (o : Opts) (w0 : World X)
    (h : reachesCacheCheck env g o w0 = false) :
    (∀ e ∈ (cppmain env g o w0).trace, e.isIntake = true) ∧
      ((cppmain env g o w0).exit = Exit.returned EXIT_FAILURE ∨
        (cppmain env g o w0).exit = Exit.fatal) ∧
      ((cppmain env g o w0).modules = [] ∨ (intake env g o w0).failed = true) := by
  have hcl := parseCommandLine_intake env g o w0
  have hts := targetSwitches_intake o
    (s := { world := (parseCommandLine env g o { world := w0, trace := [] }).st.world,
            trace := [] }) (by simp)
  have hreg : ∀ e ∈ (registered env g o w0).st.trace, e.isIntake = true :=
    front_registered env g o w0 (fun _ => rfl) (fun _ => rfl)
  have hcm : ∀ e ∈ (intake env g o w0).st.trace, e.isIntake = true :=
    createModules_intake env g _ 0 _ [] (by simp)
  unfold reachesCacheCheck at h
  dsimp only at h
  rw [cppmain_unfold]
  by_cases h1 : ((parseCommandLine env g o { world := w0, trace := [] }).sourceFiles.length = 0
      && !(parseCommandLine env g o { world := w0, trace := [] }).helpOnly) = true
  · rw [if_pos h1]
    refine ⟨?_, Or.inl rfl, Or.inl rfl⟩
    simp only [Run.after_trace, List.forall_mem_append, List.forall_mem_cons]
    exact ⟨hcl, rfl, by simp⟩
  rw [if_neg h1]
  by_cases h2 : (parseCommandLine env g o { world := w0, trace := [] }).st.world.errors = 0
  swap
  · rw [checkErrors_of_ne _ h2]
    refine ⟨?_, Or.inr rfl, Or.inl rfl⟩
    simp only [fatal, Run.after_trace, List.forall_mem_append, List.forall_mem_cons]
    exact ⟨hcl, ⟨rfl, by simp⟩, rfl, by simp⟩
  rw [checkErrors_of_eq _ h2]
  by_cases h3 : (targetSwitches o
      { world := (parseCommandLine env g o { world := w0, trace := [] }).st.world,
        trace := [] }).world.errors = 0
  swap
  · rw [checkErrors_of_ne _ h3]
    refine ⟨?_, Or.inr rfl, Or.inl rfl⟩
    simp only [fatal, Run.after_trace, List.forall_mem_append, List.forall_mem_cons]
    exact ⟨hcl, ⟨rfl, by simp⟩, hts, ⟨rfl, by simp⟩, rfl, by simp⟩
  rw [checkErrors_of_eq _ h3]
  cases h5 : (registered env g o w0).failed with
  | true =>
    rw [if_pos rfl]
    refine ⟨?_, Or.inr rfl, Or.inl rfl⟩
    simp only [fatal, Run.after_trace, List.forall_mem_append, List.forall_mem_cons]
    exact ⟨hcl, ⟨rfl, by simp⟩, hts, ⟨rfl, by simp⟩, ⟨rfl, by simp⟩, hreg, rfl, by simp⟩
  | false =>
    have h4 : (intake env g o w0).failed = true := by
      simp only [Bool.not_eq_true] at h1
      rw [h1] at h
      simpa [h2, h3, h5] using h
    rw [h4]
    refine ⟨?_, Or.inr rfl, Or.inr rfl⟩
    simp only [fatal, Run.after_trace, List.forall_mem_append, List.forall_mem_cons,
      if_true, Bool.false_eq_true, if_false]
    exact ⟨hcl, ⟨rfl, by simp⟩, hts, ⟨rfl, by simp⟩, ⟨rfl, by simp⟩, hreg, ⟨rfl, by simp⟩,
      hcm, rfl, by simp⟩

/-- A run of `cppmain` either stops before the cache check, having produced
intake events only, or is the run of `compileModules` on the result of the
intake, preceded by intake events. -/
theorem cppmain_cases (env : Env X) (g : Global) (o : Opts) (w0 : World X) :
    ((∀ e ∈ (cppmain env g o w0).trace, e.isIntake = true) ∧
      ((cppmain env g o w0).exit = Exit.returned EXIT_FAILURE ∨
        (cppmain env g o w0).exit = Exit.fatal)) ∨
    ((intake env g o w0).failed = false ∧
      ∃ t w, (∀ e ∈ t, e.isIntake = true) ∧
        cppmain env g o w0 =
          (compileModules env g o (intake env g o w0).params (intake env g o w0).modules
            w).after t) := by
  cases h : reachesCacheCheck env g o w0 with
  | false =>
    exact Or.inl ⟨(cppmain_of_not_reaches env g o w0 h).1,
      (cppmain_of_not_reaches env g o w0 h).2.1⟩
  | true =>
    right
    refine ⟨?_, _, _, atCacheCheck_intake env g o w0, cppmain_of_reaches env g o w0 h⟩
    unfold reachesCacheCheck at h
    simp only [Bool.and_eq_true, Bool.not_eq_true'] at h
    exact h.2

/-- The cache check either finds the artifact and returns, or misses and runs
the pipeline, or makes no attempt and runs the pipeline. An attempt is made
only for an eligible configuration with a cache directory. -/
theorem compileModules_cases (env : Env X) (g : Global) (o : Opts) (p : Params)
    (ms : List Module) (w : World X) :
    (p.useCompileCache.isSome = true ∧ canDoSourceCachedBuild o p = true ∧
      ∃ fn, cacheFilename env g p w = some fn ∧
        (env.attemptRecoverFromCache ms fn w).1 = true ∧
        compileModules env g o p ms w =
          { exit := Exit.returned EXIT_SUCCESS,
            world := (env.attemptRecoverFromCache ms fn w).2,
            trace := [Event.attemptRecoverFromCache fn true], modules := ms }) ∨
    (p.useCompileCache.isSome = true ∧ canDoSourceCachedBuild o p = true ∧
      ∃ fn, cacheFilename env g p w = some fn ∧
        (env.attemptRecoverFromCache ms fn w).1 = false ∧
        compileModules env g o p ms w =
          (parseAndCompile env o p ms (env.attemptRecoverFromCache ms fn w).2).after
            [Event.attemptRecoverFromCache fn false]) ∨
    compileModules env g o p ms w = parseAndCompile env o p ms w := by
  unfold compileModules
  by_cases h : (p.useCompileCache.isSome && canDoSourceCachedBuild o p) = true
  · rw [if_pos h]
    simp only [Bool.and_eq_true] at h
    cases hf : cacheFilename env g p w with
    | none => exact Or.inr (Or.inr rfl)
    | some fn =>
      dsimp only
      by_cases hr : (env.attemptRecoverFromCache ms fn w).1 = true
      · rw [if_pos hr]
        exact Or.inl ⟨h.1, h.2, fn, rfl, hr, rfl⟩
      · rw [if_neg hr]
        exact Or.inr (Or.inl ⟨h.1, h.2, fn, rfl, by simpa using hr, rfl⟩)
  · rw [if_neg h]
    exact Or.inr (Or.inr rfl)

theorem isIntake_not_recover {e : Event} (h : e.isIntake = true) : e.isRecover = false := by
  cases e <;> first | rfl | cases h

theorem isPipeline_not_recover {e : Event} (h : e.isPipeline = true) :
    e.isRecover = false := by
  cases e <;> first | rfl | cases h

theorem isIntake_not_stage {e : Event} (h : e.isIntake = true) :
    e.isStage = false ∧ e.isLink = false := by
  cases e <;> first | exact ⟨rfl, rfl⟩ | cases h

/-! ## The run with the compile cache disabled -/

theorem frontEnd_nocache (env : Env X) (o : Opts) (p : Params) (ms : List Module)
    (w : World X) :
    frontEnd env { o with ir2objCacheDir := "" } { p with useCompileCache := none } ms w =
      frontEnd env o p ms w := rfl

theorem finish_isBackEnd (env : Env X) (o : Opts) (p : Params) (ms : List Module)
    (w : World X) : ∀ e ∈ (finish env o p ms w).trace, e.isBackEnd = true := by
  unfold finish
  dsimp only
  split_ifs <;>
    simp only [List.forall_mem_append, List.forall_mem_cons, List.forall_mem_map,
      List.append_assoc, List.cons_append, List.nil_append] <;>
    simp [Event.isBackEnd]

theorem backEnd_isBackEnd (env : Env X) (o : Opts) (p : Params) (ms : List Module)
    (w : World X) : ∀ e ∈ (backEnd env o p ms w).trace, e.isBackEnd = true := by
  have htail : ∀ w : World X, ∀ e ∈
      (forEachIf p.doDocComments Event.gendocfile env.gendocfile ms w fun w =>
        callIf p.doJsonGeneration Event.emitJson (env.emitJson ms) w fun w =>
        call Event.pruneCache env.pruneCache w fun w =>
        call Event.freeRuntime env.freeRuntime w fun w =>
        checkErrors CheckSite.afterShutdown w ms (finish env o p ms w)).trace,
      e.isBackEnd = true := fun w =>
    all_forEachIf (fun _ => rfl) fun _ => all_callIf rfl fun _ => all_call rfl fun _ =>
      all_call rfl fun _ => all_checkErrors (fun _ _ => rfl) rfl
        (finish_isBackEnd env o p ms _)
  unfold backEnd codegen
  refine all_call rfl fun w => ?_
  split_ifs
  · refine all_call rfl fun w => ?_
    refine all_emitModules (fun e => e.isBackEnd = true) env ms (fun _ => rfl)
      (fun _ _ => rfl) rfl ?_ ms w
    intro w
    exact all_call rfl fun w => htail w
  · exact htail _

theorem failFast_mono {k k0 : Nat} {r : Run X} (h : FailFast k r) (hk : k0 ≤ k) :
    FailFast k0 r := fun gt st e wn hg he hc =>
  ⟨le_trans hk (h gt st e wn hg he hc).1, (h gt st e wn hg he hc).2⟩

/-- A run without a failing batch check is fail-fast from any position. -/
theorem failFast_of_no_check {k : Nat} {r : Run X}
    (h : ∀ (gt : CheckSite) (st : Stage) (e wn : Nat), gt.batchStage = some st → e ≠ 0 →
      Event.check gt e wn ∉ r.trace) : FailFast k r :=
  fun gt st e wn hg he hc => absurd hc (h gt st e wn hg he)

theorem failFast_after {k : Nat} {r : Run X} (t : List Event)
    (ht1 : ∀ (gt : CheckSite) (st : Stage) (e wn : Nat), gt.batchStage = some st → e ≠ 0 →
      Event.check gt e wn ∉ t)
    (ht2 : ∀ x ∈ t, ∀ st', x.stage = some st' → st'.order ≤ k)
    (h : FailFast k r) : FailFast k (r.after t) := by
  intro gt st e wn hg he hc
  simp only [Run.after_trace, List.mem_append] at hc
  rcases hc with hc | hc
  · exact absurd hc (ht1 gt st e wn hg he)
  · obtain ⟨h1, h2, ⟨pre, h3⟩, h4⟩ := h gt st e wn hg he hc
    refine ⟨h1, h2, ⟨t ++ pre, ?_⟩, ?_⟩
    · simp only [Run.after_trace, h3, List.append_assoc]
    · simp only [Run.after_trace, List.forall_mem_append]
      exact ⟨fun x hx st' hs => le_trans (ht2 x hx st' hs) h1, h4⟩

theorem failFast_call {k : Nat} {e : Event} {f : World X → World X} {w : World X}
    {K : World X → Run X} (he1 : ∀ gt x wn, e ≠ Event.check gt x wn)
    (he2 : ∀ st', e.stage = some st' → st'.order ≤ k) (h : ∀ w, FailFast k (K w)) :
    FailFast k (call e f w K) := by
  unfold call
  refine failFast_after [e] ?_ ?_ (h _)
  · intro gt st x wn _ _ hm
    simp only [List.mem_singleton] at hm
    exact he1 gt x wn hm.symm
  · intro x hx
    simp only [List.mem_singleton] at hx
    subst hx
    exact he2

theorem failFast_forEach {k : Nat} {e : Module → Event} {f : Module → World X → World X}
    {ms : List Module} {w : World X} {K : World X → Run X}
    (he1 : ∀ m gt x wn, e m ≠ Event.check gt x wn)
    (he2 : ∀ m st', (e m).stage = some st' → st'.order ≤ k) (h : ∀ w, FailFast k (K w)) :
    FailFast k (forEach e f ms w K) := by
  rw [forEach_eq]
  refine failFast_after _ ?_ ?_ (h _)
  · intro gt st x wn _ _ hm
    simp only [List.mem_map] at hm
    obtain ⟨m, -, hm⟩ := hm
    exact he1 m gt x wn hm
  · intro x hx
    simp only [List.mem_map] at hx
    obtain ⟨m, -, rfl⟩ := hx
    exact he2 m

theorem failFast_forEachIf {k : Nat} {c : Bool} {e : Module → Event}
    {f : Module → World X → World X} {ms : List Module} {w : World X}
    {K : World X → Run X} (he1 : ∀ m gt x wn, e m ≠ Event.check gt x wn)
    (he2 : ∀ m st', (e m).stage = some st' → st'.order ≤ k) (h : ∀ w, FailFast k (K w)) :
    FailFast k (forEachIf c e f ms w K) := by
  unfold forEachIf
  split_ifs
  · exact failFast_forEach he1 he2 h
  · exact h _

theorem failFast_checkErrors {k : Nat} {g : CheckSite} {s : Stage} {w : World X}
    {ms : List Module} {K : Run X} (hg : g.batchStage = some s) (hk : s.order ≤ k)
    (h : FailFast k K) : FailFast s.order (checkErrors g w ms K) := by
  rcases checkErrors_cases g w ms K with ⟨hw, heq⟩ | ⟨hw, heq⟩ <;> rw [heq]
  · intro gt st e wn hgt he hc
    simp only [Run.after_trace, fatal, List.mem_append, List.mem_singleton] at hc
    rcases hc with hc | hc
    · injection hc with h1 h2 h3
      subst h1 h2 h3
      rw [hg] at hgt
      injection hgt with hgt
      subst hgt
      refine ⟨le_refl _, rfl, ⟨[], rfl⟩, ?_⟩
      intro x hx st' hs
      simp only [Run.after_trace, fatal, List.mem_append, List.mem_singleton] at hx
      rcases hx with rfl | rfl <;> simp [Event.stage] at hs
    · cases hc
  · refine failFast_after _ ?_ ?_ (failFast_mono h hk)
    · intro gt st e wn _ he hm
      simp only [List.mem_singleton] at hm
      injection hm with _ h2 _
      exact he h2
    · intro x hx st' hs
      simp only [List.mem_singleton] at hx
      subst hx
      simp [Event.stage] at hs

theorem backEnd_failFast (env : Env X) (o : Opts) (p : Params) (ms : List Module)
    (w : World X) (k : Nat) : FailFast k (backEnd env o p ms w) :=
  failFast_of_no_check fun gt st e wn hg _ hc => by
    have h := backEnd_isBackEnd env o p ms w _ hc
    cases gt <;> first
      | (simp [CheckSite.batchStage] at hg; done)
      | simp [Event.isBackEnd] at h

theorem frontEnd_failFast (env : Env X) (o : Opts) (p : Params) (ms : List Module)
    (w : World X) : FailFast 0 (frontEnd env o p ms w) := by
  unfold frontEnd
  have h8 : ∀ w, FailFast 6 (call Event.runDeferredSemantic3 env.runDeferredSemantic3 w
      fun w => checkErrorsOrWarnings CheckSite.afterDeferredSemantic3 w ms
        (backEnd env o p ms w)) := by
    intro w
    refine failFast_mono (k := 7) ?_ (by decide)
    refine failFast_call (fun _ _ _ h => by cases h)
      (fun st' hs => by cases hs; decide) fun w => ?_
    rcases checkErrorsOrWarnings_cases CheckSite.afterDeferredSemantic3 w ms
        (backEnd env o p ms w) with ⟨-, heq⟩ | ⟨-, -, heq⟩ <;> rw [heq]
    · refine failFast_of_no_check fun gt st e wn hg _ hc => ?_
      simp only [Run.after_trace, fatal, List.mem_append, List.mem_singleton] at hc
      rcases hc with hc | hc
      · injection hc with h1 _ _
        subst h1
        cases hg
      · cases hc
    · refine failFast_after _ ?_ ?_ (backEnd_failFast env o p ms w 7)
      · intro gt st e wn hg _ hm
        simp only [List.mem_singleton] at hm
        injection hm with h1 _ _
        subst h1
        cases hg
      · intro x hx st' hs
        simp only [List.mem_singleton] at hx
        subst hx
        simp [Event.stage] at hs
  have h6 : ∀ w, FailFast 6 (forEach Event.semantic3 env.semantic3 ms w fun w =>
      checkErrors CheckSite.afterSemantic3 w ms
        (call Event.runDeferredSemantic3 env.runDeferredSemantic3 w fun w =>
          checkErrorsOrWarnings CheckSite.afterDeferredSemantic3 w ms (backEnd env o p ms w))) :=
    fun w => failFast_forEach (fun _ _ _ _ h => by cases h)
      (fun _ st' hs => by cases hs; decide)
      fun w => failFast_checkErrors (s := Stage.semantic3) rfl (le_refl _) (h8 w)
  have h5 : ∀ w, FailFast 4 (call Event.runDeferredSemantic env.runDeferredSemantic w
      fun w => forEach Event.semantic2 env.semantic2 ms w fun w =>
        checkErrors CheckSite.afterSemantic2 w ms
          (forEach Event.semantic3 env.semantic3 ms w fun w =>
            checkErrors CheckSite.afterSemantic3 w ms
              (call Event.runDeferredSemantic3 env.runDeferredSemantic3 w fun w =>
                checkErrorsOrWarnings CheckSite.afterDeferredSemantic3 w ms
                  (backEnd env o p ms w)))) := by
    intro w
    refine failFast_mono (k := 5) ?_ (by decide)
    exact failFast_call (fun _ _ _ h => by cases h) (fun st' hs => by cases hs; decide)
      fun w => failFast_forEach (fun _ _ _ _ h => by cases h)
        (fun _ st' hs => by cases hs; decide)
        fun w => failFast_checkErrors (s := Stage.semantic2) rfl (by decide) (h6 w)
  exact failFast_checkErrors (s := Stage.parse) rfl (by decide) <|
    failFast_forEachIf (fun _ _ _ _ h => by cases h)
      (fun _ st' hs => by cases hs; decide)
    fun w => failFast_checkErrors (s := Stage.hdrgen) rfl (by decide) <|
    failFast_forEach (fun _ _ _ _ h => by cases h) (fun _ st' hs => by cases hs; decide)
    fun w => failFast_checkErrors (s := Stage.importAll) rfl (by decide) <|
    failFast_forEach (fun _ _ _ _ h => by cases h) (fun _ st' hs => by cases hs; decide)
    fun w => failFast_checkErrors (s := Stage.semantic) rfl (by decide) (h5 w)

theorem parseFiles_failFast (env : Env X) (o : Opts) {K : List Module → World X → Run X}
    (hK : ∀ ms w, FailFast 0 (K ms w)) (fuel i : Nat) (ms : List Module) (w : World X) :
    FailFast 0 (parseFiles env o fuel i ms w K) := by
  induction fuel generalizing i ms w with
  | zero =>
    unfold parseFiles
    split_ifs
    · exact failFast_of_no_check fun _ _ _ _ _ _ hc => by cases hc
    · exact hK _ _
  | succ fuel ih =>
    unfold parseFiles
    split
    · exact hK _ _
    · dsimp only
      split_ifs
      · refine failFast_after _ ?_ ?_ (ih _ _ _)
        · intro gt st e wn _ _ hm
          simp at hm
        · intro x hx st' hs
          simp only [List.mem_cons, List.mem_singleton] at hx
          rcases hx with rfl | rfl | rfl | rfl | hx
          · simp [Event.stage] at hs
            subst hs
            decide
          · simp [Event.stage] at hs
          · simp [Event.stage] at hs
          · simp [Event.stage] at hs
          · cases hx
      · refine failFast_after _ ?_ ?_ (ih _ _ _)
        · intro gt st e wn _ _ hm
          simp at hm
        · intro x hx st' hs
          simp only [List.mem_cons, List.mem_singleton] at hx
          rcases hx with rfl | rfl | rfl | hx
          · simp [Event.stage] at hs
            subst hs
            decide
          · simp [Event.stage] at hs
          · simp [Event.stage] at hs
          · cases hx

theorem compileModules_failFast (env : Env X) (g : Global) (o : Opts) (p : Params)
    (ms : List Module) (w : World X) : FailFast 0 (compileModules env g o p ms w) := by
  have hpc : ∀ w, FailFast 0 (parseAndCompile env o p ms w) := fun w =>
    parseFiles_failFast env o (fun ms w => frontEnd_failFast env o p ms w) _ _ _ _
  rcases compileModules_cases env g o p ms w with
    ⟨-, -, fn, -, -, hc⟩ | ⟨-, -, fn, -, -, hc⟩ | hc <;> rw [hc]
  · exact failFast_of_no_check fun _ _ _ _ _ _ hm => by simp at hm
  · refine failFast_after _ ?_ ?_ (hpc _)
    · intro gt st e wn _ _ hm
      simp at hm
    · intro x hx st' hs
      simp only [List.mem_singleton] at hx
      subst hx
      simp [Event.stage] at hs
  · exact hpc _

theorem isIntake_not_batch_check {gt : CheckSite} {st : Stage} {e wn : Nat}
    (hg : gt.batchStage = some st) : (Event.check gt e wn).isIntake = false := by
  cases gt <;> first | rfl | (simp [CheckSite.batchStage] at hg)

theorem cppmain_failFast (env : Env X) (g : Global) (o : Opts) (w0 : World X) :
    FailFast 0 (cppmain env g o w0) := by
  rcases cppmain_cases env g o w0 with ⟨hall, -⟩ | ⟨-, t, w, ht, heq⟩
  · refine failFast_of_no_check fun gt st e wn hg _ hc => ?_
    have h := hall _ hc
    rw [isIntake_not_batch_check hg] at h
    cases h
  · rw [heq]
    refine failFast_after t ?_ ?_ (compileModules_failFast env g o _ _ _)
    · intro gt st e wn hg _ hc
      have h := ht _ hc
      rw [isIntake_not_batch_check hg] at h
      cases h
    · intro x hx st' hs
      have h := (isIntake_not_stage (ht x hx)).1
      simp [Event.isStage, hs] at h

/-! ## The stage invocations of a run -/

theorem stagesOf_after {E T : List Event} {r : Run X} (t : List Event)
    (hT : t.filter Event.isStage = T) (h : StagesOf E r) :
    StagesOf (T ++ E) (r.after t) := by
  subst hT
  refine ⟨?_, fun hc => ?_⟩
  · simp only [Run.after_trace, List.filter_append]
    exact (List.prefix_append_right_inj _).2 h.1
  · have h2 := h.2 fun gt e wn hm => hc gt e wn (by simp [hm])
    exact ⟨h2.1, by simp only [Run.after_trace, List.filter_append, h2.2]⟩

theorem stagesOf_after_nil {E : List Event} {r : Run X} (t : List Event)
    (hT : t.filter Event.isStage = []) (h : StagesOf E r) : StagesOf E (r.after t) :=
  stagesOf_after t hT h

theorem stagesOf_fatal (E : List Event) (g : CheckSite) (w : World X) (ms : List Module)
    (hw : w.errors ≠ 0 ∨ w.warnings ≠ 0) :
    StagesOf E ((fatal w ms).after [Event.check g w.errors w.warnings]) := by
  refine ⟨?_, fun hc => ?_⟩
  · simp [fatal, Event.isStage, Event.stage]
  · have h := hc g w.errors w.warnings (by simp)
    rcases hw with hw | hw
    · exact absurd h.1 hw
    · exact absurd h.2 hw

theorem stagesOf_checkErrors {E : List Event} {g : CheckSite} {w : World X} {ms : List Module}
    {K : Run X} (h : StagesOf E K) : StagesOf E (checkErrors g w ms K) := by
  rcases checkErrors_cases g w ms K with ⟨hw, heq⟩ | ⟨-, heq⟩ <;> rw [heq]
  · exact stagesOf_fatal E g w ms (Or.inl hw)
  · exact stagesOf_after_nil _ (by simp [Event.isStage, Event.stage]) h

theorem stagesOf_checkErrorsOrWarnings {E : List Event} {g : CheckSite} {w : World X}
    {ms : List Module} {K : Run X} (h : StagesOf E K) :
    StagesOf E (checkErrorsOrWarnings g w ms K) := by
  rcases checkErrorsOrWarnings_cases g w ms K with ⟨hw, heq⟩ | ⟨-, -, heq⟩ <;> rw [heq]
  · exact stagesOf_fatal E g w ms hw
  · exact stagesOf_after_nil _ (by simp [Event.isStage, Event.stage]) h

theorem stagesOf_call_stage {E : List Event} {e : Event} {f : World X → World X}
    {w : World X} {K : World X → Run X} (he : e.isStage = true)
    (h : ∀ w, StagesOf E (K w)) : StagesOf ([e] ++ E) (call e f w K) :=
  stagesOf_after [e] (by simp [he]) (h _)

theorem stagesOf_call_other {E : List Event} {e : Event} {f : World X → World X}
    {w : World X} {K : World X → Run X} (he : e.isStage = false)
    (h : ∀ w, StagesOf E (K w)) : StagesOf E (call e f w K) :=
  stagesOf_after_nil [e] (by simp [he]) (h _)

theorem stagesOf_forEach_stage {E : List Event} {e : Module → Event}
    {f : Module → World X → World X} {ms : List Module} {w : World X}
    {K : World X → Run X} (he : ∀ m, (e m).isStage = true) (h : ∀ w, StagesOf E (K w)) :
    StagesOf (ms.map e ++ E) (forEach e f ms w K) := by
  rw [forEach_eq]
  refine stagesOf_after _ ?_ (h _)
  rw [List.filter_eq_self]
  intro x hx
  obtain ⟨m, -, rfl⟩ := List.mem_map.1 hx
  exact he m

theorem stagesOf_forEach_other {E : List Event} {e : Module → Event}
    {f : Module → World X → World X} {ms : List Module} {w : World X}
    {K : World X → Run X} (he : ∀ m, (e m).isStage = false) (h : ∀ w, StagesOf E (K w)) :
    StagesOf E (forEach e f ms w K) := by
  rw [forEach_eq]
  refine stagesOf_after_nil _ ?_ (h _)
  rw [List.filter_eq_nil_iff]
  intro x hx
  obtain ⟨m, -, rfl⟩ := List.mem_map.1 hx
  simp [he m]

theorem finish_stagesOf (env : Env X) (o : Opts) (p : Params) (ms : List Module)
    (w : World X) : StagesOf [] (finish env o p ms w) := by
  have h1 : (finish env o p ms w).trace.filter Event.isStage = [] := by
    unfold finish
    dsimp only
    split_ifs <;>
      simp [List.filter_append, List.filter_eq_nil_iff, Event.isStage, Event.stage]
  have h2 : ∃ status, (finish env o p ms w).exit = Exit.returned status := by
    unfold finish
    dsimp only
    split_ifs <;> exact ⟨_, rfl⟩
  exact ⟨by rw [h1], fun _ => ⟨h2, h1⟩⟩

theorem emitModules_stagesOf (env : Env X) (all : List Module) {E : List Event}
    {K : World X → Run X} (h : ∀ w, StagesOf E (K w)) (ms : List Module) (w : World X) :
    StagesOf (ms.map Event.emit ++ E) (emitModules env all ms w K) := by
  induction ms generalizing w with
  | nil => exact h w
  | cons m rest ih =>
    unfold emitModules
    exact stagesOf_call_stage rfl fun w => stagesOf_checkErrors (ih w)

theorem backEnd_stagesOf (env : Env X) (o : Opts) (p : Params) (ms : List Module)
    (w : World X) :
    StagesOf (if p.obj then ms.map Event.emit else []) (backEnd env o p ms w) := by
  have htail : ∀ w : World X, StagesOf []
      (forEachIf p.doDocComments Event.gendocfile env.gendocfile ms w fun w =>
        callIf p.doJsonGeneration Event.emitJson (env.emitJson ms) w fun w =>
        call Event.pruneCache env.pruneCache w fun w =>
        call Event.freeRuntime env.freeRuntime w fun w =>
        checkErrors CheckSite.afterShutdown w ms (finish env o p ms w)) := by
    intro w
    have h3 : ∀ w, StagesOf [] (call Event.pruneCache env.pruneCache w fun w =>
        call Event.freeRuntime env.freeRuntime w fun w =>
        checkErrors CheckSite.afterShutdown w ms (finish env o p ms w)) := fun w =>
      stagesOf_call_other rfl fun w => stagesOf_call_other rfl fun w =>
        stagesOf_checkErrors (finish_stagesOf env o p ms w)
    have h2 : ∀ w, StagesOf [] (callIf p.doJsonGeneration Event.emitJson (env.emitJson ms) w
        fun w => call Event.pruneCache env.pruneCache w fun w =>
        call Event.freeRuntime env.freeRuntime w fun w =>
        checkErrors CheckSite.afterShutdown w ms (finish env o p ms w)) := by
      intro w
      unfold callIf
      split_ifs
      · exact stagesOf_call_other rfl h3
      · exact h3 w
    unfold forEachIf
    split_ifs
    · exact stagesOf_forEach_other (fun _ => rfl) h2
    · exact h2 w
  unfold backEnd codegen
  refine stagesOf_call_other rfl fun w => ?_
  by_cases hobj : p.obj = true
  · rw [if_pos hobj]
    cases ms with
    | nil => simpa using htail w
    | cons m rest =>
      rw [if_pos (by simp [hobj])]
      refine stagesOf_call_other rfl fun w => ?_
      have h := emitModules_stagesOf env (m :: rest) (E := [])
        (K := fun w => call Event.codeGeneratorDone env.codeGeneratorDone w fun w =>
          forEachIf p.doDocComments Event.gendocfile env.gendocfile (m :: rest) w fun w =>
          callIf p.doJsonGeneration Event.emitJson (env.emitJson (m :: rest)) w fun w =>
          call Event.pruneCache env.pruneCache w fun w =>
          call Event.freeRuntime env.freeRuntime w fun w =>
          checkErrors CheckSite.afterShutdown w (m :: rest) (finish env o p (m :: rest) w))
        (fun w => stagesOf_call_other rfl fun w => htail w) (m :: rest) w
      simpa using h
  · rw [if_neg hobj, if_neg (by simp [hobj])]
    exact htail w

theorem frontEnd_stagesOf (env : Env X) (o : Opts) (p : Params) (ms : List Module)
    (w : World X) : StagesOf (afterParseStages p ms) (frontEnd env o p ms w) := by
  unfold frontEnd afterParseStages
  refine stagesOf_checkErrors ?_
  have h1 : ∀ w, StagesOf
      (ms.map Event.importAll ++ (ms.map Event.semantic ++ ([Event.runDeferredSemantic] ++
        (ms.map Event.semantic2 ++ (ms.map Event.semantic3 ++
          ([Event.runDeferredSemantic3] ++ (if p.obj then ms.map Event.emit else [])))))))
      (checkErrors CheckSite.afterHdrGeneration w ms <|
        forEach Event.importAll env.importAll ms w fun w =>
        checkErrors CheckSite.afterImportAll w ms <|
        forEach Event.semantic env.semantic ms w fun w =>
        checkErrors CheckSite.afterSemantic w ms <|
        call Event.runDeferredSemantic env.runDeferredSemantic w fun w =>
        forEach Event.semantic2 env.semantic2 ms w fun w =>
        checkErrors CheckSite.afterSemantic2 w ms <|
        forEach Event.semantic3 env.semantic3 ms w fun w =>
        checkErrors CheckSite.afterSemantic3 w ms <|
        call Event.runDeferredSemantic3 env.runDeferredSemantic3 w fun w =>
        checkErrorsOrWarnings CheckSite.afterDeferredSemantic3 w ms <|
        backEnd env o p ms w) := fun w =>
    stagesOf_checkErrors <| stagesOf_forEach_stage (fun _ => rfl) fun w =>
    stagesOf_checkErrors <| stagesOf_forEach_stage (fun _ => rfl) fun w =>
    stagesOf_checkErrors <| stagesOf_call_stage rfl fun w =>
    stagesOf_forEach_stage (fun _ => rfl) fun w =>
    stagesOf_checkErrors <| stagesOf_forEach_stage (fun _ => rfl) fun w =>
    stagesOf_checkErrors <| stagesOf_call_stage rfl fun w =>
    stagesOf_checkErrorsOrWarnings (backEnd_stagesOf env o p ms w)
  unfold forEachIf
  cases p.doHdrGeneration with
  | true =>
    simp only [if_true]
    exact stagesOf_forEach_stage (fun _ => rfl) h1
  | false =>
    simp only [Bool.false_eq_true, if_false, List.nil_append]
    exact h1 w

/-! ## The parse loop -/

/-- The statement `i--` followed by the `i++` of the loop leaves an `unsigned`
index where it was, also at zero. -/
theorem unsigned_dec_inc (i : Nat) (h : i < UINT_RANGE) :
    ((i + (UINT_RANGE - 1)) % UINT_RANGE + 1) % UINT_RANGE = i := by
  unfold UINT_RANGE at *
  omega

theorem unsigned_inc (i : Nat) (h : i + 1 < UINT_RANGE) : (i + 1) % UINT_RANGE = i + 1 :=
  Nat.mod_eq_of_lt h

/-- With fewer than `UINT_RANGE` modules the parse loop finishes within the
iterations it is given: it hands the rest of the program an array and a world,
after one `parse` per module it started with, in order. -/
theorem parseFiles_finishes (env : Env X) (o : Opts) (K : List Module → World X → Run X)
    (fuel i : Nat) (ms : List Module) (w : World X) (hi : i ≤ ms.length)
    (hlen : ms.length < UINT_RANGE) (hfuel : ms.length - i ≤ fuel) :
    ∃ ms' w' t, parseFiles env o fuel i ms w K = (K ms' w').after t ∧
      t.filter Event.isStage = (ms.drop i).map Event.parse := by
  induction fuel generalizing i ms w with
  | zero =>
    have hil : i = ms.length := by omega
    refine ⟨ms, w, [], ?_, ?_⟩
    · unfold parseFiles
      rw [if_neg (by omega)]
      rfl
    · simp [hil]
  | succ fuel ih =>
    unfold parseFiles
    cases hget : ms.get? i with
    | none =>
      have hil : ms.length ≤ i := List.get?_eq_none.1 hget
      exact ⟨ms, w, [], rfl, by simp [List.drop_eq_nil_of_le hil]⟩
    | some m =>
      have hlt : i < ms.length := (List.get?_eq_some.1 hget).1
      have hdrop : ms.drop i = m :: ms.drop (i + 1) := by
        rw [List.drop_eq_getElem_cons hlt]
        congr 1
        have := (List.get?_eq_some.1 hget).2
        simpa using this
      dsimp only
      split_ifs
      · rw [unsigned_dec_inc i (by omega)]
        obtain ⟨ms', w', t, h1, h2⟩ := ih i (ms.eraseIdx i) (env.gendocfile m (env.deleteObjFile m
          (env.buildTargetFiles m o.singleObj (o.createSharedLib || o.createStaticLib)
            (env.parse m w))))
          (by rw [List.length_eraseIdx]; simp [hlt]; omega)
          (by rw [List.length_eraseIdx]; simp [hlt]; omega)
          (by rw [List.length_eraseIdx]; simp [hlt]; omega)
        refine ⟨ms', w', _, by rw [h1, Run.after_after], ?_⟩
        rw [List.filter_append, h2, hdrop]
        have he : (ms.eraseIdx i).drop i = ms.drop (i + 1) := by
          rw [List.eraseIdx_eq_take_drop_succ, List.drop_append_of_le_length (by simp; omega)]
          simp [List.drop_take, Nat.min_eq_left (le_of_lt hlt)]
        rw [he]
        simp [Event.isStage, Event.stage]
      · rw [unsigned_inc i (by omega)]
        obtain ⟨ms', w', t, h1, h2⟩ := ih (i + 1) ms (env.deleteObjFile m
          (env.buildTargetFiles m o.singleObj (o.createSharedLib || o.createStaticLib)
            (env.parse m w))) (by omega) hlen (by omega)
        refine ⟨ms', w', _, by rw [h1, Run.after_after], ?_⟩
        rw [List.filter_append, h2, hdrop]
        simp [Event.isStage, Event.stage]

/-- Whatever the number of modules, the parse loop produces events of the
parse stage only, and then either does not finish or hands over to the rest of
the program. -/
theorem parseFiles_shape (env : Env X) (o : Opts) (K : List Module → World X → Run X)
    (fuel i : Nat) (ms : List Module) (w : World X) :
    ∃ t, (∀ x ∈ t, x.isStage = true → x.stage = some Stage.parse) ∧
      (∀ x ∈ t, ∀ gt e wn, x ≠ Event.check gt e wn) ∧
      ((∃ ms' w', parseFiles env o fuel i ms w K =
          { exit := Exit.hang, world := w', trace := t, modules := ms' }) ∨
        ∃ ms' w', parseFiles env o fuel i ms w K = (K ms' w').after t) := by
  induction fuel generalizing i ms w with
  | zero =>
    refine ⟨[], by simp, by simp, ?_⟩
    unfold parseFiles
    split_ifs
    · exact Or.inl ⟨_, _, rfl⟩
    · exact Or.inr ⟨_, _, rfl⟩
  | succ fuel ih =>
    unfold parseFiles
    split
    · exact ⟨[], by simp, by simp, Or.inr ⟨_, _, rfl⟩⟩
    · rename_i m _
      dsimp only
      split_ifs
      · obtain ⟨t, h1, h1', h2⟩ := ih (((i + (UINT_RANGE - 1)) % UINT_RANGE + 1) % UINT_RANGE)
          (ms.eraseIdx i) (env.gendocfile m (env.deleteObjFile m
          (env.buildTargetFiles m o.singleObj (o.createSharedLib || o.createStaticLib)
            (env.parse m w))))
        refine ⟨[Event.parse m, Event.buildTargetFiles m, Event.deleteObjFile m,
          Event.gendocfile m] ++ t, ?_, ?_, ?_⟩
        · simp only [List.forall_mem_append, List.forall_mem_cons]
          exact ⟨⟨fun _ => rfl, by simp [Event.isStage, Event.stage]⟩, h1⟩
        · simp only [List.forall_mem_append, List.forall_mem_cons]
          exact ⟨by simp, h1'⟩
        · rcases h2 with ⟨ms', w', h2⟩ | ⟨ms', w', h2⟩
          · exact Or.inl ⟨ms', w', by rw [h2]; rfl⟩
          · exact Or.inr ⟨ms', w', by rw [h2, Run.after_after]⟩
      · obtain ⟨t, h1, h1', h2⟩ := ih ((i + 1) % UINT_RANGE) ms (env.deleteObjFile m
          (env.buildTargetFiles m o.singleObj (o.createSharedLib || o.createStaticLib)
            (env.parse m w)))
        refine ⟨[Event.parse m, Event.buildTargetFiles m, Event.deleteObjFile m] ++ t,
          ?_, ?_, ?_⟩
        · simp only [List.forall_mem_append, List.forall_mem_cons]
          exact ⟨⟨fun _ => rfl, by simp [Event.isStage, Event.stage]⟩, h1⟩
        · simp only [List.forall_mem_append, List.forall_mem_cons]
          exact ⟨by simp, h1'⟩
        · rcases h2 with ⟨ms', w', h2⟩ | ⟨ms', w', h2⟩
          · exact Or.inl ⟨ms', w', by rw [h2]; rfl⟩
          · exact Or.inr ⟨ms', w', by rw [h2, Run.after_after]⟩

/-! ## The array `modules` at the end of a run -/

theorem call_modules {e : Event} {f : World X → World X} {w : World X}
    {K : World X → Run X} {ms : List Module} (h : ∀ w, (K w).modules = ms) :
    (call e f w K).modules = ms := by
  simp [call, h]

theorem callIf_modules {c : Bool} {e : Event} {f : World X → World X} {w : World X}
    {K : World X → Run X} {ms : List Module} (h : ∀ w, (K w).modules = ms) :
    (callIf c e f w K).modules = ms := by
  unfold callIf
  split_ifs
  · exact call_modules h
  · exact h _

theorem forEach_modules {e : Module → Event} {f : Module → World X → World X}
    {l : List Module} {w : World X} {K : World X → Run X} {ms : List Module}
    (h : ∀ w, (K w).modules = ms) : (forEach e f l w K).modules = ms := by
  simp [forEach_eq, h]

theorem forEachIf_modules {c : Bool} {e : Module → Event} {f : Module → World X → World X}
    {l : List Module} {w : World X} {K : World X → Run X} {ms : List Module}
    (h : ∀ w, (K w).modules = ms) : (forEachIf c e f l w K).modules = ms := by
  unfold forEachIf
  split_ifs
  · exact forEach_modules h
  · exact h _

theorem checkErrors_modules {g : CheckSite} {w : World X} {K : Run X} {ms : List Module}
    (h : K.modules = ms) : (checkErrors g w ms K).modules = ms := by
  unfold checkErrors
  split_ifs <;> simp [fatal, h]

theorem checkErrorsOrWarnings_modules {g : CheckSite} {w : World X} {K : Run X}
    {ms : List Module} (h : K.modules = ms) :
    (checkErrorsOrWarnings g w ms K).modules = ms := by
  unfold checkErrorsOrWarnings
  split_ifs <;> simp [fatal, h]

theorem finish_modules (env : Env X) (o : Opts) (p : Params) (ms : List Module)
    (w : World X) : (finish env o p ms w).modules = ms := by
  unfold finish
  dsimp only
  split_ifs <;> rfl

theorem emitModules_modules (env : Env X) (all : List Module) {K : World X → Run X}
    (h : ∀ w, (K w).modules = all) (ms : List Module) (w : World X) :
    (emitModules env all ms w K).modules = all := by
  induction ms generalizing w with
  | nil => exact h w
  | cons m rest ih =>
    unfold emitModules
    exact call_modules fun w => checkErrors_modules (ih w)

theorem backEnd_modules (env : Env X) (o : Opts) (p : Params) (ms : List Module)
    (w : World X) : (backEnd env o p ms w).modules = ms := by
  have htail : ∀ w : World X,
      (forEachIf p.doDocComments Event.gendocfile env.gendocfile ms w fun w =>
        callIf p.doJsonGeneration Event.emitJson (env.emitJson ms) w fun w =>
        call Event.pruneCache env.pruneCache w fun w =>
        call Event.freeRuntime env.freeRuntime w fun w =>
        checkErrors CheckSite.afterShutdown w ms (finish env o p ms w)).modules = ms := fun w =>
    forEachIf_modules fun w => callIf_modules fun w => call_modules fun w =>
      call_modules fun w => checkErrors_modules (finish_modules env o p ms w)
  unfold backEnd codegen
  refine call_modules fun w => ?_
  split_ifs
  · refine call_modules fun w => ?_
    refine emitModules_modules env ms ?_ ms w
    intro w
    exact call_modules htail
  · exact htail w

theorem frontEnd_modules (env : Env X) (o : Opts) (p : Params) (ms : List Module)
    (w : World X) : (frontEnd env o p ms w).modules = ms := by
  unfold frontEnd
  exact checkErrors_modules <| forEachIf_modules fun w =>
    checkErrors_modules <| forEach_modules fun w =>
    checkErrors_modules <| forEach_modules fun w =>
    checkErrors_modules <| call_modules fun w => forEach_modules fun w =>
    checkErrors_modules <| forEach_modules fun w =>
    checkErrors_modules <| call_modules fun w =>
    checkErrorsOrWarnings_modules (backEnd_modules env o p ms w)

/-! ## The stage invocations of `cppmain` -/

theorem filter_isStage_intake {t : List Event} (ht : ∀ e ∈ t, e.isIntake = true) :
    t.filter Event.isStage = [] := by
  rw [List.filter_eq_nil_iff]
  intro x hx
  simp [(isIntake_not_stage (ht x hx)).1]

/-- With fewer than `UINT_RANGE` modules, the part of `cppmain` from the parse
loop on invokes the stages of `expectedStages`, up to the first failing check. -/
theorem parseAndCompile_stagesOf (env : Env X) (o : Opts) (p : Params) (ms : List Module)
    (w : World X) (hlen : ms.length < UINT_RANGE) :
    StagesOf (expectedStages p ms (parseAndCompile env o p ms w).modules)
      (parseAndCompile env o p ms w) := by
  unfold parseAndCompile expectedStages
  obtain ⟨ms', w', t, h1, h2⟩ := parseFiles_finishes env o
    (fun modules w => frontEnd env o p modules w) ms.length 0 ms w (Nat.zero_le _) hlen
    (by omega)
  rw [h1]
  simp only [Run.after_modules, frontEnd_modules]
  exact stagesOf_after t (by simpa using h2) (frontEnd_stagesOf env o p ms' w')

/-! ## Properties of the coordinator and of the cache check -/

/-- C2: a configuration that requests documentation, JSON, header generation,
bitcode, IR-text or assembly output, that suppresses object emission, or that
is not in single-object mode, is not eligible: `canDoSourceCachedBuild()`
returns false, whatever the other flags are. -/
theorem canDoSourceCachedBuild_false_of_request (o : Opts) (p : Params)
    (h : p.doDocComments = true ∨ p.doJsonGeneration = true ∨ p.doHdrGeneration = true ∨
      o.output_bc = true ∨ o.output_ll = true ∨ o.output_s = true ∨
      o.dontWriteObj = true ∨ p.singleObj = false) :
    canDoSourceCachedBuild o p = false := by
  unfold canDoSourceCachedBuild
  rcases h with h | h | h | h | h | h | h | h <;> simp [h]

/-- Witness for C2: a configuration with `-c -singleobj` that requests
documentation. -/
theorem canDoSourceCachedBuild_false_of_request_witness :
    canDoSourceCachedBuild { compileOnly := true }
      { singleObj := true, doDocComments := true } = false :=
  canDoSourceCachedBuild_false_of_request { compileOnly := true }
    { singleObj := true, doDocComments := true } (Or.inl rfl)

/-- C1: when cache recovery is attempted and `attemptRecoverFromCache` returns
true, `cppmain` returns `EXIT_SUCCESS` at once (the call is the last event of
the run), and no pipeline stage function (`Module::parse`, `genhdrfile`,
`importAll`, `semantic`, `runDeferredSemantic`, `semantic2`, `semantic3`,
`runDeferredSemantic3`, `CodeGenerator::emit`) and no link step is invoked for
any module. -/
theorem cache_hit_returns_success (env : Env X) (g : Global) (o : Opts) (w0 : World X)
    (filename : String)
    (h : Event.attemptRecoverFromCache filename true ∈ (cppmain env g o w0).trace) :
    (cppmain env g o w0).exit = Exit.returned EXIT_SUCCESS ∧
    (∃ pre, (cppmain env g o w0).trace =
      pre ++ [Event.attemptRecoverFromCache filename true]) ∧
    ∀ e ∈ (cppmain env g o w0).trace, e.isStage = false ∧ e.isLink = false := by
  rcases cppmain_cases env g o w0 with ⟨hall, -⟩ | ⟨-, t, w, ht, heq⟩
  · cases hall _ h
  · rw [heq] at h ⊢
    have hnt : Event.attemptRecoverFromCache filename true ∉ t := fun hm => by
      cases ht _ hm
    rcases compileModules_cases env g o (intake env g o w0).params
        (intake env g o w0).modules w with
      ⟨-, -, fn, -, -, hc⟩ | ⟨-, -, fn, -, -, hc⟩ | hc
    · rw [hc] at h ⊢
      simp only [Run.after_trace, List.mem_append, List.mem_singleton] at h
      rcases h with h | h
      · exact absurd h hnt
      · injection h with h1 _
        subst h1
        refine ⟨rfl, ⟨t, rfl⟩, ?_⟩
        simp only [Run.after_trace, List.forall_mem_append, List.forall_mem_cons]
        exact ⟨fun e he => isIntake_not_stage (ht e he), ⟨rfl, rfl⟩, by simp⟩
    · rw [hc] at h
      simp only [Run.after_trace, List.mem_append, List.mem_singleton] at h
      rcases h with h | h | h
      · exact absurd h hnt
      · cases h
      · cases parseAndCompile_isPipeline env o _ _ _ _ h
    · rw [hc] at h
      simp only [Run.after_trace, List.mem_append] at h
      rcases h with h | h
      · exact absurd h hnt
      · cases parseAndCompile_isPipeline env o _ _ _ _ h

/-- Witness for C1: with the switches `-c -singleobj -of=foo.ll` and a cache
that has the artifact, the run is a hit. -/
theorem cache_hit_returns_success_witness :
    Event.attemptRecoverFromCache "foo.o" true ∈
      (cppmain { quietEnv with attemptRecoverFromCache := fun _ _ w => (true, w) }
        posixGlobal optsLlOutput World.start).trace ∧
    (cppmain { quietEnv with attemptRecoverFromCache := fun _ _ w => (true, w) }
        posixGlobal optsLlOutput World.start).exit = Exit.returned EXIT_SUCCESS :=
  ⟨by decide,
    (cache_hit_returns_success
      { quietEnv with attemptRecoverFromCache := fun _ _ w => (true, w) }
      posixGlobal optsLlOutput World.start "foo.o" (by decide)).1⟩

/-- C3 (evaluation at the failing input): with `-c -singleobj -of=foo.ll` and
a cache directory, `parseCommandLine` auto-detects IR-text output
(`output_ll` is `OUTPUTFLAGset`, `output_o` is `OUTPUTFLAGno`), the
configuration is eligible all the same, and `cppmain` attempts cache recovery
for the object name `foo.o`. -/
theorem autodetected_ll_output_attempts_recovery :
    (intake quietEnv posixGlobal optsLlOutput World.start).params.output_ll =
      OutputFlag.OUTPUTFLAGset ∧
    (intake quietEnv posixGlobal optsLlOutput World.start).params.output_o =
      OutputFlag.OUTPUTFLAGno ∧
    canDoSourceCachedBuild optsLlOutput
      (intake quietEnv posixGlobal optsLlOutput World.start).params = true ∧
    Event.attemptRecoverFromCache "foo.o" false ∈
      (cppmain quietEnv posixGlobal optsLlOutput World.start).trace := by
  decide

/-- C4 (counterexample): the switches `-singleobj -of=foo.o` without `-c`
satisfy every listed flag (single-object mode, object emission, no dump, no
doc / JSON / header generation), and `canDoSourceCachedBuild()` is false. -/
theorem eligibleBySpec_not_sufficient :
    eligibleBySpec optsLinking
      (intake quietEnv posixGlobal optsLinking World.start).params = true ∧
    canDoSourceCachedBuild optsLinking
      (intake quietEnv posixGlobal optsLinking World.start).params = false := by
  decide

/-- C4 (amended): `canDoSourceCachedBuild()` returns true if and only if
`-c` (`opts::compileOnly`) is given and single-object mode is on, object
emission is requested, no bitcode / IR-text / assembly dump is requested and no
doc / JSON / header generation is requested; no other option is read. -/
theorem canDoSourceCachedBuild_iff (o : Opts) (p : Params) :
    canDoSourceCachedBuild o p = true ↔
      o.compileOnly = true ∧ p.singleObj = true ∧ o.dontWriteObj = false ∧
      o.output_bc = false ∧ o.output_ll = false ∧ o.output_s = false ∧
      p.doDocComments = false ∧ p.doJsonGeneration = false ∧
      p.doHdrGeneration = false := by
  unfold canDoSourceCachedBuild
  simp [and_assoc]

/-- C5 (counterexample): with `-c` alone the configuration is not eligible
(no single-object mode), and the run invokes `ir2obj::pruneCache`. -/
theorem pruneCache_invoked_when_not_eligible :
    canDoSourceCachedBuild optsCompileOnly
      (intake quietEnv posixGlobal optsCompileOnly World.start).params = false ∧
    Event.pruneCache ∈ (cppmain quietEnv posixGlobal optsCompileOnly World.start).trace := by
  decide

/-- C5 (amended): when the configuration is not cache-eligible at the cache
check (`canDoSourceCachedBuild()` is false for `global.params` as the intake
left them), `cppmain` does not invoke `attemptRecoverFromCache`, for any input
files. -/
theorem no_recovery_when_not_eligible (env : Env X) (g : Global) (o : Opts)
    (w0 : World X)
    (h : canDoSourceCachedBuild o (intake env g o w0).params = false) :
    ∀ e ∈ (cppmain env g o w0).trace, e.isRecover = false := by
  rcases cppmain_cases env g o w0 with ⟨hall, -⟩ | ⟨-, t, w, ht, heq⟩
  · exact fun e he => isIntake_not_recover (hall e he)
  · rw [heq]
    rcases compileModules_cases env g o (intake env g o w0).params
        (intake env g o w0).modules w with
      ⟨-, hc, -⟩ | ⟨-, hc, -⟩ | hc
    · rw [h] at hc
      cases hc
    · rw [h] at hc
      cases hc
    · rw [hc]
      simp only [Run.after_trace, List.forall_mem_append]
      exact ⟨fun e he => isIntake_not_recover (ht e he),
        fun e he => isPipeline_not_recover (parseAndCompile_isPipeline env o _ _ _ e he)⟩

/-- Witness for C5 (amended): the run with `-c` alone. -/
theorem no_recovery_when_not_eligible_witness :
    canDoSourceCachedBuild optsCompileOnly
      (intake quietEnv posixGlobal optsCompileOnly World.start).params = false ∧
    ∀ e ∈ (cppmain quietEnv posixGlobal optsCompileOnly World.start).trace,
      e.isRecover = false :=
  ⟨by decide,
    no_recovery_when_not_eligible quietEnv posixGlobal optsCompileOnly World.start
      (by decide)⟩

/-- C8 (evaluation at the failing input): when the drain after semantic pass 1
reports an error, `semantic2` is invoked all the same; the error is seen only
by the check that follows the `semantic2` loop. -/
theorem semantic2_runs_after_failed_drain :
    (cppmain failingDrainEnv posixGlobal optsCompileOnly World.start).trace =
      [Event.check CheckSite.afterCommandLine 0 0, Event.check CheckSite.afterTargetSwitches 0 0,
        Event.targetSetup,
        Event.addPredefinedGlobalIdent "WEKA", Event.addPredefinedGlobalIdent "LDC",
        Event.addPredefinedGlobalIdent "all", Event.addPredefinedGlobalIdent "D_Version2",
        Event.addPredefinedGlobalIdent "assert", Event.addPredefinedGlobalIdent "X86_64",
        Event.addPredefinedGlobalIdent "D_InlineAsm_X86_64",
        Event.addPredefinedGlobalIdent "D_HardFloat",
        Event.addPredefinedGlobalIdent "LittleEndian", Event.addPredefinedGlobalIdent "D_LP64",
        Event.addPredefinedGlobalIdent "linux", Event.addPredefinedGlobalIdent "Posix",
        Event.addPredefinedGlobalIdent "CRuntime_Glibc",
        Event.addPredefinedGlobalIdent "LDC_LLVM_308", Event.frontEndInit,
        Event.create fooModule, Event.read fooModule,
        Event.parse fooModule, Event.buildTargetFiles fooModule,
        Event.deleteObjFile fooModule, Event.check CheckSite.afterParse 0 0,
        Event.check CheckSite.afterHdrGeneration 0 0, Event.importAll fooModule,
        Event.check CheckSite.afterImportAll 0 0, Event.semantic fooModule,
        Event.check CheckSite.afterSemantic 0 0, Event.runDeferredSemantic,
        Event.semantic2 fooModule, Event.check CheckSite.afterSemantic2 1 0, Event.fatal] := by
  decide

/-- C9: the order of the stages on a full run. When the run gets past the
intake, is not a cache hit, has a non-empty active set (and fewer than
`UINT_RANGE` modules), and every check of the error and warning counters reads
zero, then `cppmain` returns, and its stage invocations are exactly, in this
order: `parse` on every module created, `genhdrfile` on every active module
(only with `doHdrGeneration`), `importAll`, `semantic`, one
`runDeferredSemantic`, `semantic2`, `semantic3`, one `runDeferredSemantic3`,
and `CodeGenerator::emit` on every active module (object emission enabled). -/
theorem full_run_stage_order (env : Env X) (g : Global) (o : Opts) (w0 : World X)
    (hlen : (intake env g o w0).modules.length < UINT_RANGE)
    (hok : (intake env g o w0).failed = false)
    (hact : (cppmain env g o w0).modules ≠ [])
    (hmiss : ∀ x ∈ (cppmain env g o w0).trace, x.isHit = false)
    (hzero : ∀ x ∈ (cppmain env g o w0).trace, x.readsNonzero = false) :
    (∃ status, (cppmain env g o w0).exit = Exit.returned status) ∧
    (cppmain env g o w0).trace.filter Event.isStage =
      expectedStages (intake env g o w0).params (intake env g o w0).modules
        (cppmain env g o w0).modules := by
  have hchk : ∀ gt e wn, Event.check gt e wn ∈ (cppmain env g o w0).trace →
      e = 0 ∧ wn = 0 := fun gt e wn hm => by
    simpa [Event.readsNonzero] using hzero _ hm
  clear hzero
  cases hr : reachesCacheCheck env g o w0 with
  | false =>
    rcases (cppmain_of_not_reaches env g o w0 hr).2.2 with h | h
    · exact absurd h hact
    · rw [hok] at h
      cases h
  | true =>
    have ht := filter_isStage_intake (atCacheCheck_intake env g o w0)
    have hpc := fun w => parseAndCompile_stagesOf env o (intake env g o w0).params
      (intake env g o w0).modules w hlen
    rw [cppmain_of_reaches env g o w0 hr] at hmiss hchk ⊢
    rcases compileModules_cases env g o (intake env g o w0).params
        (intake env g o w0).modules (atCacheCheck env g o w0).world with
      ⟨-, -, fn, -, -, hc⟩ | ⟨-, -, fn, -, -, hc⟩ | hc <;> rw [hc] at hmiss hchk ⊢
    · exact absurd (hmiss (Event.attemptRecoverFromCache fn true) (by simp)) (by simp [Event.isHit])
    · exact (stagesOf_after_nil _ ht
        (stagesOf_after_nil _ (by simp [Event.isStage, Event.stage]) (hpc _))).2 hchk
    · exact (stagesOf_after_nil _ ht (hpc _)).2 hchk

/-- Witness for C9: the run with `-c` alone on `foo.d`, in the environment in
which no stage reports anything. -/
theorem full_run_stage_order_witness :
    (∃ status, (cppmain quietEnv posixGlobal optsCompileOnly World.start).exit =
      Exit.returned status) ∧
    (cppmain quietEnv posixGlobal optsCompileOnly World.start).trace.filter Event.isStage =
      expectedStages (intake quietEnv posixGlobal optsCompileOnly World.start).params
        (intake quietEnv posixGlobal optsCompileOnly World.start).modules
        (cppmain quietEnv posixGlobal optsCompileOnly World.start).modules :=
  full_run_stage_order quietEnv posixGlobal optsCompileOnly World.start
    (by decide) (by decide) (by decide) (by decide) (by decide)

/-! ## Whole-batch passes -/

theorem append_cons_eq_append {α : Type} {l1 l2 c d : List α} {e : α}
    (h : l1 ++ e :: l2 = c ++ d) (he : e ∉ c) :
    ∃ l, l1 = c ++ l ∧ d = l ++ e :: l2 := by
  rcases List.append_eq_append_iff.1 h with ⟨a, h1, h2⟩ | ⟨a, h1, h2⟩
  · cases a with
    | nil => exact ⟨[], by simpa using h1.symm, by simpa using h2.symm⟩
    | cons x a =>
      simp only [List.cons_append, List.cons.injEq] at h2
      exact absurd (by rw [h1, h2.1]; simp) he
  · exact ⟨a, h1, h2⟩

theorem append_cons_prefix_append {α : Type} {l1 l2 c d : List α} {e : α}
    (h : l1 ++ e :: l2 <+: c ++ d) (he : e ∉ c) :
    ∃ l, l1 = c ++ l ∧ l ++ e :: l2 <+: d := by
  obtain ⟨z, hz⟩ := h
  have h' : l1 ++ e :: (l2 ++ z) = c ++ d := by simpa using hz
  obtain ⟨l, h1, h2⟩ := append_cons_eq_append h' he
  exact ⟨l, h1, ⟨z, by simp [h2]⟩⟩

theorem map_stage_le (ev : Module → Event) (sv : Stage) (hev : ∀ m, (ev m).stage = some sv)
    {k : Nat} (h : sv.order ≤ k) (ms : List Module) :
    ∀ x ∈ ms.map ev, ∀ sx, x.stage = some sx → sx.order ≤ k := by
  intro x hx sx hs
  obtain ⟨m, -, rfl⟩ := List.mem_map.1 hx
  rw [hev m] at hs
  injection hs with hs
  subst hs
  exact h

theorem map_stage_gt (ev : Module → Event) (sv : Stage) (hev : ∀ m, (ev m).stage = some sv)
    {k : Nat} (h : k < sv.order) (ms : List Module) :
    ∀ x ∈ ms.map ev, ∀ sx, x.stage = some sx → k < sx.order := by
  intro x hx sx hs
  obtain ⟨m, -, rfl⟩ := List.mem_map.1 hx
  rw [hev m] at hs
  injection hs with hs
  subst hs
  exact h

theorem ite_map_stage_le (ev : Module → Event) (sv : Stage)
    (hev : ∀ m, (ev m).stage = some sv) {k : Nat} (h : sv.order ≤ k) (c : Bool)
    (ms : List Module) :
    ∀ x ∈ (if c then ms.map ev else []), ∀ sx, x.stage = some sx → sx.order ≤ k := by
  split_ifs
  · exact map_stage_le ev sv hev h ms
  · simp

theorem ite_map_stage_gt (ev : Module → Event) (sv : Stage)
    (hev : ∀ m, (ev m).stage = some sv) {k : Nat} (h : k < sv.order) (c : Bool)
    (ms : List Module) :
    ∀ x ∈ (if c then ms.map ev else []), ∀ sx, x.stage = some sx → k < sx.order := by
  split_ifs
  · exact map_stage_gt ev sv hev h ms
  · simp

theorem singleton_stage_le (e : Event) (sv : Stage) (he : e.stage = some sv) {k : Nat}
    (h : sv.order ≤ k) : ∀ x ∈ [e], ∀ sx, x.stage = some sx → sx.order ≤ k := by
  intro x hx sx hs
  simp only [List.mem_singleton] at hx
  subst hx
  rw [he] at hs
  injection hs with hs
  subst hs
  exact h

theorem singleton_stage_gt (e : Event) (sv : Stage) (he : e.stage = some sv) {k : Nat}
    (h : k < sv.order) : ∀ x ∈ [e], ∀ sx, x.stage = some sx → k < sx.order := by
  intro x hx sx hs
  simp only [List.mem_singleton] at hx
  subst hx
  rw [he] at hs
  injection hs with hs
  subst hs
  exact h

/-- For a batch stage `s` that has a successor, the expected invocations after
the parse loop split into a first part, which holds the invocation of `s` on
every active module and no invocation of a later stage, and a second part,
which holds invocations of later stages only. -/
theorem afterParseStages_split (p : Params) (ms : List Module) (s s' : Stage)
    (hs : s.nextBatch = some s') :
    ∃ C D, afterParseStages p ms = C ++ D ∧ (∀ m ∈ ms, s.call m ∈ C) ∧
      (∀ x ∈ C, ∀ sx, x.stage = some sx → sx.order ≤ s.order) ∧
      (∀ x ∈ D, ∀ sx, x.stage = some sx → s.order < sx.order) := by
  cases s <;> simp only [Stage.nextBatch] at hs <;> try cases hs
  · -- importAll
    refine ⟨(if p.doHdrGeneration then ms.map Event.genhdrfile else []) ++
        ms.map Event.importAll,
      ms.map Event.semantic ++ ([Event.runDeferredSemantic] ++ (ms.map Event.semantic2 ++
        (ms.map Event.semantic3 ++ ([Event.runDeferredSemantic3] ++
          (if p.obj then ms.map Event.emit else []))))), ?_, ?_, ?_, ?_⟩
    · simp only [afterParseStages, List.append_assoc]
    · intro m hm
      exact List.mem_append_right _ (List.mem_map_of_mem _ hm)
    · simp only [List.forall_mem_append]
      exact ⟨ite_map_stage_le Event.genhdrfile Stage.hdrgen (fun _ => rfl) (by decide) _ ms
       , map_stage_le Event.importAll Stage.importAll (fun _ => rfl) (by decide) ms
       ⟩
    · simp only [List.forall_mem_append]
      exact ⟨map_stage_gt Event.semantic Stage.semantic (fun _ => rfl) (by decide) ms
       , singleton_stage_gt Event.runDeferredSemantic Stage.deferred rfl (by decide)
       , map_stage_gt Event.semantic2 Stage.semantic2 (fun _ => rfl) (by decide) ms
       , map_stage_gt Event.semantic3 Stage.semantic3 (fun _ => rfl) (by decide) ms
       ,
        singleton_stage_gt Event.runDeferredSemantic3 Stage.deferred3 rfl (by decide)
       , ite_map_stage_gt Event.emit Stage.codegen (fun _ => rfl) (by decide) _ ms
       ⟩
  · -- semantic
    refine ⟨(if p.doHdrGeneration then ms.map Event.genhdrfile else []) ++
        (ms.map Event.importAll ++ ms.map Event.semantic),
      [Event.runDeferredSemantic] ++ (ms.map Event.semantic2 ++
        (ms.map Event.semantic3 ++ ([Event.runDeferredSemantic3] ++
          (if p.obj then ms.map Event.emit else [])))), ?_, ?_, ?_, ?_⟩
    · simp only [afterParseStages, List.append_assoc]
    · intro m hm
      exact List.mem_append_right _ (List.mem_append_right _ (List.mem_map_of_mem _ hm))
    · simp only [List.forall_mem_append]
      exact ⟨ite_map_stage_le Event.genhdrfile Stage.hdrgen (fun _ => rfl) (by decide) _ ms
       , map_stage_le Event.importAll Stage.importAll (fun _ => rfl) (by decide) ms
       , map_stage_le Event.semantic Stage.semantic (fun _ => rfl) (by decide) ms
       ⟩
    · simp only [List.forall_mem_append]
      exact ⟨singleton_stage_gt Event.runDeferredSemantic Stage.deferred rfl (by decide)
       , map_stage_gt Event.semantic2 Stage.semantic2 (fun _ => rfl) (by decide) ms
       , map_stage_gt Event.semantic3 Stage.semantic3 (fun _ => rfl) (by decide) ms
       ,
        singleton_stage_gt Event.runDeferredSemantic3 Stage.deferred3 rfl (by decide)
       , ite_map_stage_gt Event.emit Stage.codegen (fun _ => rfl) (by decide) _ ms
       ⟩
  · -- semantic2
    refine ⟨(if p.doHdrGeneration then ms.map Event.genhdrfile else []) ++
        (ms.map Event.importAll ++ (ms.map Event.semantic ++
          ([Event.runDeferredSemantic] ++ ms.map Event.semantic2))),
      ms.map Event.semantic3 ++ ([Event.runDeferredSemantic3] ++
          (if p.obj then ms.map Event.emit else [])), ?_, ?_, ?_, ?_⟩
    · simp only [afterParseStages, List.append_assoc]
    · intro m hm
      exact List.mem_append_right _ (List.mem_append_right _ (List.mem_append_right _
        (List.mem_append_right _ (List.mem_map_of_mem _ hm))))
    · simp only [List.forall_mem_append]
      exact ⟨ite_map_stage_le Event.genhdrfile Stage.hdrgen (fun _ => rfl) (by decide) _ ms
       , map_stage_le Event.importAll Stage.importAll (fun _ => rfl) (by decide) ms
       , map_stage_le Event.semantic Stage.semantic (fun _ => rfl) (by decide) ms
       , singleton_stage_le Event.runDeferredSemantic Stage.deferred rfl (by decide)
       ,
        map_stage_le Event.semantic2 Stage.semantic2 (fun _ => rfl) (by decide) ms
       ⟩
    · simp only [List.forall_mem_append]
      exact ⟨map_stage_gt Event.semantic3 Stage.semantic3 (fun _ => rfl) (by decide) ms
       , singleton_stage_gt Event.runDeferredSemantic3 Stage.deferred3 rfl (by decide)
       , ite_map_stage_gt Event.emit Stage.codegen (fun _ => rfl) (by decide) _ ms
       ⟩
  · -- semantic3
    refine ⟨(if p.doHdrGeneration then ms.map Event.genhdrfile else []) ++
        (ms.map Event.importAll ++ (ms.map Event.semantic ++
          ([Event.runDeferredSemantic] ++ (ms.map Event.semantic2 ++
            ms.map Event.semantic3)))),
      [Event.runDeferredSemantic3] ++ (if p.obj then ms.map Event.emit else []),
      ?_, ?_, ?_, ?_⟩
    · simp only [afterParseStages, List.append_assoc]
    · intro m hm
      exact List.mem_append_right _ (List.mem_append_right _ (List.mem_append_right _
        (List.mem_append_right _ (List.mem_append_right _ (List.mem_map_of_mem _ hm)))))
    · simp only [List.forall_mem_append]
      exact ⟨ite_map_stage_le Event.genhdrfile Stage.hdrgen (fun _ => rfl) (by decide) _ ms
       , map_stage_le Event.importAll Stage.importAll (fun _ => rfl) (by decide) ms
       , map_stage_le Event.semantic Stage.semantic (fun _ => rfl) (by decide) ms
       , singleton_stage_le Event.runDeferredSemantic Stage.deferred rfl (by decide)
       ,
        map_stage_le Event.semantic2 Stage.semantic2 (fun _ => rfl) (by decide) ms
       , map_stage_le Event.semantic3 Stage.semantic3 (fun _ => rfl) (by decide) ms
       ⟩
    · simp only [List.forall_mem_append]
      exact ⟨singleton_stage_gt Event.runDeferredSemantic3 Stage.deferred3 rfl (by decide)
       , ite_map_stage_gt Event.emit Stage.codegen (fun _ => rfl) (by decide) _ ms
       ⟩

/-- The stage invocations of a run are `parse` invocations followed by an
initial part of the expected invocations for the final array `modules`. -/
theorem cppmain_stages (env : Env X) (g : Global) (o : Opts) (w0 : World X) :
    ∃ P F, (cppmain env g o w0).trace.filter Event.isStage = P ++ F ∧
      (∀ x ∈ P, x.stage = some Stage.parse) ∧
      F <+: afterParseStages (intake env g o w0).params (cppmain env g o w0).modules := by
  have hpc : ∀ w, ∃ P F,
      (parseAndCompile env o (intake env g o w0).params (intake env g o w0).modules
        w).trace.filter Event.isStage = P ++ F ∧
      (∀ x ∈ P, x.stage = some Stage.parse) ∧
      F <+: afterParseStages (intake env g o w0).params
        (parseAndCompile env o (intake env g o w0).params (intake env g o w0).modules
          w).modules := by
    intro w
    unfold parseAndCompile
    obtain ⟨t, h1, -, h2⟩ := parseFiles_shape env o
      (fun modules w => frontEnd env o (intake env g o w0).params modules w)
      (intake env g o w0).modules.length 0 (intake env g o w0).modules w
    have hP : ∀ x ∈ t.filter Event.isStage, x.stage = some Stage.parse := fun x hx =>
      h1 x (List.mem_filter.1 hx).1 (List.mem_filter.1 hx).2
    rcases h2 with ⟨ms', w', h2⟩ | ⟨ms', w', h2⟩ <;> rw [h2]
    · exact ⟨_, [], by simp, hP, List.nil_prefix⟩
    · refine ⟨_, _, by rw [Run.after_trace, List.filter_append], hP, ?_⟩
      rw [Run.after_modules, frontEnd_modules]
      exact (frontEnd_stagesOf env o _ ms' w').1
  cases hr : reachesCacheCheck env g o w0 with
  | false =>
    refine ⟨[], [], ?_, by simp, List.nil_prefix⟩
    rw [filter_isStage_intake (cppmain_of_not_reaches env g o w0 hr).1]
    rfl
  | true =>
    have ht := filter_isStage_intake (atCacheCheck_intake env g o w0)
    rw [cppmain_of_reaches env g o w0 hr]
    rcases compileModules_cases env g o (intake env g o w0).params
        (intake env g o w0).modules (atCacheCheck env g o w0).world with
      ⟨-, -, fn, -, -, hc⟩ | ⟨-, -, fn, -, -, hc⟩ | hc <;> rw [hc]
    · refine ⟨[], [], ?_, by simp, List.nil_prefix⟩
      simp [List.filter_append, ht, Event.isStage, Event.stage]
    · obtain ⟨P, F, h1, h2, h3⟩ := hpc (env.attemptRecoverFromCache
        (intake env g o w0).modules fn (atCacheCheck env g o w0).world).2
      refine ⟨P, F, ?_, h2, by simpa using h3⟩
      simp [List.filter_append, ht, Event.isStage, Event.stage, ← h1]
    · obtain ⟨P, F, h1, h2, h3⟩ := hpc (atCacheCheck env g o w0).world
      refine ⟨P, F, ?_, h2, by simpa using h3⟩
      simp [List.filter_append, ht, ← h1]

theorem nextBatch_order {s s' : Stage} (h : s.nextBatch = some s') :
    s.order < s'.order ∧ s' ≠ Stage.parse := by
  cases s <;> simp [Stage.nextBatch] at h <;> subst h <;> exact ⟨by decide, by decide⟩

/-- C10: passes are whole-batch. For consecutive stages among importAll,
semantic (pass 1), semantic2, semantic3 and code generation: when the later
stage is invoked on a module, the earlier stage has already been invoked on
every module of the active set (the array `modules`), and it is not invoked on
any module afterwards. -/
theorem whole_batch_passes (env : Env X) (g : Global) (o : Opts) (w0 : World X)
    (pre post : List Event) (e : Event) (s s' : Stage)
    (hsplit : (cppmain env g o w0).trace = pre ++ e :: post)
    (he : e.stage = some s') (hs : s.nextBatch = some s') :
    (∀ m ∈ (cppmain env g o w0).modules, s.call m ∈ pre) ∧
    ∀ x ∈ post, x.stage ≠ some s := by
  obtain ⟨P, F, h1, h2, h3⟩ := cppmain_stages env g o w0
  obtain ⟨C, D, h4, h5, h6, h7⟩ := afterParseStages_split (intake env g o w0).params
    (cppmain env g o w0).modules s s' hs
  have hord := nextBatch_order hs
  have heS : e.isStage = true := by simp [Event.isStage, he]
  rw [hsplit, List.filter_append, List.filter_cons_of_pos heS] at h1
  have heP : e ∉ P := fun hm => by
    have := h2 e hm
    rw [he] at this
    injection this with this
    exact hord.2 this
  obtain ⟨l, h8, h9⟩ := append_cons_eq_append h1 heP
  rw [h9, h4] at h3
  have heC : e ∉ C := fun hm => by
    have := h6 e hm s' he
    omega
  obtain ⟨l', h10, h11⟩ := append_cons_prefix_append h3 heC
  refine ⟨fun m hm => ?_, fun x hx hxs => ?_⟩
  · have hin : s.call m ∈ pre.filter Event.isStage := by
      rw [h8, h10]
      exact List.mem_append_right _ (List.mem_append_left _ (h5 m hm))
    exact (List.mem_filter.1 hin).1
  · have hxD : x ∈ D := by
      apply h11.subset
      apply List.mem_append_right
      apply List.mem_cons_of_mem
      exact List.mem_filter.2 ⟨hx, by simp [Event.isStage, hxs]⟩
    have := h7 x hxD s hxs
    omega

/-- Witness for C10: in the run with `-c` alone on `a.d` and `b.d`, when
`semantic2` is invoked on the first module, `semantic` has been invoked on
both modules of the active set, and it is not invoked again afterwards. -/
theorem whole_batch_passes_witness :
    (cppmain quietEnv posixGlobal optsTwoModules World.start).modules =
      [aModule, bModule] ∧
    (cppmain quietEnv posixGlobal optsTwoModules World.start).trace =
      (cppmain quietEnv posixGlobal optsTwoModules World.start).trace.take 37 ++
        Event.semantic2 aModule ::
          (cppmain quietEnv posixGlobal optsTwoModules World.start).trace.drop 38 ∧
    (∀ m ∈ (cppmain quietEnv posixGlobal optsTwoModules World.start).modules,
      Stage.semantic.call m ∈
        (cppmain quietEnv posixGlobal optsTwoModules World.start).trace.take 37) ∧
    ∀ x ∈ (cppmain quietEnv posixGlobal optsTwoModules World.start).trace.drop 38,
      x.stage ≠ some Stage.semantic :=
  ⟨by decide, by decide,
    whole_batch_passes quietEnv posixGlobal optsTwoModules World.start _ _
      (Event.semantic2 aModule) Stage.semantic Stage.semantic2 (by decide) rfl rfl⟩

/-! ## Every check decides at once -/

theorem checkedStart_after {r : Run X} (t : List Event)
    (ht1 : ∀ x ∈ t, ∀ g e wn, x ≠ Event.check g e wn) (ht2 : ∀ x ∈ t, x ≠ Event.fatal)
    (h : CheckedStart r) : CheckedStart (r.after t) := by
  constructor
  · rw [Run.after_trace]
    cases t with
    | nil => simpa using h.1
    | cons x t =>
      have := ht2 x (by simp)
      simpa using this
  · intro pre g e wn post heq
    rw [Run.after_trace] at heq
    have hn : Event.check g e wn ∉ t := fun hm => ht1 _ hm g e wn rfl
    obtain ⟨l, -, h2⟩ := append_cons_eq_append heq.symm hn
    simpa using h.2 l g e wn post h2

theorem checkedStart_call {e : Event} {f : World X → World X} {w : World X}
    {K : World X → Run X} (he1 : ∀ g x wn, e ≠ Event.check g x wn) (he2 : e ≠ Event.fatal)
    (h : ∀ w, CheckedStart (K w)) : CheckedStart (call e f w K) := by
  unfold call
  refine checkedStart_after [e] ?_ ?_ (h _)
  · intro x hx
    simp only [List.mem_singleton] at hx
    subst hx
    exact he1
  · intro x hx
    simp only [List.mem_singleton] at hx
    subst hx
    exact he2

theorem checkedStart_callIf {c : Bool} {e : Event} {f : World X → World X} {w : World X}
    {K : World X → Run X} (he1 : ∀ g x wn, e ≠ Event.check g x wn) (he2 : e ≠ Event.fatal)
    (h : ∀ w, CheckedStart (K w)) : CheckedStart (callIf c e f w K) := by
  unfold callIf
  split_ifs
  · exact checkedStart_call he1 he2 h
  · exact h _

theorem checkedStart_forEach {e : Module → Event} {f : Module → World X → World X}
    {ms : List Module} {w : World X} {K : World X → Run X}
    (he1 : ∀ m g x wn, e m ≠ Event.check g x wn) (he2 : ∀ m, e m ≠ Event.fatal)
    (h : ∀ w, CheckedStart (K w)) : CheckedStart (forEach e f ms w K) := by
  rw [forEach_eq]
  refine checkedStart_after _ ?_ ?_ (h _)
  · intro x hx
    simp only [List.mem_map] at hx
    obtain ⟨m, -, rfl⟩ := hx
    exact he1 m
  · intro x hx
    simp only [List.mem_map] at hx
    obtain ⟨m, -, rfl⟩ := hx
    exact he2 m

theorem checkedStart_forEachIf {c : Bool} {e : Module → Event}
    {f : Module → World X → World X} {ms : List Module} {w : World X}
    {K : World X → Run X} (he1 : ∀ m g x wn, e m ≠ Event.check g x wn)
    (he2 : ∀ m, e m ≠ Event.fatal) (h : ∀ w, CheckedStart (K w)) :
    CheckedStart (forEachIf c e f ms w K) := by
  unfold forEachIf
  split_ifs
  · exact checkedStart_forEach he1 he2 h
  · exact h _

/-- A check followed by `fatal()` when it fails, and by a run in which every
check decides at once when it does not. -/
theorem checkedStart_check (g : CheckSite) (e wn : Nat) (w : World X) (ms : List Module)
    {K : Run X} (h : CheckedStart K) :
    CheckedStart ((if g.fails e wn = true then fatal w ms else K).after [Event.check g e wn]) := by
  constructor
  · simp
  · intro pre g' e' wn' post heq
    simp only [Run.after_trace, List.singleton_append] at heq
    cases pre with
    | nil =>
      simp only [List.nil_append, List.cons.injEq, Event.check.injEq] at heq
      obtain ⟨⟨rfl, rfl, rfl⟩, rfl⟩ := heq
      by_cases hf : g.fails e wn = true
      · simp [hf, fatal]
      · simp only [hf, if_false, Run.after_exit]
        exact ⟨fun h' => absurd h' (by simp), fun _ => h.1⟩
    | cons x pre =>
      simp only [List.cons_append, List.cons.injEq] at heq
      by_cases hf : g.fails e wn = true
      · rw [if_pos hf] at heq
        have := heq.2
        simp only [fatal] at this
        cases pre with
        | nil => simp at this
        | cons y pre => simp at this
      · rw [if_neg hf] at heq ⊢
        simpa using h.2 pre g' e' wn' post heq.2

theorem checkedStart_checkErrors {g : CheckSite} {w : World X} {ms : List Module} {K : Run X}
    (hg : g ≠ CheckSite.afterDeferredSemantic3) (h : CheckedStart K) :
    CheckedStart (checkErrors g w ms K) := by
  have := checkedStart_check g w.errors w.warnings w ms h
  unfold checkErrors
  convert this using 3
  simp [CheckSite.fails, hg]

theorem checkedStart_checkErrorsOrWarnings {w : World X} {ms : List Module} {K : Run X}
    (h : CheckedStart K) :
    CheckedStart (checkErrorsOrWarnings CheckSite.afterDeferredSemantic3 w ms K) := by
  have := checkedStart_check CheckSite.afterDeferredSemantic3 w.errors w.warnings w ms h
  unfold checkErrorsOrWarnings
  convert this using 3
  simp [CheckSite.fails]

/-! ## The events of the command line and of the intake, for any property -/

theorem front_initFromString {P : Event → Prop} {s : St X} (hs : ∀ x ∈ s.trace, P x)
    (herr : ∀ msg, P (Event.error msg)) (src : Option String) (a : String) :
    ∀ x ∈ (initFromString src a s).2.trace, P x := by
  unfold initFromString
  split
  · exact hs
  · dsimp only
    split_ifs
    · exact front_error hs herr _
    · exact hs

theorem front_processVersion {P : Event → Prop} (env : Env X) (kind : CondKind) {s : St X}
    (hs : ∀ x ∈ s.trace, P x) (herr : ∀ msg, P (Event.error msg))
    (hlevel : ∀ k l, P (Event.setLevel k l)) (hident : ∀ k i, P (Event.addIdent k i))
    (i : String) :
    ∀ x ∈ (processVersion env kind s i).trace, P x := by
  unfold processVersion
  dsimp only
  split_ifs
  · exact front_error hs herr _
  · exact front_call hs (hlevel _ _) _
  · exact front_call hs (hident _ _) _
  · exact front_error hs herr _

theorem front_processVersions {P : Event → Prop} (env : Env X) (kind : CondKind)
    (list : List String) {s : St X} (hs : ∀ x ∈ s.trace, P x)
    (herr : ∀ msg, P (Event.error msg))
    (hlevel : ∀ k l, P (Event.setLevel k l)) (hident : ∀ k i, P (Event.addIdent k i)) :
    ∀ x ∈ (processVersions env kind list s).trace, P x := by
  unfold processVersions
  induction list generalizing s with
  | nil => exact hs
  | cons i rest ih => exact ih (front_processVersion env kind hs herr hlevel hident i)

theorem front_runSwitch {P : Event → Prop} (o : Opts) {s : St X} (hs : ∀ x ∈ s.trace, P x)
    (herr : ∀ msg, P (Event.error msg)) :
    ∀ x ∈ (runSwitch o s).2.2.trace, P x := by
  unfold runSwitch
  split_ifs
  · split
    · dsimp only
      split
      · split_ifs
        · exact front_error hs herr _
        · exact hs
      · exact hs
    · exact front_error hs herr _
  · exact hs

theorem front_outputNames {P : Event → Prop} (o : Opts) (dim : Nat) (p : Params) {s : St X}
    (hs : ∀ x ∈ s.trace, P x) (herr : ∀ msg, P (Event.error msg)) :
    ∀ x ∈ (outputNames o dim p s).2.trace, P x := by
  unfold outputNames
  dsimp only
  split_ifs <;> first
    | exact hs
    | exact front_error hs herr _
    | exact front_error (front_error hs herr _) herr _
    | exact front_error (front_error (front_error hs herr _) herr _) herr _

theorem front_stringOptions {P : Event → Prop} (o : Opts) {s : St X}
    (hs : ∀ x ∈ s.trace, P x) (herr : ∀ msg, P (Event.error msg)) :
    ∀ x ∈ (stringOptions o s).2.trace, P x := by
  unfold stringOptions
  dsimp only
  exact front_initFromString (front_initFromString (front_initFromString
    (front_initFromString (front_initFromString (front_initFromString
      (front_initFromString (front_initFromString hs herr o.objectFile "of") herr
        o.objectDir "od") herr o.ddocDir "Dd") herr o.ddocFile "Df") herr o.jsonFile "Xf")
      herr o.hdrDir "Hd") herr o.hdrFile "Hf") herr o.moduleDepsFile "deps"

/-- The events of `parseCommandLine` are reported errors and the calls of
`processVersions` and `deprecation`. -/
theorem front_parseCommandLine {P : Event → Prop} (env : Env X) (g : Global) (o : Opts)
    (w0 : World X) (herr : ∀ msg, P (Event.error msg))
    (hlevel : ∀ k l, P (Event.setLevel k l)) (hident : ∀ k i, P (Event.addIdent k i))
    (hdep : P Event.deprecation) :
    ∀ x ∈ (parseCommandLine env g o { world := w0, trace := [] }).st.trace, P x := by
  unfold parseCommandLine
  dsimp only
  apply front_outputNames _ _ _ _ herr
  have h0 : ∀ x ∈ ({ world := w0, trace := [] } : St X).trace, P x := by
    simp
  have h := front_runSwitch o
    (front_processVersions env CondKind.version o.versions
      (front_processVersions env CondKind.debug o.debugArgs
        (front_stringOptions o h0 herr) herr hlevel hident) herr hlevel hident) herr
  split_ifs
  · exact front_call h hdep _
  · exact h

/-- The events of the checks of `-m32` / `-m64` are reported errors. -/
theorem front_targetSwitches {P : Event → Prop} (o : Opts) {s : St X}
    (hs : ∀ x ∈ s.trace, P x) (herr : ∀ msg, P (Event.error msg)) :
    ∀ x ∈ (targetSwitches o s).trace, P x := by
  unfold targetSwitches
  dsimp only
  split_ifs <;> first
    | exact hs
    | exact front_error hs herr _
    | exact front_error (front_error hs herr _) herr _

/-- The events of the loop "Create Modules" are calls of `Module::create` and
reported errors. -/
theorem front_createModules {P : Event → Prop} (env : Env X) (g : Global)
    (files : List String) (i : Nat) (p : Params) (ms : List Module) {s : St X}
    (hs : ∀ x ∈ s.trace, P x) (herr : ∀ msg, P (Event.error msg))
    (hcreate : ∀ m, P (Event.create m)) :
    ∀ x ∈ (createModules env g files i p ms s).st.trace, P x := by
  induction files generalizing i p ms s with
  | nil => exact hs
  | cons file rest ih =>
    unfold createModules
    split
    · exact ih _ _ _ hs
    · exact ih _ _ _ hs
    · exact ih _ _ _ hs
    · exact ih _ _ _ hs
    · exact ih _ _ _ (front_call hs (hcreate _) _)
    · exact front_error hs herr _
    · exact front_error hs herr _

/-- The events of the loop "Read files" are calls of `setbuffer` and `read`. -/
theorem front_readFiles {P : Event → Prop} (env : Env X) (g : Global) (ms : List Module)
    {s : St X} (hs : ∀ x ∈ s.trace, P x) (hbuf : ∀ m, P (Event.setbuffer m))
    (hread : ∀ m, P (Event.read m)) :
    ∀ x ∈ (readFiles env g ms s).trace, P x := by
  unfold readFiles
  induction ms generalizing s with
  | nil => exact hs
  | cons m rest ih =>
    simp only [List.foldl_cons]
    apply ih
    split_ifs
    · exact front_call hs (hbuf _) _
    · exact front_call hs (hread _) _

theorem checkedStart_of_plain {r : Run X}
    (h : ∀ x ∈ r.trace, (∀ g e wn, x ≠ Event.check g e wn) ∧ x ≠ Event.fatal) :
    CheckedStart r := by
  constructor
  · intro hh
    have hm : Event.fatal ∈ r.trace := List.mem_of_mem_head? hh
    exact (h _ hm).2 rfl
  · intro pre g e wn post heq
    exact absurd rfl ((h (Event.check g e wn) (by rw [heq]; simp)).1 g e wn)

theorem finish_isFinish (env : Env X) (o : Opts) (p : Params) (ms : List Module)
    (w : World X) : ∀ e ∈ (finish env o p ms w).trace, e.isFinish = true := by
  unfold finish
  dsimp only
  split_ifs <;>
    simp only [List.forall_mem_append, List.forall_mem_cons, List.forall_mem_map,
      List.append_assoc, List.cons_append, List.nil_append] <;>
    simp [Event.isFinish]

theorem isFinish_plain {x : Event} (h : x.isFinish = true) :
    (∀ g e wn, x ≠ Event.check g e wn) ∧ x ≠ Event.fatal := by
  cases x <;> simp [Event.isFinish] at h ⊢

theorem finish_checkedStart (env : Env X) (o : Opts) (p : Params) (ms : List Module)
    (w : World X) : CheckedStart (finish env o p ms w) :=
  checkedStart_of_plain fun x hx => isFinish_plain (finish_isFinish env o p ms w x hx)

theorem emitModules_checkedStart (env : Env X) (all : List Module) {K : World X → Run X}
    (hK : ∀ w, CheckedStart (K w)) (ms : List Module) (w : World X) :
    CheckedStart (emitModules env all ms w K) := by
  induction ms generalizing w with
  | nil => exact hK w
  | cons m rest ih =>
    unfold emitModules
    exact checkedStart_call (fun _ _ _ h => by cases h) (fun h => by cases h) fun w =>
      checkedStart_checkErrors (by decide) (ih w)

theorem backEnd_checkedStart (env : Env X) (o : Opts) (p : Params) (ms : List Module)
    (w : World X) : CheckedStart (backEnd env o p ms w) := by
  have htail : ∀ w : World X, CheckedStart
      (forEachIf p.doDocComments Event.gendocfile env.gendocfile ms w fun w =>
        callIf p.doJsonGeneration Event.emitJson (env.emitJson ms) w fun w =>
        call Event.pruneCache env.pruneCache w fun w =>
        call Event.freeRuntime env.freeRuntime w fun w =>
        checkErrors CheckSite.afterShutdown w ms (finish env o p ms w)) := fun w =>
    checkedStart_forEachIf (fun _ _ _ _ h => by cases h) (fun _ h => by cases h) fun _ =>
      checkedStart_callIf (fun _ _ _ h => by cases h) (fun h => by cases h) fun _ =>
      checkedStart_call (fun _ _ _ h => by cases h) (fun h => by cases h) fun _ =>
      checkedStart_call (fun _ _ _ h => by cases h) (fun h => by cases h) fun _ =>
      checkedStart_checkErrors (by decide) (finish_checkedStart env o p ms _)
  unfold backEnd codegen
  refine checkedStart_call (fun _ _ _ h => by cases h) (fun h => by cases h) fun w => ?_
  split_ifs
  · refine checkedStart_call (fun _ _ _ h => by cases h) (fun h => by cases h) fun w => ?_
    refine emitModules_checkedStart env ms ?_ ms w
    intro w
    exact checkedStart_call (fun _ _ _ h => by cases h) (fun h => by cases h) htail
  · exact htail w

theorem frontEnd_checkedStart (env : Env X) (o : Opts) (p : Params) (ms : List Module)
    (w : World X) : CheckedStart (frontEnd env o p ms w) := by
  unfold frontEnd
  exact checkedStart_checkErrors (by decide) <|
    checkedStart_forEachIf (fun _ _ _ _ h => by cases h) (fun _ h => by cases h) fun w =>
    checkedStart_checkErrors (by decide) <|
    checkedStart_forEach (fun _ _ _ _ h => by cases h) (fun _ h => by cases h) fun w =>
    checkedStart_checkErrors (by decide) <|
    checkedStart_forEach (fun _ _ _ _ h => by cases h) (fun _ h => by cases h) fun w =>
    checkedStart_checkErrors (by decide) <|
    checkedStart_call (fun _ _ _ h => by cases h) (fun h => by cases h) fun w =>
    checkedStart_forEach (fun _ _ _ _ h => by cases h) (fun _ h => by cases h) fun w =>
    checkedStart_checkErrors (by decide) <|
    checkedStart_forEach (fun _ _ _ _ h => by cases h) (fun _ h => by cases h) fun w =>
    checkedStart_checkErrors (by decide) <|
    checkedStart_call (fun _ _ _ h => by cases h) (fun h => by cases h) fun w =>
    checkedStart_checkErrorsOrWarnings (backEnd_checkedStart env o p ms w)

theorem parseFiles_checkedStart (env : Env X) (o : Opts) {K : List Module → World X → Run X}
    (hK : ∀ ms w, CheckedStart (K ms w)) (fuel i : Nat) (ms : List Module) (w : World X) :
    CheckedStart (parseFiles env o fuel i ms w K) := by
  induction fuel generalizing i ms w with
  | zero =>
    unfold parseFiles
    split_ifs
    · exact checkedStart_of_plain fun x hx => by cases hx
    · exact hK _ _
  | succ fuel ih =>
    unfold parseFiles
    split
    · exact hK _ _
    · dsimp only
      split_ifs
      · refine checkedStart_after _ ?_ ?_ (ih _ _ _) <;> intro x hx <;>
          simp only [List.mem_cons, List.mem_singleton, List.mem_nil_iff, or_false] at hx <;>
          rcases hx with rfl | rfl | rfl | rfl <;> simp
      · refine checkedStart_after _ ?_ ?_ (ih _ _ _) <;> intro x hx <;>
          simp only [List.mem_cons, List.mem_singleton, List.mem_nil_iff, or_false] at hx <;>
          rcases hx with rfl | rfl | rfl <;> simp

theorem compileModules_checkedStart (env : Env X) (g : Global) (o : Opts) (p : Params)
    (ms : List Module) (w : World X) : CheckedStart (compileModules env g o p ms w) := by
  have hpc : ∀ w, CheckedStart (parseAndCompile env o p ms w) := fun w =>
    parseFiles_checkedStart env o (fun ms w => frontEnd_checkedStart env o p ms w) _ _ _ _
  rcases compileModules_cases env g o p ms w with
    ⟨-, -, fn, -, -, hc⟩ | ⟨-, -, fn, -, -, hc⟩ | hc <;> rw [hc]
  · exact checkedStart_of_plain fun x hx => by
      simp only [List.mem_singleton] at hx
      subst hx
      simp
  · refine checkedStart_after _ ?_ ?_ (hpc _) <;> intro x hx <;>
      simp only [List.mem_singleton] at hx <;> subst hx <;> simp
  · exact hpc _

theorem checked_of_no_check {r : Run X}
    (h : ∀ x ∈ r.trace, ∀ g e wn, x ≠ Event.check g e wn) : Checked r := by
  intro pre g e wn post heq
  exact absurd rfl (h (Event.check g e wn) (by rw [heq]; simp) g e wn)

theorem checked_after {r : Run X} (t : List Event)
    (ht : ∀ x ∈ t, ∀ g e wn, x ≠ Event.check g e wn) (h : Checked r) :
    Checked (r.after t) := by
  intro pre g e wn post heq
  rw [Run.after_trace] at heq
  have hn : Event.check g e wn ∉ t := fun hm => ht _ hm g e wn rfl
  obtain ⟨l, -, h2⟩ := append_cons_eq_append heq.symm hn
  simpa using h l g e wn post h2

theorem createAndCompile_checked (env : Env X) (g : Global) (o : Opts) (p : Params)
    (files : List String) (w : World X) : Checked (createAndCompile env g o p files w) := by
  unfold createAndCompile
  dsimp only
  refine checked_after _ (front_createModules env g _ 0 _ [] (by simp) (by simp)
    (by simp)) ?_
  split_ifs
  · exact checked_of_no_check (by simp [fatal])
  · refine checked_after _ (front_readFiles env g _ (by simp) (by simp) (by simp)) ?_
    exact (compileModules_checkedStart env g o _ _ _).2

/-- In a run of `cppmain` every check decides at once: a failing check is
followed by `fatal()`, which ends the run, and a check that does not fail is
not followed by `fatal()`. -/
theorem cppmain_checked (env : Env X) (g : Global) (o : Opts) (w0 : World X) :
    Checked (cppmain env g o w0) := by
  unfold cppmain
  dsimp only
  have hcl := front_parseCommandLine
    (P := fun x => ∀ g e wn, x ≠ Event.check g e wn) env g o w0
    (by simp) (by simp) (by simp) (by simp)
  refine checked_after _ hcl ?_
  by_cases h0 : ((parseCommandLine env g o { world := w0, trace := [] }).sourceFiles.length = 0
      && !(parseCommandLine env g o { world := w0, trace := [] }).helpOnly) = true
  · rw [if_pos h0]
    exact checked_of_no_check fun x hx => by
      simp only [List.mem_singleton] at hx
      subst hx
      simp
  · rw [if_neg h0]
    have hts := front_targetSwitches
      (P := fun x => (∀ g e wn, x ≠ Event.check g e wn) ∧ x ≠ Event.fatal) o
      (s := { world := (parseCommandLine env g o { world := w0, trace := [] }).st.world,
              trace := [] }) (by simp) (by simp)
    refine (checkedStart_checkErrors (by decide) ?_).2
    refine checkedStart_after _ (fun x hx => (hts x hx).1) (fun x hx => (hts x hx).2) ?_
    refine checkedStart_checkErrors (by decide) ?_
    refine ⟨by simp [call], ?_⟩
    unfold call
    dsimp only
    refine checked_after _ (by simp) ?_
    refine checked_after _
      (front_registerPredefinedVersions env o _ _ (by simp) (by simp) (by simp)) ?_
    refine ite_of (P := Checked) ?_ ?_
    · exact checked_of_no_check (by simp [fatal])
    · exact checked_after _ (by simp) (createAndCompile_checked env g o _ _ _)

/-! ## The check inside the `emit` loop -/

theorem followsEmit_of_none {t : List Event}
    (h : ∀ x ∈ t, ∀ e wn, x ≠ Event.check CheckSite.afterEmit e wn) : FollowsEmit t := by
  intro pre e wn post heq
  exact absurd rfl (h (Event.check CheckSite.afterEmit e wn) (by rw [heq]; simp) e wn)

theorem followsEmit_append {t u : List Event}
    (ht : ∀ x ∈ t, ∀ e wn, x ≠ Event.check CheckSite.afterEmit e wn) (h : FollowsEmit u) :
    FollowsEmit (t ++ u) := by
  intro pre e wn post heq
  have hn : Event.check CheckSite.afterEmit e wn ∉ t := fun hm => ht _ hm e wn rfl
  obtain ⟨l, h1, h2⟩ := append_cons_eq_append heq.symm hn
  obtain ⟨pre', m, h3⟩ := h l e wn post h2
  exact ⟨t ++ pre', m, by rw [h1, h3, List.append_assoc]⟩

theorem followsEmit_emit (m : Module) (e wn : Nat) {u : List Event} (h : FollowsEmit u) :
    FollowsEmit (Event.emit m :: Event.check CheckSite.afterEmit e wn :: u) := by
  intro pre e' wn' post heq
  cases pre with
  | nil => simp at heq
  | cons x pre =>
    simp only [List.cons_append, List.cons.injEq] at heq
    obtain ⟨rfl, heq⟩ := heq
    cases pre with
    | nil => exact ⟨[], m, rfl⟩
    | cons y pre =>
      simp only [List.cons_append, List.cons.injEq] at heq
      obtain ⟨rfl, heq⟩ := heq
      obtain ⟨pre', m', h3⟩ := h pre e' wn' post heq
      exact ⟨Event.emit m :: Event.check CheckSite.afterEmit e wn :: pre', m', by rw [h3]; rfl⟩

theorem emitModules_followsEmit (env : Env X) (all : List Module) {K : World X → Run X}
    (hK : ∀ w, FollowsEmit (K w).trace) (ms : List Module) (w : World X) :
    FollowsEmit (emitModules env all ms w K).trace := by
  induction ms generalizing w with
  | nil => exact hK w
  | cons m rest ih =>
    unfold emitModules call checkErrors
    simp only [Run.after_trace, List.singleton_append]
    refine followsEmit_emit m _ _ ?_
    split_ifs
    · exact followsEmit_of_none (by simp [fatal])
    · exact ih _

theorem isFinish_not_afterEmit {x : Event} (h : x.isFinish = true) :
    ∀ e wn, x ≠ Event.check CheckSite.afterEmit e wn := by
  cases x <;> simp [Event.isFinish] at h ⊢

theorem backEnd_followsEmit (env : Env X) (o : Opts) (p : Params) (ms : List Module)
    (w : World X) : FollowsEmit (backEnd env o p ms w).trace := by
  have htail : ∀ w : World X, ∀ x ∈
      (forEachIf p.doDocComments Event.gendocfile env.gendocfile ms w fun w =>
        callIf p.doJsonGeneration Event.emitJson (env.emitJson ms) w fun w =>
        call Event.pruneCache env.pruneCache w fun w =>
        call Event.freeRuntime env.freeRuntime w fun w =>
        checkErrors CheckSite.afterShutdown w ms (finish env o p ms w)).trace,
      ∀ e wn, x ≠ Event.check CheckSite.afterEmit e wn := fun w =>
    all_forEachIf (fun _ => by simp) fun _ => all_callIf (by simp) fun _ =>
      all_call (by simp) fun _ => all_call (by simp) fun _ =>
      all_checkErrors (fun _ _ => by simp) (by simp)
        (fun x hx => isFinish_not_afterEmit (finish_isFinish env o p ms _ x hx))
  unfold backEnd codegen call
  rw [Run.after_trace]
  refine followsEmit_append (by simp) ?_
  split_ifs
  · rw [Run.after_trace]
    refine followsEmit_append (by simp) ?_
    refine emitModules_followsEmit env ms ?_ ms _
    intro w
    rw [Run.after_trace]
    exact followsEmit_append (by simp) (followsEmit_of_none (htail _))
  · exact followsEmit_of_none (htail _)

theorem followsEmit_checkErrors {g : CheckSite} {w : World X} {ms : List Module} {K : Run X}
    (hg : g ≠ CheckSite.afterEmit) (h : FollowsEmit K.trace) :
    FollowsEmit (checkErrors g w ms K).trace := by
  unfold checkErrors
  rw [Run.after_trace]
  refine followsEmit_append (by simpa using hg) ?_
  split_ifs
  · exact followsEmit_of_none (by simp [fatal])
  · exact h

theorem followsEmit_forEach {ev : Module → Event} {f : Module → World X → World X}
    {ms : List Module} {w : World X} {K : World X → Run X}
    (he : ∀ m e wn, ev m ≠ Event.check CheckSite.afterEmit e wn)
    (h : ∀ w, FollowsEmit (K w).trace) : FollowsEmit (forEach ev f ms w K).trace := by
  rw [forEach_eq, Run.after_trace]
  refine followsEmit_append ?_ (h _)
  intro x hx
  obtain ⟨m, -, rfl⟩ := List.mem_map.1 hx
  exact he m

theorem followsEmit_call {ev : Event} {f : World X → World X} {w : World X}
    {K : World X → Run X} (he : ∀ e wn, ev ≠ Event.check CheckSite.afterEmit e wn)
    (h : ∀ w, FollowsEmit (K w).trace) : FollowsEmit (call ev f w K).trace := by
  unfold call
  rw [Run.after_trace]
  refine followsEmit_append ?_ (h _)
  intro x hx
  simp only [List.mem_singleton] at hx
  subst hx
  exact he

theorem frontEnd_followsEmit (env : Env X) (o : Opts) (p : Params) (ms : List Module)
    (w : World X) : FollowsEmit (frontEnd env o p ms w).trace := by
  have hlast : ∀ w : World X, FollowsEmit
      (checkErrorsOrWarnings CheckSite.afterDeferredSemantic3 w ms
        (backEnd env o p ms w)).trace := by
    intro w
    unfold checkErrorsOrWarnings
    rw [Run.after_trace]
    refine followsEmit_append (by simp) ?_
    split_ifs
    · exact followsEmit_of_none (by simp [fatal])
    · exact backEnd_followsEmit env o p ms w
  unfold frontEnd forEachIf
  refine followsEmit_checkErrors (by decide) ?_
  have hrest : ∀ w : World X, FollowsEmit
      (checkErrors CheckSite.afterHdrGeneration w ms
        (forEach Event.importAll env.importAll ms w fun w =>
        checkErrors CheckSite.afterImportAll w ms
          (forEach Event.semantic env.semantic ms w fun w =>
          checkErrors CheckSite.afterSemantic w ms
            (call Event.runDeferredSemantic env.runDeferredSemantic w fun w =>
            forEach Event.semantic2 env.semantic2 ms w fun w =>
            checkErrors CheckSite.afterSemantic2 w ms
              (forEach Event.semantic3 env.semantic3 ms w fun w =>
              checkErrors CheckSite.afterSemantic3 w ms
                (call Event.runDeferredSemantic3 env.runDeferredSemantic3 w fun w =>
                checkErrorsOrWarnings CheckSite.afterDeferredSemantic3 w ms
                  (backEnd env o p ms w))))))).trace := fun w =>
    followsEmit_checkErrors (by decide) <|
    followsEmit_forEach (fun _ _ _ => by simp) fun w =>
    followsEmit_checkErrors (by decide) <|
    followsEmit_forEach (fun _ _ _ => by simp) fun w =>
    followsEmit_checkErrors (by decide) <|
    followsEmit_call (fun _ _ => by simp) fun w =>
    followsEmit_forEach (fun _ _ _ => by simp) fun w =>
    followsEmit_checkErrors (by decide) <|
    followsEmit_forEach (fun _ _ _ => by simp) fun w =>
    followsEmit_checkErrors (by decide) <|
    followsEmit_call (fun _ _ => by simp) fun w => hlast w
  split_ifs
  · exact followsEmit_forEach (fun _ _ _ => by simp) hrest
  · exact hrest w

/-- In a run of `cppmain`, every check inside the `emit` loop directly follows
a call of `CodeGenerator::emit`. -/
theorem cppmain_followsEmit (env : Env X) (g : Global) (o : Opts) (w0 : World X) :
    FollowsEmit (cppmain env g o w0).trace := by
  have hin : ∀ x : Event, x.isIntake = true →
      ∀ e wn, x ≠ Event.check CheckSite.afterEmit e wn := by
    intro x hx e wn h
    subst h
    cases hx
  have hpc : ∀ p ms w, FollowsEmit (parseAndCompile env o p ms w).trace := by
    intro p ms w
    unfold parseAndCompile
    obtain ⟨t, -, h1, h2⟩ := parseFiles_shape env o
      (fun modules w => frontEnd env o p modules w) ms.length 0 ms w
    rcases h2 with ⟨ms', w', h2⟩ | ⟨ms', w', h2⟩ <;> rw [h2]
    · exact followsEmit_of_none fun x hx e wn => h1 x hx _ e wn
    · rw [Run.after_trace]
      exact followsEmit_append (fun x hx e wn => h1 x hx _ e wn)
        (frontEnd_followsEmit env o p ms' w')
  rcases cppmain_cases env g o w0 with ⟨hall, -⟩ | ⟨-, t, w, ht, heq⟩
  · exact followsEmit_of_none fun x hx => hin x (hall x hx)
  · rw [heq, Run.after_trace]
    refine followsEmit_append (fun x hx => hin x (ht x hx)) ?_
    rcases compileModules_cases env g o (intake env g o w0).params
        (intake env g o w0).modules w with
      ⟨-, -, fn, -, -, hc⟩ | ⟨-, -, fn, -, -, hc⟩ | hc <;> rw [hc]
    · exact followsEmit_of_none (by simp)
    · rw [Run.after_trace]
      exact followsEmit_append (by simp) (hpc _ _ _)
    · exact hpc _ _ _

/-! ## The order of the events and whole batches -/

theorem pairwise_notAfter_of_rank {t : List Event} (c : Nat)
    (h : ∀ x ∈ t, ∀ i, x.rank = some i → i = c) : t.Pairwise Event.notAfter := by
  rw [List.pairwise_iff_forall_sublist]
  intro a b hab i j hi hj
  have ha : a ∈ t := hab.subset (by simp)
  have hb : b ∈ t := hab.subset (by simp)
  rw [h a ha i hi, h b hb j hj]

theorem ordered_mono {k k0 : Nat} {t : List Event} (hk : k0 ≤ k) (h : Ordered k t) :
    Ordered k0 t :=
  ⟨h.1, fun x hx i hi => le_trans hk (h.2 x hx i hi)⟩

theorem ordered_append {k j : Nat} {t1 t2 : List Event} (hk : k ≤ j)
    (h1 : ∀ x ∈ t1, ∀ i, x.rank = some i → k ≤ i ∧ i ≤ j)
    (hp : t1.Pairwise Event.notAfter) (h2 : Ordered j t2) : Ordered k (t1 ++ t2) := by
  constructor
  · rw [List.pairwise_append]
    refine ⟨hp, h2.1, ?_⟩
    intro a ha b hb i j hi hj
    exact le_trans (h1 a ha i hi).2 (h2.2 b hb j hj)
  · intro x hx i hi
    rcases List.mem_append.1 hx with hx | hx
    · exact (h1 x hx i hi).1
    · exact le_trans hk (h2.2 x hx i hi)

theorem wholeBatches_append {ms : List Module} {t1 t2 : List Event}
    (h1 : WholeBatches ms t1) (h2 : WholeBatches ms t2) : WholeBatches ms (t1 ++ t2) := by
  intro s hs ⟨x, hx, hxs⟩ m hm
  rcases List.mem_append.1 hx with hx | hx
  · exact List.mem_append_left _ (h1 s hs ⟨x, hx, hxs⟩ m hm)
  · exact List.mem_append_right _ (h2 s hs ⟨x, hx, hxs⟩ m hm)

theorem wholeBatches_of_none {ms : List Module} {t : List Event}
    (h : ∀ x ∈ t, ∀ s : Stage, x.stage = some s → s.isBatch = false) :
    WholeBatches ms t := by
  intro s hs ⟨x, hx, hxs⟩
  rw [h x hx s hxs] at hs
  cases hs

theorem wholeBatches_map (s : Stage) (hs : ∀ m, (s.call m).stage = some s)
    (ms : List Module) : WholeBatches ms (ms.map s.call) := by
  intro s' _ ⟨x, hx, hxs⟩ m hm
  obtain ⟨m', -, rfl⟩ := List.mem_map.1 hx
  rw [hs m'] at hxs
  injection hxs with hxs
  subst hxs
  exact List.mem_map_of_mem _ hm

/-- Events at one position `c` that invoke no batch stage, before events that
are scheduled from a later position on. -/
theorem scheduled_plain {ms : List Module} {k j : Nat} {t1 t2 : List Event} (c : Nat)
    (hk : k ≤ c) (hc : c ≤ j)
    (h1 : ∀ x ∈ t1, (∀ i, x.rank = some i → i = c) ∧
      ∀ s : Stage, x.stage = some s → s.isBatch = false)
    (h2 : Scheduled ms j t2) : Scheduled ms k (t1 ++ t2) := by
  refine ⟨ordered_append (le_trans hk hc) ?_
      (pairwise_notAfter_of_rank c fun x hx => (h1 x hx).1) h2.1,
    wholeBatches_append (wholeBatches_of_none fun x hx => (h1 x hx).2) h2.2⟩
  intro x hx i hi
  rw [(h1 x hx).1 i hi]
  exact ⟨hk, hc⟩

/-- Events without a position that invoke no stage, before scheduled events. -/
theorem scheduled_unranked {ms : List Module} {k : Nat} {t1 t2 : List Event}
    (h1 : ∀ x ∈ t1, x.rank = none ∧ x.stage = none)
    (h2 : Scheduled ms k t2) : Scheduled ms k (t1 ++ t2) := by
  refine scheduled_plain k (le_refl _) (le_refl _) (fun x hx => ⟨fun i hi => ?_,
    fun s hs => ?_⟩) h2
  · rw [(h1 x hx).1] at hi
    cases hi
  · rw [(h1 x hx).2] at hs
    cases hs

/-- The whole batch of a stage at position `c`, before events that are
scheduled from a later position on. -/
theorem scheduled_batch {ms : List Module} {k j : Nat} {t2 : List Event} (s : Stage)
    (c : Nat) (hs : ∀ m, (s.call m).stage = some s) (hr : ∀ m, (s.call m).rank = some c)
    (hk : k ≤ c) (hc : c ≤ j) (h2 : Scheduled ms j t2) :
    Scheduled ms k (ms.map s.call ++ t2) := by
  have hrank : ∀ x ∈ ms.map s.call, ∀ i, x.rank = some i → i = c := by
    intro x hx i hi
    obtain ⟨m, -, rfl⟩ := List.mem_map.1 hx
    rw [hr m] at hi
    injection hi with hi
    exact hi.symm
  refine ⟨ordered_append (le_trans hk hc) ?_ (pairwise_notAfter_of_rank c hrank) h2.1,
    wholeBatches_append (wholeBatches_map s hs ms) h2.2⟩
  intro x hx i hi
  rw [hrank x hx i hi]
  exact ⟨hk, hc⟩

theorem scheduled_mono {ms : List Module} {k k0 : Nat} {t : List Event} (hk : k0 ≤ k)
    (h : Scheduled ms k t) : Scheduled ms k0 t :=
  ⟨ordered_mono hk h.1, h.2⟩

theorem scheduled_nil (ms : List Module) (k : Nat) : Scheduled ms k [] :=
  ⟨⟨List.Pairwise.nil, by simp⟩, wholeBatches_of_none (by simp)⟩

theorem scheduled_fatal (ms : List Module) {k : Nat} (hk : k ≤ 33) :
    Scheduled ms k [Event.fatal] := by
  have := @scheduled_plain ms k 33 [Event.fatal] [] 33 hk (le_refl _)
    (by simp [Event.rank, Event.stage]) (scheduled_nil ms 33)
  simpa using this

theorem scheduled_call {ms : List Module} {k j : Nat} {e : Event} {f : World X → World X}
    {w : World X} {K : World X → Run X} (c : Nat) (hk : k ≤ c) (hc : c ≤ j)
    (he1 : e.rank = some c) (he2 : ∀ s : Stage, e.stage = some s → s.isBatch = false)
    (h : ∀ w, Scheduled ms j (K w).trace) : Scheduled ms k (call e f w K).trace := by
  unfold call
  rw [Run.after_trace]
  refine scheduled_plain c hk hc ?_ (h _)
  intro x hx
  simp only [List.mem_singleton] at hx
  subst hx
  refine ⟨fun i hi => ?_, he2⟩
  rw [he1] at hi
  injection hi with hi
  exact hi.symm

theorem scheduled_callIf {ms : List Module} {k j : Nat} {b : Bool} {e : Event}
    {f : World X → World X} {w : World X} {K : World X → Run X} (c : Nat) (hk : k ≤ c)
    (hc : c ≤ j) (he1 : e.rank = some c)
    (he2 : ∀ s : Stage, e.stage = some s → s.isBatch = false)
    (h : ∀ w, Scheduled ms j (K w).trace) : Scheduled ms k (callIf b e f w K).trace := by
  unfold callIf
  split_ifs
  · exact scheduled_call c hk hc he1 he2 h
  · exact scheduled_mono (le_trans hk hc) (h _)

theorem scheduled_forEach {ms : List Module} {k j : Nat} {f : Module → World X → World X}
    {w : World X} {K : World X → Run X} (s : Stage) (c : Nat)
    (hs : ∀ m, (s.call m).stage = some s) (hr : ∀ m, (s.call m).rank = some c)
    (hk : k ≤ c) (hc : c ≤ j) (h : ∀ w, Scheduled ms j (K w).trace) :
    Scheduled ms k (forEach s.call f ms w K).trace := by
  rw [forEach_eq, Run.after_trace]
  exact scheduled_batch s c hs hr hk hc (h _)

theorem scheduled_forEachIf {ms : List Module} {k j : Nat} {b : Bool}
    {f : Module → World X → World X} {w : World X} {K : World X → Run X} (s : Stage)
    (c : Nat) (hs : ∀ m, (s.call m).stage = some s) (hr : ∀ m, (s.call m).rank = some c)
    (hk : k ≤ c) (hc : c ≤ j) (h : ∀ w, Scheduled ms j (K w).trace) :
    Scheduled ms k (forEachIf b s.call f ms w K).trace := by
  unfold forEachIf
  split_ifs
  · exact scheduled_forEach s c hs hr hk hc h
  · exact scheduled_mono (le_trans hk hc) (h _)

theorem scheduled_checkErrors {ms all : List Module} {k j : Nat} {g : CheckSite}
    {w : World X} {K : Run X} (c : Nat) (hk : k ≤ c) (hc : c ≤ j) (hk1 : j ≤ 33)
    (hg : ∀ e wn, (Event.check g e wn).rank = some c) (h : Scheduled ms j K.trace) :
    Scheduled ms k (checkErrors g w all K).trace := by
  have hplain : ∀ x ∈ [Event.check g w.errors w.warnings],
      (∀ i, x.rank = some i → i = c) ∧ ∀ s : Stage, x.stage = some s → s.isBatch = false := by
    intro x hx
    simp only [List.mem_singleton] at hx
    subst hx
    refine ⟨fun i hi => ?_, fun s hs => by simp [Event.stage] at hs⟩
    rw [hg] at hi
    injection hi with hi
    exact hi.symm
  unfold checkErrors
  rw [Run.after_trace]
  refine scheduled_plain c hk hc hplain ?_
  split_ifs
  · exact scheduled_fatal ms hk1
  · exact h

theorem scheduled_checkErrorsOrWarnings {ms all : List Module} {k j : Nat} {g : CheckSite}
    {w : World X} {K : Run X} (c : Nat) (hk : k ≤ c) (hc : c ≤ j) (hk1 : j ≤ 33)
    (hg : ∀ e wn, (Event.check g e wn).rank = some c) (h : Scheduled ms j K.trace) :
    Scheduled ms k (checkErrorsOrWarnings g w all K).trace := by
  have hplain : ∀ x ∈ [Event.check g w.errors w.warnings],
      (∀ i, x.rank = some i → i = c) ∧ ∀ s : Stage, x.stage = some s → s.isBatch = false := by
    intro x hx
    simp only [List.mem_singleton] at hx
    subst hx
    refine ⟨fun i hi => ?_, fun s hs => by simp [Event.stage] at hs⟩
    rw [hg] at hi
    injection hi with hi
    exact hi.symm
  unfold checkErrorsOrWarnings
  rw [Run.after_trace]
  refine scheduled_plain c hk hc hplain ?_
  split_ifs
  · exact scheduled_fatal ms hk1
  · exact h

theorem finish_scheduled (env : Env X) (o : Opts) (p : Params) (ms all : List Module)
    (w : World X) : Scheduled ms 30 (finish env o p all w).trace := by
  have hrun : ∀ t0 : List Event, (∀ x ∈ t0, (∀ i, x.rank = some i → i = 30) ∧
      ∀ s : Stage, x.stage = some s → s.isBatch = false) →
      Scheduled ms 30 (t0 ++ [Event.runExecutable] ++ all.map Event.deleteObjFile ++
        [Event.deleteExecutable]) := by
    intro t0 h0
    rw [List.append_assoc, List.append_assoc]
    refine scheduled_plain 30 (le_refl _) (le_refl _) h0 ?_
    refine scheduled_plain 31 (by decide) (le_refl _) (by simp [Event.rank, Event.stage]) ?_
    refine scheduled_unranked ?_ ?_
    · intro x hx
      obtain ⟨m, -, rfl⟩ := List.mem_map.1 hx
      exact ⟨rfl, rfl⟩
    · have := @scheduled_plain ms 31 32 [Event.deleteExecutable] [] 32 (by decide)
        (le_refl _) (by simp [Event.rank, Event.stage]) (scheduled_nil ms 32)
      simpa using this
  have hone : ∀ e : Event, (∀ i, e.rank = some i → i = 30) →
      (∀ s : Stage, e.stage = some s → s.isBatch = false) → Scheduled ms 30 [e] := by
    intro e h1 h2
    have := @scheduled_plain ms 30 30 [e] [] 30 (le_refl _) (le_refl _)
      (by simpa using ⟨h1, h2⟩) (scheduled_nil ms 30)
    simpa using this
  have herr : ∀ msg, Scheduled ms 30 [Event.error msg] := by
    intro msg
    have := @scheduled_unranked ms 30 [Event.error msg] [] (by simp [Event.rank, Event.stage])
      (scheduled_nil ms 30)
    simpa using this
  unfold finish
  dsimp only
  split_ifs
  · exact herr _
  · exact herr _
  · exact scheduled_nil _ _
  · exact hrun _ (by simp [Event.rank, Event.stage])
  · exact hone _ (by simp [Event.rank]) (by simp [Event.stage])
  · exact hrun _ (by simp [Event.rank, Event.stage])
  · exact hone _ (by simp [Event.rank]) (by simp [Event.stage])
  · exact hrun _ (by simp)
  · exact scheduled_nil _ _

theorem emitModules_scheduled (env : Env X) (ms all : List Module) {K : World X → Run X}
    (hK : ∀ w, Scheduled ms 25 (K w).trace) (l : List Module) (w : World X) :
    Scheduled ms 24 (emitModules env all l w K).trace := by
  induction l generalizing w with
  | nil => exact scheduled_mono (by decide) (hK w)
  | cons m rest ih =>
    unfold emitModules
    exact scheduled_call 24 (le_refl _) (le_refl _) rfl
      (fun s hs => by cases hs; rfl) fun w =>
      scheduled_checkErrors 24 (le_refl _) (le_refl _) (by decide) (fun _ _ => rfl) (ih w)

theorem backEnd_scheduled (env : Env X) (o : Opts) (p : Params) (ms : List Module)
    (w : World X) : Scheduled ms 22 (backEnd env o p ms w).trace := by
  have htail : ∀ w : World X, Scheduled ms 25
      (forEachIf p.doDocComments Event.gendocfile env.gendocfile ms w fun w =>
        callIf p.doJsonGeneration Event.emitJson (env.emitJson ms) w fun w =>
        call Event.pruneCache env.pruneCache w fun w =>
        call Event.freeRuntime env.freeRuntime w fun w =>
        checkErrors CheckSite.afterShutdown w ms (finish env o p ms w)).trace := by
    intro w
    have h1 : ∀ w : World X, Scheduled ms 25
        (callIf p.doJsonGeneration Event.emitJson (env.emitJson ms) w fun w =>
        call Event.pruneCache env.pruneCache w fun w =>
        call Event.freeRuntime env.freeRuntime w fun w =>
        checkErrors CheckSite.afterShutdown w ms (finish env o p ms w)).trace := fun w =>
      scheduled_callIf 26 (by decide) (by decide) rfl (fun s hs => by cases hs) fun _ =>
        scheduled_call 27 (le_refl _) (by decide) rfl (fun s hs => by cases hs) fun _ =>
        scheduled_call 28 (le_refl _) (by decide) rfl (fun s hs => by cases hs) fun _ =>
        scheduled_checkErrors 29 (le_refl _) (by decide) (by decide) (fun _ _ => rfl)
          (finish_scheduled env o p ms ms _)
    unfold forEachIf
    split_ifs
    · rw [forEach_eq, Run.after_trace]
      refine scheduled_unranked ?_ (h1 _)
      intro x hx
      obtain ⟨m, -, rfl⟩ := List.mem_map.1 hx
      exact ⟨rfl, rfl⟩
    · exact h1 w
  unfold backEnd codegen
  refine scheduled_call 22 (le_refl _) (le_refl _) rfl (fun s hs => by cases hs) fun w => ?_
  split_ifs
  · refine scheduled_call (j := 24) 23 (by decide) (by decide) rfl (fun s hs => by cases hs)
      fun w => ?_
    refine emitModules_scheduled env ms ms ?_ ms w
    intro w
    exact scheduled_call 25 (le_refl _) (le_refl _) rfl (fun s hs => by cases hs) htail
  · exact scheduled_mono (by decide) (htail w)

theorem frontEnd_scheduled (env : Env X) (o : Opts) (p : Params) (ms : List Module)
    (w : World X) : Scheduled ms 8 (frontEnd env o p ms w).trace := by
  unfold frontEnd
  exact scheduled_checkErrors 8 (le_refl _) (by decide) (by decide) (fun _ _ => rfl) <|
    scheduled_forEachIf Stage.hdrgen 9 (fun _ => rfl) (fun _ => rfl) (le_refl _)
      (by decide) fun w =>
    scheduled_checkErrors 10 (le_refl _) (by decide) (by decide) (fun _ _ => rfl) <|
    scheduled_forEach Stage.importAll 11 (fun _ => rfl) (fun _ => rfl) (le_refl _)
      (by decide) fun w =>
    scheduled_checkErrors 12 (le_refl _) (by decide) (by decide) (fun _ _ => rfl) <|
    scheduled_forEach Stage.semantic 13 (fun _ => rfl) (fun _ => rfl) (le_refl _)
      (by decide) fun w =>
    scheduled_checkErrors 14 (le_refl _) (by decide) (by decide) (fun _ _ => rfl) <|
    scheduled_call 15 (le_refl _) (by decide) rfl (fun s hs => by cases hs; rfl) fun w =>
    scheduled_forEach Stage.semantic2 16 (fun _ => rfl) (fun _ => rfl) (le_refl _)
      (by decide) fun w =>
    scheduled_checkErrors 17 (le_refl _) (by decide) (by decide) (fun _ _ => rfl) <|
    scheduled_forEach Stage.semantic3 18 (fun _ => rfl) (fun _ => rfl) (le_refl _)
      (by decide) fun w =>
    scheduled_checkErrors 19 (le_refl _) (by decide) (by decide) (fun _ _ => rfl) <|
    scheduled_call 20 (le_refl _) (by decide) rfl (fun s hs => by cases hs; rfl) fun w =>
    scheduled_checkErrorsOrWarnings 21 (le_refl _) (by decide) (by decide)
      (fun _ _ => rfl) (backEnd_scheduled env o p ms w)

theorem parseFiles_scheduled (env : Env X) (o : Opts) {K : List Module → World X → Run X}
    (hK : ∀ ms w, Scheduled (K ms w).modules 8 (K ms w).trace) (fuel i : Nat)
    (ms : List Module) (w : World X) :
    Scheduled (parseFiles env o fuel i ms w K).modules 7
      (parseFiles env o fuel i ms w K).trace := by
  induction fuel generalizing i ms w with
  | zero =>
    unfold parseFiles
    split_ifs
    · exact scheduled_nil _ _
    · exact scheduled_mono (by decide) (hK _ _)
  | succ fuel ih =>
    unfold parseFiles
    split
    · exact scheduled_mono (by decide) (hK _ _)
    · rename_i m _
      dsimp only
      split_ifs
      · rw [Run.after_modules, Run.after_trace]
        show Scheduled _ 7 ([Event.parse m, Event.buildTargetFiles m] ++
          ([Event.deleteObjFile m, Event.gendocfile m] ++ _))
        exact scheduled_plain 7 (le_refl _) (le_refl _) (by simp [Event.rank, Event.stage, Stage.isBatch])
          (scheduled_unranked (by simp [Event.rank, Event.stage]) (ih _ _ _))
      · rw [Run.after_modules, Run.after_trace]
        show Scheduled _ 7 ([Event.parse m, Event.buildTargetFiles m] ++
          ([Event.deleteObjFile m] ++ _))
        exact scheduled_plain 7 (le_refl _) (le_refl _) (by simp [Event.rank, Event.stage, Stage.isBatch])
          (scheduled_unranked (by simp [Event.rank, Event.stage]) (ih _ _ _))

theorem parseAndCompile_scheduled (env : Env X) (o : Opts) (p : Params) (ms : List Module)
    (w : World X) :
    Scheduled (parseAndCompile env o p ms w).modules 7 (parseAndCompile env o p ms w).trace :=
  parseFiles_scheduled env o (fun ms w => by
    rw [frontEnd_modules]
    exact frontEnd_scheduled env o p ms w) _ _ _ _

theorem compileModules_scheduled (env : Env X) (g : Global) (o : Opts) (p : Params)
    (ms : List Module) (w : World X) :
    Scheduled (compileModules env g o p ms w).modules 6
      (compileModules env g o p ms w).trace := by
  rcases compileModules_cases env g o p ms w with
    ⟨-, -, fn, -, -, hc⟩ | ⟨-, -, fn, -, -, hc⟩ | hc <;> rw [hc]
  · have := @scheduled_plain ms 6 6 [Event.attemptRecoverFromCache fn true] [] 6 (le_refl _)
      (le_refl _) (by simp [Event.rank, Event.stage]) (scheduled_nil ms 6)
    simpa using this
  · rw [Run.after_modules, Run.after_trace]
    exact scheduled_plain 6 (le_refl _) (by decide) (by simp [Event.rank, Event.stage])
      (parseAndCompile_scheduled env o p ms _)
  · exact scheduled_mono (by decide) (parseAndCompile_scheduled env o p ms w)

theorem scheduled_of_ordered {k : Nat} {t : List Event} (h : Ordered k t) :
    Scheduled [] k t :=
  ⟨h, fun _ _ _ m hm => by cases hm⟩

theorem ordered_of_scheduled {k : Nat} {t : List Event} (h : Scheduled [] k t) :
    Ordered k t :=
  h.1

theorem createAndCompile_ordered (env : Env X) (g : Global) (o : Opts) (p : Params)
    (files : List String) (w : World X) :
    Ordered 4 (createAndCompile env g o p files w).trace := by
  unfold createAndCompile
  dsimp only
  rw [Run.after_trace]
  refine ordered_of_scheduled ?_
  refine scheduled_plain (j := 5) 4 (le_refl _) (by decide)
    (front_createModules env g _ 0 _ [] (by simp) (by simp [Event.rank, Event.stage])
      (by simp [Event.rank, Event.stage])) ?_
  split_ifs
  · exact scheduled_fatal [] (by decide)
  · rw [Run.after_trace]
    refine scheduled_plain (j := 6) 5 (le_refl _) (by decide)
      (front_readFiles env g _ (by simp) (by simp [Event.rank, Event.stage])
        (by simp [Event.rank, Event.stage])) ?_
    exact scheduled_of_ordered (compileModules_scheduled env g o _ _ _).1

/-- The events of a run of `cppmain` occur in the order of the coordinator:
no event is followed by an event of an earlier position. -/
theorem cppmain_ordered (env : Env X) (g : Global) (o : Opts) (w0 : World X) :
    Ordered 0 (cppmain env g o w0).trace := by
  unfold cppmain
  dsimp only
  rw [Run.after_trace]
  refine ordered_of_scheduled ?_
  refine scheduled_plain (j := 1) 0 (le_refl _) (by decide)
    (front_parseCommandLine env g o w0 (by simp [Event.rank, Event.stage])
      (by simp [Event.rank, Event.stage]) (by simp [Event.rank, Event.stage])
      (by simp [Event.rank, Event.stage])) ?_
  by_cases h0 : ((parseCommandLine env g o { world := w0, trace := [] }).sourceFiles.length = 0
      && !(parseCommandLine env g o { world := w0, trace := [] }).helpOnly) = true
  · rw [if_pos h0]
    have := @scheduled_plain [] 1 1 [Event.PrintHelpMessage] [] 1 (le_refl _)
      (le_refl _) (by simp [Event.rank, Event.stage]) (scheduled_nil [] 1)
    simpa using this
  · rw [if_neg h0]
    refine scheduled_checkErrors (j := 2) 1 (le_refl _) (by decide) (by decide)
      (fun _ _ => rfl) ?_
    rw [Run.after_trace]
    refine scheduled_unranked
      (front_targetSwitches o (by simp) (by simp [Event.rank, Event.stage])) ?_
    refine scheduled_checkErrors (j := 3) 2 (le_refl _) (by decide) (by decide)
      (fun _ _ => rfl) ?_
    refine scheduled_call (j := 3) 3 (le_refl _) (le_refl _) rfl
      (fun s hs => by cases hs) fun w => ?_
    dsimp only
    rw [Run.after_trace]
    refine scheduled_plain (j := 3) 3 (le_refl _) (le_refl _)
      (front_registerPredefinedVersions env o _ _ (by simp [Event.rank, Event.stage])
        (by simp [Event.rank, Event.stage]) (by simp)) ?_
    refine ite_of (P := fun r : Run X => Scheduled [] 3 r.trace) ?_ ?_
    · exact scheduled_fatal [] (by decide)
    · refine scheduled_call (j := 4) 3 (le_refl _) (by decide) rfl
        (fun s hs => by cases hs) fun w => ?_
      exact scheduled_of_ordered (createAndCompile_ordered env g o _ _ _)

/-- In a run of `cppmain`, a batch stage that is invoked at all is invoked on
every module of the final array `modules`. -/
theorem cppmain_wholeBatches (env : Env X) (g : Global) (o : Opts) (w0 : World X) :
    WholeBatches (cppmain env g o w0).modules (cppmain env g o w0).trace := by
  rcases cppmain_cases env g o w0 with ⟨hall, -⟩ | ⟨-, t, w, ht, heq⟩
  · refine wholeBatches_of_none fun x hx s hs => ?_
    have h := (isIntake_not_stage (hall x hx)).1
    simp [Event.isStage, hs] at h
  · rw [heq, Run.after_modules, Run.after_trace]
    refine wholeBatches_append (wholeBatches_of_none fun x hx s hs => ?_)
      (compileModules_scheduled env g o _ _ _).2
    have h := (isIntake_not_stage (ht x hx)).1
    simp [Event.isStage, hs] at h

/-! ## Fail-slow within a stage, fail-fast in code generation, warnings -/

/-- With fewer than `UINT_RANGE` modules, the part of `cppmain` from the parse
loop on invokes `Module::parse` on every module it starts with. -/
theorem parseAndCompile_parses (env : Env X) (o : Opts) (p : Params) (ms : List Module)
    (w : World X) (hlen : ms.length < UINT_RANGE) :
    ∀ m ∈ ms, Event.parse m ∈ (parseAndCompile env o p ms w).trace := by
  intro m hm
  unfold parseAndCompile
  obtain ⟨ms', w', t, h1, h2⟩ := parseFiles_finishes env o
    (fun modules w => frontEnd env o p modules w) ms.length 0 ms w (Nat.zero_le _) hlen
    (by omega)
  rw [h1, Run.after_trace]
  refine List.mem_append_left _ ?_
  have : Event.parse m ∈ t.filter Event.isStage := by
    rw [h2]
    simpa using List.mem_map_of_mem Event.parse hm
  exact (List.mem_filter.1 this).1

/-- A check of the counters has a position that no invocation of `parse`,
`importAll`, `semantic`, `semantic2` or `semantic3` has. -/
theorem check_not_between {x y : Event} {s : Stage} (gt : CheckSite) (e wn : Nat)
    (hs : s = Stage.parse ∨ s = Stage.importAll ∨ s = Stage.semantic ∨
      s = Stage.semantic2 ∨ s = Stage.semantic3)
    (hx : x.stage = some s) (hy : y.stage = some s)
    (h1 : x.notAfter (Event.check gt e wn)) (h2 : (Event.check gt e wn).notAfter y) :
    False := by
  have hxr : ∃ i, x.rank = some i ∧ y.rank = some i ∧
      (i = 7 ∨ i = 11 ∨ i = 13 ∨ i = 16 ∨ i = 18) := by
    cases x <;> simp [Event.stage] at hx <;> subst hx <;> simp at hs <;>
      cases y <;> simp [Event.stage] at hy <;> simp [Event.rank]
  obtain ⟨i, hxi, hyi, hi⟩ := hxr
  have hc : ∃ j, (Event.check gt e wn).rank = some j ∧
      (j = 1 ∨ j = 2 ∨ j = 8 ∨ j = 10 ∨ j = 12 ∨ j = 14 ∨ j = 17 ∨ j = 19 ∨ j = 21 ∨
        j = 24 ∨ j = 29) := by
    cases gt <;> simp [Event.rank]
  obtain ⟨j, hcj, hj⟩ := hc
  have a := h1 i j hxi hcj
  have b := h2 j i hcj hyi
  omega

/-- C11: fail-slow within the front-end stages. For each of the stages parse,
importAll, semantic, semantic2 and semantic3: once the stage function is
invoked on some module, it is invoked on every module of the active set of
that stage (every module created, for parse; the modules the parse loop
leaves, for the others), whatever the calls report; and no check of the
counters lies between two invocations of the stage: the error counter is
examined only after the whole batch. For parse this takes fewer than
`UINT_RANGE` modules, the range of the index of the loop. -/
theorem fail_slow_within_stage (env : Env X) (g : Global) (o : Opts) (w0 : World X)
    (s : Stage)
    (hs : s = Stage.parse ∨ s = Stage.importAll ∨ s = Stage.semantic ∨
      s = Stage.semantic2 ∨ s = Stage.semantic3)
    (hlen : s = Stage.parse → (intake env g o w0).modules.length < UINT_RANGE)
    (m0 : Module) (h0 : s.call m0 ∈ (cppmain env g o w0).trace) :
    (∀ m ∈ (if s = Stage.parse then (intake env g o w0).modules
        else (cppmain env g o w0).modules), s.call m ∈ (cppmain env g o w0).trace) ∧
    ∀ pre post gt e wn, (cppmain env g o w0).trace = pre ++ Event.check gt e wn :: post →
      (∀ x ∈ pre, x.stage ≠ some s) ∨ (∀ y ∈ post, y.stage ≠ some s) := by
  constructor
  · by_cases hp : s = Stage.parse
    · subst hp
      rw [if_pos rfl]
      intro m hm
      have h0' : Event.parse m0 ∈ (cppmain env g o w0).trace := h0
      show Event.parse m ∈ (cppmain env g o w0).trace
      rcases cppmain_cases env g o w0 with ⟨hall, -⟩ | ⟨-, t, w, ht, heq⟩
      · cases hall _ h0'
      · rw [heq] at h0' ⊢
        have hpc := fun w => parseAndCompile_parses env o (intake env g o w0).params
          (intake env g o w0).modules w (hlen rfl) m hm
        rcases compileModules_cases env g o (intake env g o w0).params
            (intake env g o w0).modules w with
          ⟨-, -, fn, -, -, hc⟩ | ⟨-, -, fn, -, -, hc⟩ | hc <;> rw [hc] at h0' ⊢
        · simp only [Run.after_trace, List.mem_append, List.mem_singleton] at h0'
          rcases h0' with h | h
          · cases ht _ h
          · cases h
        · simp only [Run.after_trace, List.mem_append]
          exact Or.inr (Or.inr (hpc _))
        · simp only [Run.after_trace, List.mem_append]
          exact Or.inr (hpc _)
    · rw [if_neg hp]
      have hb : s.isBatch = true := by
        rcases hs with rfl | rfl | rfl | rfl | rfl <;> first | rfl | exact absurd rfl hp
      have hst : (s.call m0).stage = some s := by
        rcases hs with rfl | rfl | rfl | rfl | rfl <;> rfl
      exact cppmain_wholeBatches env g o w0 s hb ⟨_, h0, hst⟩
  · intro pre post gt e wn heq
    by_contra hcon
    simp only [not_or, not_forall, not_not] at hcon
    obtain ⟨⟨x, hx, hxs⟩, ⟨y, hy, hys⟩⟩ := hcon
    have hord := (cppmain_ordered env g o w0).1
    rw [heq, List.pairwise_append] at hord
    have h1 := hord.2.2 x hx (Event.check gt e wn) (by simp)
    have h2 := (List.pairwise_cons.1 hord.2.1).1 y hy
    exact check_not_between gt e wn hs hxs hys h1 h2

/-- Witness for C11: `-c a.d b.d` in the environment in which `semantic`
reports an error for every module: `semantic` is invoked on both modules. -/
theorem fail_slow_within_stage_witness :
    Event.semantic aModule ∈
      (cppmain { quietEnv with semantic := fun _ w => w.error } posixGlobal optsTwoModules
        World.start).trace ∧
    (cppmain { quietEnv with semantic := fun _ w => w.error } posixGlobal optsTwoModules
        World.start).modules = [aModule, bModule] ∧
    ∀ m ∈ (if Stage.semantic = Stage.parse then
        (intake { quietEnv with semantic := fun _ w => w.error } posixGlobal optsTwoModules
          World.start).modules
        else (cppmain { quietEnv with semantic := fun _ w => w.error } posixGlobal
          optsTwoModules World.start).modules),
      Stage.semantic.call m ∈
        (cppmain { quietEnv with semantic := fun _ w => w.error } posixGlobal optsTwoModules
          World.start).trace :=
  ⟨by decide, by decide,
    (fail_slow_within_stage { quietEnv with semantic := fun _ w => w.error } posixGlobal
      optsTwoModules World.start Stage.semantic (by decide) (by decide) aModule
      (by decide)).1⟩

/-- C12 (counterexample): with `-c a.d b.d`, when `CodeGenerator::emit` reports
an error for `a.d`, the run ends through `fatal()` at the check that follows
that call, and `emit` is not invoked for `b.d`, a module of the active set. -/
theorem emit_error_stops_remaining_modules :
    (cppmain failingEmitEnv posixGlobal optsTwoModules World.start).modules =
      [aModule, bModule] ∧
    Event.emit aModule ∈ (cppmain failingEmitEnv posixGlobal optsTwoModules
      World.start).trace ∧
    Event.check CheckSite.afterEmit 1 0 ∈ (cppmain failingEmitEnv posixGlobal optsTwoModules
      World.start).trace ∧
    Event.emit bModule ∉ (cppmain failingEmitEnv posixGlobal optsTwoModules
      World.start).trace ∧
    (cppmain failingEmitEnv posixGlobal optsTwoModules World.start).exit = Exit.fatal := by
  decide

/-- C13 (counterexample): with `-c foo.d`, when `Module::parse` raises
`global.warnings` and reports no error, the checks after parse, header
generation, importAll, semantic, semantic2 and semantic3 read one warning and
let the run go on: every later stage up to `runDeferredSemantic3` is invoked. -/
theorem warnings_pass_the_batch_checks :
    Event.check CheckSite.afterParse 0 1 ∈
      (cppmain warningParseEnv posixGlobal optsCompileOnly World.start).trace ∧
    Event.importAll fooModule ∈
      (cppmain warningParseEnv posixGlobal optsCompileOnly World.start).trace ∧
    Event.check CheckSite.afterSemantic 0 1 ∈
      (cppmain warningParseEnv posixGlobal optsCompileOnly World.start).trace ∧
    Event.semantic2 fooModule ∈
      (cppmain warningParseEnv posixGlobal optsCompileOnly World.start).trace ∧
    Event.semantic3 fooModule ∈
      (cppmain warningParseEnv posixGlobal optsCompileOnly World.start).trace ∧
    Event.runDeferredSemantic3 ∈
      (cppmain warningParseEnv posixGlobal optsCompileOnly World.start).trace := by
  decide

/-- C17: on a cache hit `cppmain` returns `EXIT_SUCCESS` without having
invoked `ir2obj::pruneCache`: whenever `attemptRecoverFromCache` returns true,
the run is successful and `pruneCache` is not among its events. -/
theorem cache_hit_returns_without_pruning (env : Env X) (g : Global) (o : Opts)
    (w0 : World X) (filename : String)
    (h : Event.attemptRecoverFromCache filename true ∈ (cppmain env g o w0).trace) :
    (cppmain env g o w0).exit = Exit.returned EXIT_SUCCESS ∧
    Event.pruneCache ∉ (cppmain env g o w0).trace := by
  rcases cppmain_cases env g o w0 with ⟨hall, -⟩ | ⟨-, t, w, ht, heq⟩
  · cases hall _ h
  · rw [heq] at h ⊢
    have hnt : Event.attemptRecoverFromCache filename true ∉ t := fun hm => by
      cases ht _ hm
    have hnp : Event.pruneCache ∉ t := fun hm => by
      cases ht _ hm
    rcases compileModules_cases env g o (intake env g o w0).params
        (intake env g o w0).modules w with
      ⟨-, -, fn, -, -, hc⟩ | ⟨-, -, fn, -, -, hc⟩ | hc
    · rw [hc]
      refine ⟨rfl, ?_⟩
      simp only [Run.after_trace, List.mem_append, List.mem_singleton, not_or]
      exact ⟨hnp, by simp⟩
    · rw [hc] at h
      simp only [Run.after_trace, List.mem_append, List.mem_singleton] at h
      rcases h with h | h | h
      · exact absurd h hnt
      · cases h
      · cases parseAndCompile_isPipeline env o _ _ _ _ h
    · rw [hc] at h
      simp only [Run.after_trace, List.mem_append] at h
      rcases h with h | h
      · exact absurd h hnt
      · cases parseAndCompile_isPipeline env o _ _ _ _ h

/-- Witness for C17, the failing input: `-c -singleobj -of=foo.o` with a cache
directory that has the artifact, for `foo.d`. -/
theorem cache_hit_returns_without_pruning_witness :
    Event.attemptRecoverFromCache "foo.o" true ∈
      (cppmain hitEnv posixGlobal optsCached World.start).trace ∧
    (cppmain hitEnv posixGlobal optsCached World.start).exit = Exit.returned EXIT_SUCCESS ∧
    Event.pruneCache ∉ (cppmain hitEnv posixGlobal optsCached World.start).trace :=
  ⟨by decide,
    cache_hit_returns_without_pruning hitEnv posixGlobal optsCached World.start "foo.o"
      (by decide)⟩

/-! ## The parse loop removes the documentation files -/

theorem parseBatch_fst (env : Env X) (o : Opts) (ms : List Module) (w : World X) :
    (parseBatch env o ms w).1.map Prod.fst = ms := by
  induction ms generalizing w with
  | nil => rfl
  | cons m rest ih => simp [parseBatch, ih]

theorem parseEvents_stages (l : List (Module × Bool)) :
    (parseEvents l).filter Event.isStage = (l.map Prod.fst).map Event.parse := by
  induction l with
  | nil => rfl
  | cons d rest ih =>
    obtain ⟨m, doc⟩ := d
    cases doc <;> simp [parseEvents, List.filter_cons, Event.isStage, Event.stage, ih]

theorem activeModules_sublist (l : List (Module × Bool)) :
    (activeModules l).Sublist (l.map Prod.fst) :=
  (List.filter_sublist l).map Prod.fst

/-- With fewer than `UINT_RANGE` modules, the parse loop at index `pre.length`
of the array `pre ++ rem` parses the modules `rem` one by one, keeps those
that are no documentation files, and hands over to the rest of the program. -/
theorem parseFiles_eq (env : Env X) (o : Opts) (K : List Module → World X → Run X)
    (rem pre : List Module) (fuel : Nat) (w : World X)
    (hlen : (pre ++ rem).length < UINT_RANGE) (hfuel : rem.length ≤ fuel) :
    parseFiles env o fuel pre.length (pre ++ rem) w K =
      (K (pre ++ activeModules (parseBatch env o rem w).1) (parseBatch env o rem w).2).after
        (parseEvents (parseBatch env o rem w).1) := by
  induction rem generalizing pre fuel w with
  | nil =>
    cases fuel with
    | zero =>
      unfold parseFiles
      rw [if_neg (by simp)]
      simp [parseBatch, activeModules, parseEvents, Run.after_nil]
    | succ fuel =>
      unfold parseFiles
      have : (pre ++ []).get? pre.length = none := by simp
      rw [this]
      simp [parseBatch, activeModules, parseEvents, Run.after_nil]
  | cons m rest ih =>
    cases fuel with
    | zero => simp at hfuel
    | succ fuel =>
      have hget : (pre ++ m :: rest).get? pre.length = some m := by
        rw [List.get?_eq_getElem?, List.getElem?_append_right (le_refl _)]
        simp
      have hpl : pre.length < UINT_RANGE := by
        simp only [List.length_append, List.length_cons] at hlen
        omega
      unfold parseFiles
      rw [hget]
      dsimp only
      by_cases hdoc : env.isDocFile m (env.deleteObjFile m
          (env.buildTargetFiles m o.singleObj (o.createSharedLib || o.createStaticLib)
            (env.parse m w))) = true
      · rw [if_pos hdoc, unsigned_dec_inc _ hpl]
        have he : (pre ++ m :: rest).eraseIdx pre.length = pre ++ rest := by
          rw [List.eraseIdx_append_of_length_le (le_refl _)]
          simp
        rw [he, ih pre fuel _ (by
          simp only [List.length_append, List.length_cons] at hlen ⊢
          omega) (by simpa using hfuel), Run.after_after]
        simp [parseBatch, hdoc, activeModules, parseEvents]
      · rw [if_neg hdoc]
        have hlen' : ((pre ++ [m]) ++ rest).length < UINT_RANGE := by
          simpa using hlen
        have hidx : (pre.length + 1) % UINT_RANGE = (pre ++ [m]).length := by
          rw [unsigned_inc _ (by
            simp only [List.length_append, List.length_cons] at hlen
            omega)]
          simp
        have hl : pre ++ m :: rest = (pre ++ [m]) ++ rest := by simp
        rw [hidx, hl, ih (pre ++ [m]) fuel _ hlen' (by simpa using hfuel), Run.after_after]
        simp only [Bool.not_eq_true] at hdoc
        simp [parseBatch, hdoc, activeModules, parseEvents]

/-- C14: doc-only removal. With fewer than `UINT_RANGE` modules, the part of
`cppmain` from the parse loop on is: the parse stage module by module
(`parseBatch`: `Module::parse` exactly once on each module, in the order of
the array), and then the rest of the pipeline run on exactly the modules
whose `isDocFile` is false, in their original order. The rest of the pipeline
invokes `parse` no more, and it invokes header generation, importAll,
semantic, semantic2, semantic3 and code generation on modules of that list
only: no documentation file is passed to a later stage. -/
theorem doc_only_removal (env : Env X) (o : Opts) (p : Params) (ms : List Module)
    (w : World X) (hlen : ms.length < UINT_RANGE) :
    parseAndCompile env o p ms w =
      (frontEnd env o p (activeModules (parseBatch env o ms w).1)
        (parseBatch env o ms w).2).after (parseEvents (parseBatch env o ms w).1) ∧
    (parseBatch env o ms w).1.map Prod.fst = ms ∧
    (parseEvents (parseBatch env o ms w).1).filter Event.isStage = ms.map Event.parse ∧
    (activeModules (parseBatch env o ms w).1).Sublist ms ∧
    ∀ ev ∈ (frontEnd env o p (activeModules (parseBatch env o ms w).1)
        (parseBatch env o ms w).2).trace,
      ev.stage ≠ some Stage.parse ∧
      ∀ m, ev = Event.genhdrfile m ∨ ev = Event.importAll m ∨ ev = Event.semantic m ∨
          ev = Event.semantic2 m ∨ ev = Event.semantic3 m ∨ ev = Event.emit m →
        m ∈ activeModules (parseBatch env o ms w).1 := by
  refine ⟨?_, parseBatch_fst env o ms w, ?_, ?_, ?_⟩
  · unfold parseAndCompile
    have := parseFiles_eq env o (fun modules w => frontEnd env o p modules w) ms []
      ms.length w (by simpa using hlen) (le_refl _)
    simpa using this
  · rw [parseEvents_stages, parseBatch_fst]
  · have := activeModules_sublist (parseBatch env o ms w).1
    rwa [parseBatch_fst] at this
  · intro ev hev
    have hpre := (frontEnd_stagesOf env o p (activeModules (parseBatch env o ms w).1)
      (parseBatch env o ms w).2).1
    constructor
    · intro hs
      have hmem : ev ∈ afterParseStages p (activeModules (parseBatch env o ms w).1) :=
        hpre.subset (List.mem_filter.2 ⟨hev, by simp [Event.isStage, hs]⟩)
      unfold afterParseStages at hmem
      simp only [List.mem_append, List.mem_map, List.mem_singleton, List.mem_ite_nil_right]
        at hmem
      rcases hmem with ⟨-, m, -, rfl⟩ | ⟨m, -, rfl⟩ | ⟨m, -, rfl⟩ | rfl | ⟨m, -, rfl⟩ |
        ⟨m, -, rfl⟩ | rfl | ⟨-, m, -, rfl⟩ <;> simp [Event.stage] at hs
    · intro m hm
      have hst : ev.isStage = true := by
        rcases hm with rfl | rfl | rfl | rfl | rfl | rfl <;> rfl
      have hmem : ev ∈ afterParseStages p (activeModules (parseBatch env o ms w).1) :=
        hpre.subset (List.mem_filter.2 ⟨hev, hst⟩)
      unfold afterParseStages at hmem
      simp only [List.mem_append, List.mem_map, List.mem_singleton, List.mem_ite_nil_right]
        at hmem
      rcases hm with rfl | rfl | rfl | rfl | rfl | rfl <;> simp at hmem <;>
        first | exact hmem | exact hmem.2

/-- Witness for C14: for the modules of `a.d` and `b.dd`, of which the second
is a documentation file, the pipeline goes on with the module of `a.d`
alone. -/
theorem doc_only_removal_witness :
    activeModules (parseBatch docEnv optsCompileOnly [aModule, docModule] World.start).1 =
      [aModule] ∧
    parseAndCompile docEnv optsCompileOnly {} [aModule, docModule] World.start =
      (frontEnd docEnv optsCompileOnly {}
        (activeModules (parseBatch docEnv optsCompileOnly [aModule, docModule] World.start).1)
        (parseBatch docEnv optsCompileOnly [aModule, docModule] World.start).2).after
        (parseEvents (parseBatch docEnv optsCompileOnly [aModule, docModule] World.start).1) :=
  ⟨by decide,
    (doc_only_removal docEnv optsCompileOnly {} [aModule, docModule] World.start
      (by decide)).1⟩

/-! ## The lifecycle of one module -/

/-- The loop "Read files" makes one call per module, in the order of the
array: `setbuffer` for the module of `global.main_d`, `read` for the others. -/
theorem readFiles_trace (env : Env X) (g : Global) (ms : List Module) (s : St X) :
    (readFiles env g ms s).trace = s.trace ++ ms.map fun m =>
      if strcmpEq (env.srcfileName m) g.main_d then Event.setbuffer m else Event.read m := by
  unfold readFiles
  induction ms generalizing s with
  | nil => simp
  | cons m rest ih =>
    simp only [List.foldl_cons, List.map_cons]
    rw [ih]
    split_ifs <;> simp [St.call]

/-- The modules the intake creates are pairwise distinct: each has the index
of its argument. -/
theorem createModules_nodup (env : Env X) (g : Global) (files : List String) (i : Nat)
    (p : Params) (ms : List Module) (s : St X) (hms : ms.Nodup)
    (hidx : ∀ m ∈ ms, m.index < i) :
    (createModules env g files i p ms s).modules.Nodup := by
  induction files generalizing i p ms s with
  | nil => exact hms
  | cons file rest ih =>
    have hidx' : ∀ m ∈ ms, m.index < i + 1 := fun m hm => Nat.lt_succ_of_lt (hidx m hm)
    unfold createModules
    split
    · exact ih _ _ _ _ hms hidx'
    · exact ih _ _ _ _ hms hidx'
    · exact ih _ _ _ _ hms hidx'
    · exact ih _ _ _ _ hms hidx'
    · rename_i name _
      refine ih _ _ _ _ ?_ ?_
      · rw [List.nodup_append]
        refine ⟨hms, List.nodup_singleton _, ?_⟩
        intro a ha hb
        simp only [List.mem_singleton] at hb
        subst hb
        exact absurd (hidx _ ha) (lt_irrefl _)
      · intro m hm
        rcases List.mem_append.1 hm with hm | hm
        · exact hidx' m hm
        · simp only [List.mem_singleton] at hm
          subst hm
          exact Nat.lt_succ_self _
    · exact hms
    · exact hms

theorem intake_nodup (env : Env X) (g : Global) (o : Opts) (w0 : World X) :
    (intake env g o w0).modules.Nodup :=
  createModules_nodup env g _ 0 _ [] _ List.nodup_nil (by simp)

/-- A run that does not arrive at the cache check produces only events of the
command line, of the registration of the predefined versions and of the loop
"Create Modules": no module is read. -/
theorem cppmain_of_not_reaches_events {P : Event → Prop} (env : Env X) (g : Global)
    (o : Opts) (w0 : World X) (h : reachesCacheCheck env g o w0 = false)
    (herr : ∀ msg, P (Event.error msg)) (hlevel : ∀ k l, P (Event.setLevel k l))
    (hident : ∀ k i, P (Event.addIdent k i)) (hdep : P Event.deprecation)
    (hhelp : P Event.PrintHelpMessage) (hcheck : ∀ gt e wn, P (Event.check gt e wn))
    (hsetup : P Event.targetSetup) (hadd : ∀ i, P (Event.addPredefinedGlobalIdent i))
    (hinit : P Event.frontEndInit) (hcreate : ∀ m, P (Event.create m))
    (hfatal : P Event.fatal) :
    ∀ e ∈ (cppmain env g o w0).trace, P e := by
  have hcl := front_parseCommandLine env g o w0 herr hlevel hident hdep
  have hts := front_targetSwitches (P := P) o
    (s := { world := (parseCommandLine env g o { world := w0, trace := [] }).st.world,
            trace := [] }) (by simp) herr
  have hreg : ∀ e ∈ (registered env g o w0).st.trace, P e :=
    front_registered env g o w0 hadd herr
  have hcm : ∀ e ∈ (intake env g o w0).st.trace, P e :=
    front_createModules env g _ 0 _ [] (by simp) herr hcreate
  unfold reachesCacheCheck at h
  dsimp only at h
  rw [cppmain_unfold]
  by_cases h1 : ((parseCommandLine env g o { world := w0, trace := [] }).sourceFiles.length = 0
      && !(parseCommandLine env g o { world := w0, trace := [] }).helpOnly) = true
  · rw [if_pos h1]
    simp only [Run.after_trace, List.forall_mem_append, List.forall_mem_cons]
    exact ⟨hcl, hhelp, by simp⟩
  rw [if_neg h1]
  by_cases h2 : (parseCommandLine env g o { world := w0, trace := [] }).st.world.errors = 0
  swap
  · rw [checkErrors_of_ne _ h2]
    simp only [fatal, Run.after_trace, List.forall_mem_append, List.forall_mem_cons]
    exact ⟨hcl, ⟨hcheck _ _ _, by simp⟩, hfatal, by simp⟩
  rw [checkErrors_of_eq _ h2]
  by_cases h3 : (targetSwitches o
      { world := (parseCommandLine env g o { world := w0, trace := [] }).st.world,
        trace := [] }).world.errors = 0
  swap
  · rw [checkErrors_of_ne _ h3]
    simp only [fatal, Run.after_trace, List.forall_mem_append, List.forall_mem_cons]
    exact ⟨hcl, ⟨hcheck _ _ _, by simp⟩, hts, ⟨hcheck _ _ _, by simp⟩, hfatal, by simp⟩
  rw [checkErrors_of_eq _ h3]
  cases h5 : (registered env g o w0).failed with
  | true =>
    rw [if_pos rfl]
    simp only [fatal, Run.after_trace, List.forall_mem_append, List.forall_mem_cons]
    exact ⟨hcl, ⟨hcheck _ _ _, by simp⟩, hts, ⟨hcheck _ _ _, by simp⟩, ⟨hsetup, by simp⟩,
      hreg, hfatal, by simp⟩
  | false =>
    have h4 : (intake env g o w0).failed = true := by
      simp only [Bool.not_eq_true] at h1
      rw [h1] at h
      simpa [h2, h3, h5] using h
    rw [h4]
    simp only [fatal, Run.after_trace, List.forall_mem_append, List.forall_mem_cons,
      if_true, Bool.false_eq_true, if_false]
    exact ⟨hcl, ⟨hcheck _ _ _, by simp⟩, hts, ⟨hcheck _ _ _, by simp⟩, ⟨hsetup, by simp⟩,
      hreg, ⟨hinit, by simp⟩, hcm, hfatal, by simp⟩

/-- Among the calls `f` on pairwise distinct modules, the calls selected by
`q` are at most the one call `e`, when `q` selects no other call and `f` makes
`e` for one module only. -/
theorem filter_map_sublist_singleton {l : List Module} (hl : l.Nodup) (f : Module → Event)
    (e : Event) (q : Event → Bool) (h : ∀ a ∈ l, q (f a) = true → f a = e)
    (hinj : ∀ a ∈ l, ∀ b ∈ l, f a = e → f b = e → a = b) :
    ((l.map f).filter q).Sublist [e] := by
  induction l with
  | nil => simp
  | cons a rest ih =>
    have hrest := ih (List.nodup_cons.1 hl).2 (fun b hb => h b (List.mem_cons_of_mem _ hb))
      (fun b hb c hc => hinj b (List.mem_cons_of_mem _ hb) c (List.mem_cons_of_mem _ hc))
    rw [List.map_cons, List.filter_cons]
    split_ifs with hq
    · have hfa := h a (List.mem_cons_self _ _) hq
      have hnil : (rest.map f).filter q = [] := by
        rw [List.filter_eq_nil_iff]
        intro x hx hqx
        obtain ⟨b, hb, rfl⟩ := List.mem_map.1 hx
        have hfb := h b (List.mem_cons_of_mem _ hb) hqx
        have := hinj a (List.mem_cons_self _ _) b (List.mem_cons_of_mem _ hb) hfa hfb
        subst this
        exact (List.nodup_cons.1 hl).1 hb
      rw [hnil, hfa]
    · exact hrest

theorem filter_eq_nil_of_all {t : List Event} {q : Event → Bool}
    (h : ∀ x ∈ t, q x = false) : t.filter q = [] := by
  rw [List.filter_eq_nil_iff]
  intro x hx
  simp [h x hx]

/-- Up to the cache check, the only stage function of the lifecycle of a
module that is invoked is `read`, at most once. -/
theorem atCacheCheck_lifecycle (env : Env X) (g : Global) (o : Opts) (w0 : World X)
    (m : Module) :
    ((atCacheCheck env g o w0).trace.filter fun x => decide (x ∈ lifecycle m)).Sublist
      [Event.read m] := by
  have hcl := front_parseCommandLine (P := fun x => decide (x ∈ lifecycle m) = false)
    env g o w0 (by simp [lifecycle]) (by simp [lifecycle]) (by simp [lifecycle])
    (by simp [lifecycle])
  have hts := front_targetSwitches (P := fun x => decide (x ∈ lifecycle m) = false) o
    (s := { world := (parseCommandLine env g o { world := w0, trace := [] }).st.world,
            trace := [] }) (by simp) (by simp [lifecycle])
  have hcm : ∀ e ∈ (intake env g o w0).st.trace, decide (e ∈ lifecycle m) = false :=
    front_createModules env g _ 0 _ [] (by simp) (by simp [lifecycle]) (by simp [lifecycle])
  have hreg : ∀ e ∈ (registered env g o w0).st.trace, decide (e ∈ lifecycle m) = false :=
    front_registered env g o w0 (by simp [lifecycle]) (by simp [lifecycle])
  unfold atCacheCheck
  dsimp only
  rw [readFiles_trace]
  simp only [List.filter_append, filter_eq_nil_of_all hcl, filter_eq_nil_of_all hts,
    filter_eq_nil_of_all hcm, filter_eq_nil_of_all hreg, List.nil_append]
  have h1 : ([Event.check CheckSite.afterCommandLine 0
      (parseCommandLine env g o { world := w0, trace := [] }).st.world.warnings].filter
      fun x => decide (x ∈ lifecycle m)) = [] := by simp [lifecycle]
  have h2 : ([Event.check CheckSite.afterTargetSwitches 0 (targetSwitches o
      { world := (parseCommandLine env g o { world := w0, trace := [] }).st.world,
        trace := [] }).world.warnings].filter
      fun x => decide (x ∈ lifecycle m)) = [] := by simp [lifecycle]
  have h3 : ([Event.targetSetup].filter fun x => decide (x ∈ lifecycle m)) = [] := by
    simp [lifecycle]
  have h4 : ([Event.frontEndInit].filter fun x => decide (x ∈ lifecycle m)) = [] := by
    simp [lifecycle]
  rw [h1, h2, h3, h4]
  simp only [List.nil_append]
  refine filter_map_sublist_singleton (intake_nodup env g o w0) _ _ _ ?_ ?_
  · intro a _ ha
    split_ifs at ha ⊢ <;> simp [lifecycle] at ha
    rw [ha]
  · intro a _ b _ ha hb
    split_ifs at ha hb
    simp at ha hb
    rw [ha, hb]

theorem parseAndCompile_active (env : Env X) (o : Opts) (p : Params) (ms : List Module)
    (w : World X) (hlen : ms.length < UINT_RANGE) :
    (parseAndCompile env o p ms w).modules.Sublist ms := by
  unfold parseAndCompile
  have := parseFiles_eq env o (fun modules w => frontEnd env o p modules w) ms []
    ms.length w (by simpa using hlen) (le_refl _)
  simp only [List.length_nil, List.nil_append] at this
  rw [this, Run.after_modules, frontEnd_modules]
  have h := activeModules_sublist (parseBatch env o ms w).1
  rwa [parseBatch_fst] at h

/-- Among the stage invocations of a full run on pairwise distinct modules,
those of the lifecycle of one module are at most one each, in the order of the
lifecycle. -/
theorem expectedStages_lifecycle (p : Params) (all act : List Module) (hall : all.Nodup)
    (hact : act.Nodup) (m : Module) :
    ((expectedStages p all act).filter fun x => decide (x ∈ lifecycle m)).Sublist
      [Event.parse m, Event.importAll m, Event.semantic m, Event.semantic2 m,
        Event.semantic3 m, Event.emit m] := by
  have hparse := filter_map_sublist_singleton hall Event.parse (Event.parse m)
    (fun x => decide (x ∈ lifecycle m)) (fun a _ h => by simpa [lifecycle] using h)
    (fun a _ b _ ha hb => by simp at ha hb; rw [ha, hb])
  have himport := filter_map_sublist_singleton hact Event.importAll (Event.importAll m)
    (fun x => decide (x ∈ lifecycle m)) (fun a _ h => by simpa [lifecycle] using h)
    (fun a _ b _ ha hb => by simp at ha hb; rw [ha, hb])
  have hsem := filter_map_sublist_singleton hact Event.semantic (Event.semantic m)
    (fun x => decide (x ∈ lifecycle m)) (fun a _ h => by simpa [lifecycle] using h)
    (fun a _ b _ ha hb => by simp at ha hb; rw [ha, hb])
  have hsem2 := filter_map_sublist_singleton hact Event.semantic2 (Event.semantic2 m)
    (fun x => decide (x ∈ lifecycle m)) (fun a _ h => by simpa [lifecycle] using h)
    (fun a _ b _ ha hb => by simp at ha hb; rw [ha, hb])
  have hsem3 := filter_map_sublist_singleton hact Event.semantic3 (Event.semantic3 m)
    (fun x => decide (x ∈ lifecycle m)) (fun a _ h => by simpa [lifecycle] using h)
    (fun a _ b _ ha hb => by simp at ha hb; rw [ha, hb])
  have hemit := filter_map_sublist_singleton hact Event.emit (Event.emit m)
    (fun x => decide (x ∈ lifecycle m)) (fun a _ h => by simpa [lifecycle] using h)
    (fun a _ b _ ha hb => by simp at ha hb; rw [ha, hb])
  have hhdr : ((if p.doHdrGeneration then act.map Event.genhdrfile else []).filter
      fun x => decide (x ∈ lifecycle m)) = [] := by
    refine filter_eq_nil_of_all fun x hx => ?_
    split_ifs at hx
    · obtain ⟨a, -, rfl⟩ := List.mem_map.1 hx
      simp [lifecycle]
    · cases hx
  have hemit' : ((if p.obj then act.map Event.emit else []).filter
      fun x => decide (x ∈ lifecycle m)).Sublist [Event.emit m] := by
    split_ifs
    · exact hemit
    · simp
  have hd1 : ([Event.runDeferredSemantic].filter fun x => decide (x ∈ lifecycle m)) = [] := by
    simp [lifecycle]
  have hd3 : ([Event.runDeferredSemantic3].filter fun x => decide (x ∈ lifecycle m)) = [] := by
    simp [lifecycle]
  unfold expectedStages afterParseStages
  simp only [List.filter_append, hhdr, hd1, hd3, List.nil_append]
  exact hparse.append (himport.append (hsem.append (hsem2.append (hsem3.append hemit'))))

/-- With fewer than `UINT_RANGE` pairwise distinct modules, the part of
`cppmain` from the parse loop on invokes the stage functions of the lifecycle
of a module at most once each, in the order of the lifecycle. -/
theorem parseAndCompile_lifecycle (env : Env X) (o : Opts) (p : Params) (ms : List Module)
    (w : World X) (hlen : ms.length < UINT_RANGE) (hnd : ms.Nodup) (m : Module) :
    ((parseAndCompile env o p ms w).trace.filter fun x => decide (x ∈ lifecycle m)).Sublist
      [Event.parse m, Event.importAll m, Event.semantic m, Event.semantic2 m,
        Event.semantic3 m, Event.emit m] := by
  have hst : (parseAndCompile env o p ms w).trace.filter (fun x => decide (x ∈ lifecycle m)) =
      ((parseAndCompile env o p ms w).trace.filter Event.isStage).filter
        (fun x => decide (x ∈ lifecycle m)) := by
    rw [List.filter_filter]
    refine List.filter_congr fun x hx => ?_
    have hp := parseAndCompile_isPipeline env o p ms w x hx
    by_cases hm : x ∈ lifecycle m
    · simp only [lifecycle, List.mem_cons, List.mem_singleton, List.mem_nil_iff,
        or_false] at hm
      rcases hm with rfl | rfl | rfl | rfl | rfl | rfl | rfl <;>
        first | (simp [lifecycle, Event.isStage, Event.stage]; done) | cases hp
    · simp [hm]
  rw [hst]
  exact ((parseAndCompile_stagesOf env o p ms w hlen).1.sublist.filter _).trans
    (expectedStages_lifecycle p ms _ hnd
      ((parseAndCompile_active env o p ms w hlen).nodup hnd) m)

/-- C16: monotonic stage transitions. With fewer than `UINT_RANGE` modules, in
a run of `cppmain` the invocations of `read`, `parse`, `importAll`, `semantic`,
`semantic2`, `semantic3` and `CodeGenerator::emit` on one module, in the order
in which they occur, are a sublist of the lifecycle of that module: each stage
function is invoked at most once on the module, and the invocations that occur
are in the order of the lifecycle. -/
theorem monotonic_stage_transitions (env : Env X) (g : Global) (o : Opts) (w0 : World X)
    (hlen : (intake env g o w0).modules.length < UINT_RANGE) (m : Module) :
    ((cppmain env g o w0).trace.filter fun x => decide (x ∈ lifecycle m)).Sublist
      (lifecycle m) := by
  cases hr : reachesCacheCheck env g o w0 with
  | false =>
    have h := cppmain_of_not_reaches_events (P := fun x => decide (x ∈ lifecycle m) = false)
      env g o w0 hr (by simp [lifecycle]) (by simp [lifecycle]) (by simp [lifecycle])
      (by simp [lifecycle]) (by simp [lifecycle]) (by simp [lifecycle])
      (by simp [lifecycle]) (by simp [lifecycle]) (by simp [lifecycle])
      (by simp [lifecycle]) (by simp [lifecycle])
    rw [filter_eq_nil_of_all h]
    exact List.nil_sublist _
  | true =>
    have hfront := atCacheCheck_lifecycle env g o w0 m
    have hpc := fun w => parseAndCompile_lifecycle env o (intake env g o w0).params
      (intake env g o w0).modules w hlen (intake_nodup env g o w0) m
    rw [cppmain_of_reaches env g o w0 hr, Run.after_trace, List.filter_append]
    rcases compileModules_cases env g o (intake env g o w0).params
        (intake env g o w0).modules (atCacheCheck env g o w0).world with
      ⟨-, -, fn, -, -, hc⟩ | ⟨-, -, fn, -, -, hc⟩ | hc <;> rw [hc]
    · have : ([Event.attemptRecoverFromCache fn true].filter
          fun x => decide (x ∈ lifecycle m)) = [] := by simp [lifecycle]
      rw [this]
      exact hfront.append (List.nil_sublist _)
    · have : ([Event.attemptRecoverFromCache fn false].filter
          fun x => decide (x ∈ lifecycle m)) = [] := by simp [lifecycle]
      rw [Run.after_trace, List.filter_append, this, List.nil_append]
      exact hfront.append (hpc _)
    · exact hfront.append (hpc _)

/-- Witness for C16: the run with `-c` on `a.d` and `b.d`. -/
theorem monotonic_stage_transitions_witness :
    (intake quietEnv posixGlobal optsTwoModules World.start).modules.length < UINT_RANGE ∧
    ((cppmain quietEnv posixGlobal optsTwoModules World.start).trace.filter
      fun x => decide (x ∈ lifecycle bModule)).Sublist (lifecycle bModule) :=
  ⟨by decide,
    monotonic_stage_transitions quietEnv posixGlobal optsTwoModules World.start (by decide)
      bModule⟩

/-! ## The intake classification -/

theorem classify_posix (file : String) : classify posixGlobal file = kindBySpec file := by
  unfold classify kindBySpec
  dsimp only
  cases hext : FileName.ext (FileName.name file) with
  | none => rfl
  | some ext =>
    simp only [posixGlobal, strcmpEq, FileName.equals]
    by_cases h1 : ext = "o"
    · subst h1
      simp [stricmpEq]
    by_cases h2 : ext = "bc"
    · subst h2
      simp [stricmpEq]
    by_cases h3 : ext = "a"
    · subst h3
      simp [stricmpEq]
    by_cases h4 : ext = "ddoc"
    · subst h4
      simp [stricmpEq]
    by_cases h5 : ext = "json"
    · subst h5
      simp [stricmpEq]
    simp [h1, h2, h3, h4, h5]

/-- The loop "Create Modules" in closed form: it takes the files before the
first rejected one, makes a `Module` for each source file among them, and
files the others. -/
theorem createModules_eq (env : Env X) (g : Global) (files : List String) (i : Nat)
    (p : Params) (ms : List Module) (s : St X) :
    (createModules env g files i p ms s).failed =
      files.any (fun file => (classify g file).isRejected) ∧
    (createModules env g files i p ms s).modules =
      ms ++ sourceModules g i (acceptedFiles g files) ∧
    (createModules env g files i p ms s).params.libfiles =
      p.libfiles ++ (acceptedFiles g files).filter
        (fun file => decide (classify g file = FileKind.libfile)) ∧
    (createModules env g files i p ms s).params.ddocfiles =
      p.ddocfiles ++ (acceptedFiles g files).filter
        (fun file => decide (classify g file = FileKind.ddocfile)) ∧
    (createModules env g files i p ms s).params.doJsonGeneration =
      (p.doJsonGeneration || (acceptedFiles g files).any
        (fun file => decide (classify g file = FileKind.jsonfile))) ∧
    (createModules env g files i p ms s).st.trace.filter Event.isCreate =
      s.trace.filter Event.isCreate ++
        (sourceModules g i (acceptedFiles g files)).map Event.create ∧
    ((∀ m w, (env.create m w).objfiles = w.objfiles) →
      (createModules env g files i p ms s).st.world.objfiles =
        s.world.objfiles ++ (acceptedFiles g files).filter
          (fun file => decide (classify g file = FileKind.objfile))) := by
  induction files generalizing i p ms s with
  | nil => simp [createModules, acceptedFiles, sourceModules]
  | cons file rest ih =>
    unfold createModules
    cases hk : classify g file with
    | objfile =>
      obtain ⟨h1, h2, h3, h4, h5, h6, h7⟩ := ih (i + 1) p ms
        { s with world := { s.world with objfiles := s.world.objfiles ++ [file] } }
      have hacc : acceptedFiles g (file :: rest) = file :: acceptedFiles g rest := by
        simp [acceptedFiles, hk, FileKind.isRejected]
      rw [hacc]
      refine ⟨?_, ?_, ?_, ?_, ?_, ?_, fun hc => ?_⟩
      · simp [h1, hk, FileKind.isRejected]
      · simp [h2, sourceModules, hk]
      · simp [h3, hk]
      · simp [h4, hk]
      · simp [h5, hk]
      · simp [h6, sourceModules, hk]
      · simp [h7 hc, hk]
    | libfile =>
      obtain ⟨h1, h2, h3, h4, h5, h6, h7⟩ := ih (i + 1) 
        { p with libfiles := p.libfiles ++ [file] } ms s
      have hacc : acceptedFiles g (file :: rest) = file :: acceptedFiles g rest := by
        simp [acceptedFiles, hk, FileKind.isRejected]
      rw [hacc]
      refine ⟨?_, ?_, ?_, ?_, ?_, ?_, fun hc => ?_⟩
      · simp [h1, hk, FileKind.isRejected]
      · simp [h2, sourceModules, hk]
      · simp [h3, hk]
      · simp [h4, hk]
      · simp [h5, hk]
      · simp [h6, sourceModules, hk]
      · simp [h7 hc, hk]
    | ddocfile =>
      obtain ⟨h1, h2, h3, h4, h5, h6, h7⟩ := ih (i + 1) 
        { p with ddocfiles := p.ddocfiles ++ [file] } ms s
      have hacc : acceptedFiles g (file :: rest) = file :: acceptedFiles g rest := by
        simp [acceptedFiles, hk, FileKind.isRejected]
      rw [hacc]
      refine ⟨?_, ?_, ?_, ?_, ?_, ?_, fun hc => ?_⟩
      · simp [h1, hk, FileKind.isRejected]
      · simp [h2, sourceModules, hk]
      · simp [h3, hk]
      · simp [h4, hk]
      · simp [h5, hk]
      · simp [h6, sourceModules, hk]
      · simp [h7 hc, hk]
    | jsonfile =>
      obtain ⟨h1, h2, h3, h4, h5, h6, h7⟩ := ih (i + 1) 
        { p with doJsonGeneration := true, jsonfilename := some file } ms s
      have hacc : acceptedFiles g (file :: rest) = file :: acceptedFiles g rest := by
        simp [acceptedFiles, hk, FileKind.isRejected]
      rw [hacc]
      refine ⟨?_, ?_, ?_, ?_, ?_, ?_, fun hc => ?_⟩
      · simp [h1, hk, FileKind.isRejected]
      · simp [h2, sourceModules, hk]
      · simp [h3, hk]
      · simp [h4, hk]
      · simp [h5, hk]
      · simp [h6, sourceModules, hk]
      · simp [h7 hc, hk]
    | source name =>
      obtain ⟨h1, h2, h3, h4, h5, h6, h7⟩ := ih (i + 1) p
        (ms ++ [{ index := i, file := file, ident := name }])
        (s.call (Event.create { index := i, file := file, ident := name })
          (env.create { index := i, file := file, ident := name }))
      have hacc : acceptedFiles g (file :: rest) = file :: acceptedFiles g rest := by
        simp [acceptedFiles, hk, FileKind.isRejected]
      rw [hacc]
      refine ⟨?_, ?_, ?_, ?_, ?_, ?_, fun hc => ?_⟩
      · simp [h1, hk, FileKind.isRejected]
      · simp [h2, sourceModules, hk]
      · simp [h3, hk]
      · simp [h4, hk]
      · simp [h5, hk]
      · rw [h6]
        simp [sourceModules, hk, St.call, Event.isCreate]
      · rw [h7 hc]
        simp [hk, St.call, hc]
    | unrecognized ext =>
      simp [acceptedFiles, sourceModules, hk, FileKind.isRejected, error, World.error,
        Event.isCreate]
    | invalid =>
      simp [acceptedFiles, sourceModules, hk, FileKind.isRejected, error, World.error,
        Event.isCreate]

/-- C15 (counterexample): the file `.d` has the extension `d`, and the intake
makes no `Module` for it: the module name would be empty, the run ends
through `fatal()` after the error "invalid file name". -/
theorem hidden_name_gets_no_module :
    FileName.ext (FileName.name ".d") = some "d" ∧
    classify posixGlobal ".d" = FileKind.invalid ∧
    (cppmain quietEnv posixGlobal optsHiddenName World.start).trace =
      [Event.check CheckSite.afterCommandLine 0 0,
        Event.check CheckSite.afterTargetSwitches 0 0, Event.targetSetup,
        Event.addPredefinedGlobalIdent "WEKA", Event.addPredefinedGlobalIdent "LDC",
        Event.addPredefinedGlobalIdent "all", Event.addPredefinedGlobalIdent "D_Version2",
        Event.addPredefinedGlobalIdent "assert", Event.addPredefinedGlobalIdent "X86_64",
        Event.addPredefinedGlobalIdent "D_InlineAsm_X86_64",
        Event.addPredefinedGlobalIdent "D_HardFloat",
        Event.addPredefinedGlobalIdent "LittleEndian", Event.addPredefinedGlobalIdent "D_LP64",
        Event.addPredefinedGlobalIdent "linux", Event.addPredefinedGlobalIdent "Posix",
        Event.addPredefinedGlobalIdent "CRuntime_Glibc",
        Event.addPredefinedGlobalIdent "LDC_LLVM_308", Event.frontEndInit,
        Event.error "invalid file name '.d'", Event.fatal] ∧
    (cppmain quietEnv posixGlobal optsHiddenName World.start).exit = Exit.fatal := by
  decide

/-- C15 (amended): intake classification on a POSIX host. The kind of a file
is decided by the extension of its base name as `kindBySpec` words it: a
source file has no extension or the extension `d` / `di` (case-insensitively)
or `dd`, and a module name (the base name without the extension) that is not
empty, `.` or `..`; `o` and `bc` go to `objfiles`, `a` to `libfiles`, `ddoc` to
`ddocfiles`, `json` to the JSON settings; a source file with an invalid module
name, like any other extension, is a fatal error. The loop takes the files in
input order up to the first rejected one (`acceptedFiles`): it fails exactly
when some file is rejected; the modules created are exactly those of the
source files taken, in input order, each with the index of its argument, one
`Module::create` call each; the library and documentation files taken are
appended to `libfiles` and `ddocfiles`, a JSON file sets `doJsonGeneration`,
and the object files are appended to `objfiles` (when `Module::create` leaves
that list alone). -/
theorem intake_classification (env : Env X) (files : List String) (p : Params) (s : St X) :
    (∀ file, classify posixGlobal file = kindBySpec file) ∧
    (createModules env posixGlobal files 0 p [] s).failed =
      files.any (fun file => (classify posixGlobal file).isRejected) ∧
    (createModules env posixGlobal files 0 p [] s).modules =
      sourceModules posixGlobal 0 (acceptedFiles posixGlobal files) ∧
    (createModules env posixGlobal files 0 p [] s).params.libfiles =
      p.libfiles ++ (acceptedFiles posixGlobal files).filter
        (fun file => decide (classify posixGlobal file = FileKind.libfile)) ∧
    (createModules env posixGlobal files 0 p [] s).params.ddocfiles =
      p.ddocfiles ++ (acceptedFiles posixGlobal files).filter
        (fun file => decide (classify posixGlobal file = FileKind.ddocfile)) ∧
    (createModules env posixGlobal files 0 p [] s).params.doJsonGeneration =
      (p.doJsonGeneration || (acceptedFiles posixGlobal files).any
        (fun file => decide (classify posixGlobal file = FileKind.jsonfile))) ∧
    (createModules env posixGlobal files 0 p [] s).st.trace.filter Event.isCreate =
      s.trace.filter Event.isCreate ++
        (sourceModules posixGlobal 0 (acceptedFiles posixGlobal files)).map Event.create ∧
    ((∀ m w, (env.create m w).objfiles = w.objfiles) →
      (createModules env posixGlobal files 0 p [] s).st.world.objfiles =
        s.world.objfiles ++ (acceptedFiles posixGlobal files).filter
          (fun file => decide (classify posixGlobal file = FileKind.objfile))) := by
  have h := createModules_eq env posixGlobal files 0 p [] s
  simp only [List.nil_append] at h
  exact ⟨classify_posix, h⟩

/-- Witness for C15: the arguments `a.d x.o lib.a b.DI m.ddoc c.json noext`
give three modules, for `a.d`, `b.DI` and `noext`, and one object file. -/
theorem intake_classification_witness :
    (createModules quietEnv posixGlobal
      ["a.d", "x.o", "lib.a", "b.DI", "m.ddoc", "c.json", "noext"] 0 {} []
      { world := World.start, trace := [] }).modules =
      [{ index := 0, file := "a.d", ident := "a" }, { index := 3, file := "b.DI", ident := "b" },
        { index := 6, file := "noext", ident := "noext" }] ∧
    (createModules quietEnv posixGlobal
      ["a.d", "x.o", "lib.a", "b.DI", "m.ddoc", "c.json", "noext"] 0 {} []
      { world := World.start, trace := [] }).st.world.objfiles =
      World.start.objfiles ++ (acceptedFiles posixGlobal
        ["a.d", "x.o", "lib.a", "b.DI", "m.ddoc", "c.json", "noext"]).filter
        (fun file => decide (classify posixGlobal file = FileKind.objfile)) :=
  ⟨by decide,
    (intake_classification quietEnv
      ["a.d", "x.o", "lib.a", "b.DI", "m.ddoc", "c.json", "noext"] {}
      { world := World.start, trace := [] }).2.2.2.2.2.2.2 (fun _ _ => rfl)⟩

/-! ## What `parseCommandLine` does to `link`, `run` and `useCompileCache` -/

theorem autodetect_fields (g : Global) (o : Opts) (p : Params) :
    (autodetect g o p).link = p.link ∧ (autodetect g o p).run = p.run ∧
      (autodetect g o p).useCompileCache = p.useCompileCache := by
  unfold autodetect
  dsimp only
  split_ifs <;> try exact ⟨rfl, rfl, rfl⟩
  all_goals (split <;> try exact ⟨rfl, rfl, rfl⟩)
  all_goals (split <;> try exact ⟨rfl, rfl, rfl⟩)
  all_goals (split_ifs <;> exact ⟨rfl, rfl, rfl⟩)

theorem onlyLinkIfPossible_fields (o : Opts) (p : Params) :
    ((onlyLinkIfPossible o p).link = true → p.link = true) ∧
      (onlyLinkIfPossible o p).run = p.run ∧
      (onlyLinkIfPossible o p).useCompileCache = p.useCompileCache := by
  unfold onlyLinkIfPossible
  split_ifs
  · exact ⟨fun h => absurd h (by simp), rfl, rfl⟩
  · exact ⟨fun h => h, rfl, rfl⟩

theorem outputNames_fields (o : Opts) (dim : Nat) (p : Params) (s : St X) :
    (outputNames o dim p s).1.link = p.link ∧ (outputNames o dim p s).1.run = p.run ∧
      (outputNames o dim p s).1.useCompileCache = p.useCompileCache := by
  unfold outputNames
  dsimp only
  split_ifs <;> exact ⟨rfl, rfl, rfl⟩

/-- Without `link`, the switch `-run` makes `parseCommandLine` report the
error "flags conflict with -run". -/
theorem outputNames_run_conflict (o : Opts) (dim : Nat) (p : Params) (s : St X)
    (hl : p.link = false) (hr : p.run = true) :
    Event.error "flags conflict with -run" ∈ (outputNames o dim p s).2.trace := by
  unfold outputNames
  dsimp only
  simp only [hl, hr, Bool.false_and, Bool.false_eq_true, if_false, if_true]
  split_ifs <;> simp [error]

/-- The fields `link`, `run` and `useCompileCache` that `parseCommandLine`
leaves: no `link` with `-c`; `useCompileCache` is set exactly for a non-empty
cache directory; and `run` without `link` comes with a reported error. -/
theorem parseCommandLine_fields (env : Env X) (g : Global) (o : Opts) (s : St X) :
    ((parseCommandLine env g o s).params.link = true → o.compileOnly = false) ∧
    (parseCommandLine env g o s).params.useCompileCache =
      (if o.ir2objCacheDir != "" then some o.ir2objCacheDir else none) ∧
    ((parseCommandLine env g o s).params.link = false →
      (parseCommandLine env g o s).params.run = true →
      Event.error "flags conflict with -run" ∈ (parseCommandLine env g o s).st.trace) := by
  unfold parseCommandLine
  dsimp only
  generalize hs' : (if o.noDefaultLib = true then
      (runSwitch o (processVersions env CondKind.version o.versions
        (processVersions env CondKind.debug o.debugArgs (stringOptions o s).2))).2.2.call
        Event.deprecation env.deprecation
    else (runSwitch o (processVersions env CondKind.version o.versions
        (processVersions env CondKind.debug o.debugArgs (stringOptions o s).2))).2.2) = s'
  generalize hr : (runSwitch o (processVersions env CondKind.version o.versions
        (processVersions env CondKind.debug o.debugArgs (stringOptions o s).2))) = r
  generalize hdim : (r.2.1 ++ List.filter (fun file => file != "") o.fileList).length = dim
  have ha := autodetect_fields g o
    (assertsAndBounds o { outputFlags o (stringOptions o s).1 with run := r.1 })
  have hb := onlyLinkIfPossible_fields o (autodetect g o
    (assertsAndBounds o { outputFlags o (stringOptions o s).1 with run := r.1 }))
  have hc := outputNames_fields o dim (onlyLinkIfPossible o (autodetect g o
    (assertsAndBounds o { outputFlags o (stringOptions o s).1 with run := r.1 }))) s'
  refine ⟨?_, ?_, ?_⟩
  · intro hl
    rw [hc.1] at hl
    have := hb.1 hl
    rw [ha.1] at this
    have h0 : (assertsAndBounds o
        { outputFlags o (stringOptions o s).1 with run := r.1 }).link = !o.compileOnly := rfl
    rw [h0] at this
    simpa using this
  · rw [hc.2.2, hb.2.2, ha.2.2]
    rfl
  · intro hl hrun
    rw [hc.1] at hl
    rw [hc.2.1] at hrun
    exact outputNames_run_conflict o dim _ s' hl hrun

/-- C19: the cache hit never skips a link or run step. When `parseCommandLine`
reports no error and `canDoSourceCachedBuild()` is true for the parameters it
leaves, `global.params.link` and `global.params.run` are both false: the
configuration is compile-only, and `-run` without linking is an error. -/
theorem eligible_run_neither_links_nor_runs (env : Env X) (g : Global) (o : Opts)
    (w0 : World X)
    (hne : ∀ x ∈ (parseCommandLine env g o { world := w0, trace := [] }).st.trace,
      x.isError = false)
    (hc : canDoSourceCachedBuild o
      (parseCommandLine env g o { world := w0, trace := [] }).params = true) :
    (parseCommandLine env g o { world := w0, trace := [] }).params.link = false ∧
    (parseCommandLine env g o { world := w0, trace := [] }).params.run = false := by
  obtain ⟨h1, -, h3⟩ := parseCommandLine_fields env g o { world := w0, trace := [] }
  have hco : o.compileOnly = true := by
    unfold canDoSourceCachedBuild at hc
    simp only [Bool.and_eq_true] at hc
    exact hc.1.1.1.1.1.1.1.1
  have hl : (parseCommandLine env g o { world := w0, trace := [] }).params.link = false := by
    cases h : (parseCommandLine env g o { world := w0, trace := [] }).params.link with
    | false => rfl
    | true =>
      rw [h1 h] at hco
      cases hco
  refine ⟨hl, ?_⟩
  cases h : (parseCommandLine env g o { world := w0, trace := [] }).params.run with
  | false => rfl
  | true => exact absurd (hne _ (h3 hl h)) (by simp [Event.isError])

/-- Witness for C19: the switches `-c -singleobj -of=foo.o` with a cache
directory, for `foo.d`. -/
theorem eligible_run_neither_links_nor_runs_witness :
    canDoSourceCachedBuild optsCached
      (parseCommandLine quietEnv posixGlobal optsCached
        { world := World.start, trace := [] }).params = true ∧
    (parseCommandLine quietEnv posixGlobal optsCached
      { world := World.start, trace := [] }).params.link = false ∧
    (parseCommandLine quietEnv posixGlobal optsCached
      { world := World.start, trace := [] }).params.run = false :=
  ⟨by decide,
    eligible_run_neither_links_nor_runs quietEnv posixGlobal optsCached World.start
      (by decide) (by decide)⟩

/-! ## The cache check -/

/-- The one event selected by `q` in a list splits the list in one way. -/
theorem split_unique {A R pre post : List Event} {x y : Event} (q : Event → Bool)
    (hy : q y = true) (hA : ∀ a ∈ A, q a = false) (hR : ∀ a ∈ R, q a = false)
    (h : A ++ x :: R = pre ++ y :: post) : pre = A ∧ y = x ∧ post = R := by
  rcases List.append_eq_append_iff.1 h with ⟨a, h1, h2⟩ | ⟨c, h1, h2⟩
  · cases a with
    | nil =>
      simp only [List.nil_append, List.cons.injEq] at h2
      exact ⟨by simpa using h1, h2.1.symm, h2.2.symm⟩
    | cons z a =>
      simp only [List.cons_append, List.cons.injEq] at h2
      have hm : y ∈ R := by
        rw [h2.2]
        simp
      rw [hR y hm] at hy
      cases hy
  · cases c with
    | nil =>
      simp only [List.nil_append, List.cons.injEq] at h2
      exact ⟨by simpa using h1.symm, h2.1, h2.2⟩
    | cons z c =>
      simp only [List.cons_append, List.cons.injEq] at h2
      have hm : y ∈ A := by
        rw [h1, ← h2.1]
        simp
      rw [hA y hm] at hy
      cases hy

theorem cacheFilename_isSome (env : Env X) (g : Global) (p : Params) (w : World X) :
    (cacheFilename env g p w).isSome = (p.exefile.isSome || p.objname.isSome) := by
  unfold cacheFilename
  cases p.exefile <;> cases p.objname <;> simp [Option.orElse] <;> split <;> rfl

theorem createModules_useCompileCache (env : Env X) (g : Global) (files : List String)
    (i : Nat) (p : Params) (ms : List Module) (s : St X) :
    (createModules env g files i p ms s).params.useCompileCache = p.useCompileCache := by
  induction files generalizing i p ms s with
  | nil => rfl
  | cons file rest ih =>
    unfold createModules
    split <;> first | rfl | (rw [ih])

theorem isIntake_not_recover_event {x : Event} (h : x.isIntake = true) :
    x.isRecover = false := by
  cases x <;> first | rfl | cases h

theorem isPipeline_not_recover_event {x : Event} (h : x.isPipeline = true) :
    x.isRecover = false ∧ x.isRead = false := by
  cases x <;> first | exact ⟨rfl, rfl⟩ | cases h

/-- Every module of the intake has its `read` or `setbuffer` among the events
up to the cache check, and no module is parsed up to there. -/
theorem atCacheCheck_reads (env : Env X) (g : Global) (o : Opts) (w0 : World X) :
    (∀ m ∈ (intake env g o w0).modules,
      Event.read m ∈ (atCacheCheck env g o w0).trace ∨
        Event.setbuffer m ∈ (atCacheCheck env g o w0).trace) ∧
    ∀ x ∈ (atCacheCheck env g o w0).trace, x.stage ≠ some Stage.parse := by
  constructor
  · intro m hm
    unfold atCacheCheck
    dsimp only
    rw [readFiles_trace]
    by_cases hc : strcmpEq (env.srcfileName m) g.main_d = true
    · right
      simp only [List.mem_append]
      refine Or.inr (Or.inr (Or.inr (Or.inr (Or.inr (Or.inr (Or.inr (Or.inr
        (Or.inr ?_))))))))
      exact List.mem_map.2 ⟨m, hm, by rw [if_pos hc]⟩
    · left
      simp only [List.mem_append]
      refine Or.inr (Or.inr (Or.inr (Or.inr (Or.inr (Or.inr (Or.inr (Or.inr
        (Or.inr ?_))))))))
      exact List.mem_map.2 ⟨m, hm, by rw [if_neg hc]⟩
  · intro x hx hs
    have h := (isIntake_not_stage (atCacheCheck_intake env g o w0 x hx)).1
    simp [Event.isStage, hs] at h

/-- The cache check of `compileModules`: recovery is attempted at most once,
as the first thing, exactly when a cache directory is configured, the build is
eligible and an output name is available; without an output name the pipeline
runs as if there were no cache. -/
theorem compileModules_recovery (env : Env X) (g : Global) (o : Opts) (p : Params)
    (ms : List Module) (w : World X) :
    ((compileModules env g o p ms w).trace.filter Event.isRecover).length ≤ 1 ∧
    (∀ pre fn hit post, (compileModules env g o p ms w).trace =
        pre ++ Event.attemptRecoverFromCache fn hit :: post →
      pre = [] ∧ ∀ y ∈ post, y.isRead = false) ∧
    ((∃ x ∈ (compileModules env g o p ms w).trace, x.isRecover = true) ↔
      p.useCompileCache.isSome = true ∧ canDoSourceCachedBuild o p = true ∧
        (p.exefile.isSome = true ∨ p.objname.isSome = true)) ∧
    (p.exefile = none → p.objname = none →
      compileModules env g o p ms w = parseAndCompile env o p ms w) := by
  have hpc : ∀ w, ∀ x ∈ (parseAndCompile env o p ms w).trace,
      x.isRecover = false ∧ x.isRead = false := fun w x hx =>
    isPipeline_not_recover_event (parseAndCompile_isPipeline env o p ms w x hx)
  have hnone : ∀ w, ¬ ∃ x ∈ (parseAndCompile env o p ms w).trace, x.isRecover = true := by
    rintro w ⟨x, hx, hr⟩
    rw [(hpc w x hx).1] at hr
    cases hr
  have hfil : ∀ w, (parseAndCompile env o p ms w).trace.filter Event.isRecover = [] :=
    fun w => filter_eq_nil_of_all fun x hx => (hpc w x hx).1
  have hdec : ∀ w pre fn hit post, (parseAndCompile env o p ms w).trace ≠
      pre ++ Event.attemptRecoverFromCache fn hit :: post := by
    intro w pre fn hit post heq
    have := (hpc w (Event.attemptRecoverFromCache fn hit) (by rw [heq]; simp)).1
    cases this
  have hname := cacheFilename_isSome env g p w
  unfold compileModules
  by_cases hcond : (p.useCompileCache.isSome && canDoSourceCachedBuild o p) = true
  · rw [if_pos hcond]
    simp only [Bool.and_eq_true] at hcond
    cases hfn : cacheFilename env g p w with
    | none =>
      rw [hfn] at hname
      have hno : p.exefile.isSome = false ∧ p.objname.isSome = false := by
        simpa using hname.symm
      dsimp only
      refine ⟨by rw [hfil]; simp, fun pre fn hit post heq => absurd heq (hdec _ _ _ _ _),
        ⟨fun h => absurd h (hnone _), fun h => ?_⟩, fun _ _ => rfl⟩
      rcases h.2.2 with h | h
      · rw [hno.1] at h
        cases h
      · rw [hno.2] at h
        cases h
    | some filename =>
      rw [hfn] at hname
      have hyes : p.exefile.isSome = true ∨ p.objname.isSome = true := by
        simpa using hname.symm
      dsimp only
      have hex : p.exefile = none → p.objname = none → False := by
        intro h1 h2
        rw [h1, h2] at hyes
        simp at hyes
      by_cases hhit : (env.attemptRecoverFromCache ms filename w).1 = true
      · rw [if_pos hhit]
        refine ⟨by simp [Event.isRecover], ?_, ⟨fun _ => ⟨hcond.1, hcond.2, hyes⟩,
          fun _ => ⟨_, List.mem_singleton.2 rfl, rfl⟩⟩, fun h1 h2 => (hex h1 h2).elim⟩
        intro pre fn hit post heq
        have := split_unique (A := []) (R := []) (y := Event.attemptRecoverFromCache fn hit)
          Event.isRecover rfl (by simp) (by simp) heq
        rw [this.1, this.2.2]
        simp
      · rw [if_neg hhit]
        refine ⟨?_, ?_, ⟨fun _ => ⟨hcond.1, hcond.2, hyes⟩,
          fun _ => ⟨Event.attemptRecoverFromCache filename false, by simp, rfl⟩⟩,
          fun h1 h2 => (hex h1 h2).elim⟩
        · rw [Run.after_trace, List.filter_append, hfil]
          simp [Event.isRecover]
        · intro pre fn hit post heq
          rw [Run.after_trace] at heq
          have := split_unique (A := []) (y := Event.attemptRecoverFromCache fn hit)
            Event.isRecover rfl (by simp)
            (fun a ha => (hpc _ a ha).1) heq
          rw [this.1, this.2.2]
          exact ⟨rfl, fun y hy => (hpc _ y hy).2⟩
  · rw [if_neg hcond]
    refine ⟨by rw [hfil]; simp, fun pre fn hit post heq => absurd heq (hdec _ _ _ _ _),
      ⟨fun h => absurd h (hnone _), fun h => ?_⟩, fun _ _ => rfl⟩
    exact absurd (by simp [h.1, h.2.1]) hcond

/-- C20 (counterexample): with `-c -singleobj -of=foo.o`, a cache directory
and the file `foo.xyz`, a cache directory is configured, the build is eligible
and an output name is available, and no recovery is attempted: the intake
rejects the file and the run ends through `fatal()`. -/
theorem no_recovery_when_intake_fails :
    (intake quietEnv posixGlobal optsCachedBadFile World.start).params.useCompileCache =
      some "cache" ∧
    canDoSourceCachedBuild optsCachedBadFile
      (intake quietEnv posixGlobal optsCachedBadFile World.start).params = true ∧
    (intake quietEnv posixGlobal optsCachedBadFile World.start).params.objname =
      some "foo.o" ∧
    (∀ x ∈ (cppmain quietEnv posixGlobal optsCachedBadFile World.start).trace,
      x.isRecover = false) ∧
    (cppmain quietEnv posixGlobal optsCachedBadFile World.start).exit = Exit.fatal := by
  decide

/-- C20 (amended): `cppmain` invokes `attemptRecoverFromCache` at most once
per run; when it does, every module of the intake has been read (or given its
buffer) before, no module has been parsed before, and no module is read
after; it does so exactly when the run arrives at the cache check (no earlier
exit: a file is given, the command line and the target switches report no
error, the target is supported, the intake rejects no file) and all three
hold: a cache directory is configured
(`global.params.useCompileCache` non-null, which is the case exactly for a
non-empty cache-directory option), `canDoSourceCachedBuild()` is true, and an
output name is available (`exefile` or `objname` non-null). With no output
name, a run that arrives at the cache check goes on with the full pipeline
from the parse loop. -/
theorem cache_recovery_attempted_once (env : Env X) (g : Global) (o : Opts) (w0 : World X) :
    ((cppmain env g o w0).trace.filter Event.isRecover).length ≤ 1 ∧
    (∀ pre fn hit post, (cppmain env g o w0).trace =
        pre ++ Event.attemptRecoverFromCache fn hit :: post →
      (∀ m ∈ (intake env g o w0).modules, Event.read m ∈ pre ∨ Event.setbuffer m ∈ pre) ∧
      (∀ x ∈ pre, x.stage ≠ some Stage.parse) ∧ ∀ y ∈ post, y.isRead = false) ∧
    ((∃ x ∈ (cppmain env g o w0).trace, x.isRecover = true) ↔
      reachesCacheCheck env g o w0 = true ∧
      (intake env g o w0).params.useCompileCache.isSome = true ∧
      canDoSourceCachedBuild o (intake env g o w0).params = true ∧
      ((intake env g o w0).params.exefile.isSome = true ∨
        (intake env g o w0).params.objname.isSome = true)) ∧
    ((intake env g o w0).params.useCompileCache.isSome = true ↔ o.ir2objCacheDir ≠ "") ∧
    (reachesCacheCheck env g o w0 = true → (intake env g o w0).params.exefile = none →
      (intake env g o w0).params.objname = none →
      cppmain env g o w0 =
        (parseAndCompile env o (intake env g o w0).params (intake env g o w0).modules
          (atCacheCheck env g o w0).world).after (atCacheCheck env g o w0).trace) := by
  have hdir : (intake env g o w0).params.useCompileCache.isSome = true ↔
      o.ir2objCacheDir ≠ "" := by
    unfold intake
    dsimp only
    rw [createModules_useCompileCache,
      (parseCommandLine_fields env g o { world := w0, trace := [] }).2.1]
    by_cases h : o.ir2objCacheDir = "" <;> simp [h]
  cases hr : reachesCacheCheck env g o w0 with
  | false =>
    have hall := (cppmain_of_not_reaches env g o w0 hr).1
    have hnr : ∀ x ∈ (cppmain env g o w0).trace, x.isRecover = false := fun x hx =>
      isIntake_not_recover_event (hall x hx)
    refine ⟨by rw [filter_eq_nil_of_all hnr]; simp, ?_, ⟨?_, ?_⟩, hdir, fun h => by cases h⟩
    · intro pre fn hit post heq
      have := hnr (Event.attemptRecoverFromCache fn hit) (by rw [heq]; simp)
      cases this
    · rintro ⟨x, hx, hxr⟩
      rw [hnr x hx] at hxr
      cases hxr
    · intro h
      cases h.1
  | true =>
    obtain ⟨h1, h2, h3, h4⟩ := compileModules_recovery env g o (intake env g o w0).params
      (intake env g o w0).modules (atCacheCheck env g o w0).world
    have hA : ∀ x ∈ (atCacheCheck env g o w0).trace, x.isRecover = false := fun x hx =>
      isIntake_not_recover_event (atCacheCheck_intake env g o w0 x hx)
    rw [cppmain_of_reaches env g o w0 hr]
    refine ⟨?_, ?_, ⟨?_, ?_⟩, hdir, fun _ he ho => by rw [h4 he ho]⟩
    · rw [Run.after_trace, List.filter_append, filter_eq_nil_of_all hA]
      simpa using h1
    · intro pre fn hit post heq
      rw [Run.after_trace] at heq
      have hn : Event.attemptRecoverFromCache fn hit ∉ (atCacheCheck env g o w0).trace :=
        fun hm => by
          have := hA _ hm
          cases this
      obtain ⟨l, hl1, hl2⟩ := append_cons_eq_append heq.symm hn
      obtain ⟨hl, hpost⟩ := h2 l fn hit post hl2
      subst hl
      rw [List.append_nil] at hl1
      subst hl1
      exact ⟨(atCacheCheck_reads env g o w0).1, (atCacheCheck_reads env g o w0).2, hpost⟩
    · rintro ⟨x, hx, hxr⟩
      rw [Run.after_trace] at hx
      rcases List.mem_append.1 hx with hx | hx
      · rw [hA x hx] at hxr
        cases hxr
      · exact ⟨rfl, h3.1 ⟨x, hx, hxr⟩⟩
    · intro h
      obtain ⟨x, hx, hxr⟩ := h3.2 h.2
      exact ⟨x, by rw [Run.after_trace]; exact List.mem_append_right _ hx, hxr⟩

/-- Witness for C20: with `-c -singleobj -of=foo.o`, a cache directory and
`foo.d`, the run arrives at the cache check and recovery is attempted, once,
after the `read` of the module. -/
theorem cache_recovery_attempted_once_witness :
    (reachesCacheCheck quietEnv posixGlobal optsCached World.start = true ∧
      (intake quietEnv posixGlobal optsCached World.start).params.useCompileCache.isSome =
        true ∧
      canDoSourceCachedBuild optsCached
        (intake quietEnv posixGlobal optsCached World.start).params = true ∧
      ((intake quietEnv posixGlobal optsCached World.start).params.exefile.isSome = true ∨
        (intake quietEnv posixGlobal optsCached World.start).params.objname.isSome = true)) ∧
    ∃ x ∈ (cppmain quietEnv posixGlobal optsCached World.start).trace, x.isRecover = true :=
  ⟨by decide,
    (cache_recovery_attempted_once quietEnv posixGlobal optsCached World.start).2.2.1.2
      (by decide)⟩

/-! ## The deferred queue -/

/-- C18: deferred draining always terminates. The drain (a total function of
the bound, the queue and the state) ends in one of two ways: at a fixpoint,
reached after at most `bound` passes, with nothing left in the queue; or with
the non-convergence error, after exactly `bound` passes, carrying the items
that are still pending, of which there is at least one. -/
theorem drain_terminates {ι σ : Type} (resolve : ι → σ → σ × List ι) (bound : Nat)
    (queue : List ι) (s : σ) :
    (∃ s' k, k ≤ bound ∧ drain resolve bound queue s = DrainResult.fixpoint s' ∧
      drainPasses resolve k queue s = (s', [])) ∨
    (∃ s' pending, drain resolve bound queue s = DrainResult.nonConvergence s' pending ∧
      pending ≠ [] ∧ drainPasses resolve bound queue s = (s', pending)) := by
  induction bound generalizing queue s with
  | zero =>
    cases queue with
    | nil => exact Or.inl ⟨s, 0, le_refl _, rfl, rfl⟩
    | cons item rest => exact Or.inr ⟨s, item :: rest, rfl, by simp, rfl⟩
  | succ bound ih =>
    unfold drain
    dsimp only
    cases hq : (drainPass resolve queue s).2 with
    | nil =>
      refine Or.inl ⟨(drainPass resolve queue s).1, 1, by omega, by simp, ?_⟩
      simp [drainPasses, hq]
    | cons item rest =>
      rcases ih (item :: rest) (drainPass resolve queue s).1 with
        ⟨s', k, hk, h1, h2⟩ | ⟨s', pending, h1, h2, h3⟩
      · refine Or.inl ⟨s', k + 1, by omega, by simpa using h1, ?_⟩
        simp [drainPasses, hq, h2]
      · refine Or.inr ⟨s', pending, by simpa using h1, h2, ?_⟩
        simp [drainPasses, hq, h3]

/-! ## Success after a reported error; a JSON file and the cache -/

/-- C21 (evaluation at the failing input): for the command line `b.dd`, a
documentation file, no module is left after the parse loop and no object file
is written; `cppmain` reports the error "no object files to link", which
raises `global.errors` to 1, and returns `EXIT_SUCCESS`. -/
theorem no_object_files_returns_success :
    (cppmain docEnv posixGlobal optsDocOnly World.start).modules = [] ∧
    Event.error "no object files to link" ∈
      (cppmain docEnv posixGlobal optsDocOnly World.start).trace ∧
    (cppmain docEnv posixGlobal optsDocOnly World.start).world.errors = 1 ∧
    (cppmain docEnv posixGlobal optsDocOnly World.start).exit =
      Exit.returned EXIT_SUCCESS := by
  decide

theorem acceptedFiles_of_not_failed (g : Global) (files : List String)
    (h : files.any (fun file => (classify g file).isRejected) = false) :
    acceptedFiles g files = files := by
  unfold acceptedFiles
  rw [List.takeWhile_eq_self_iff]
  intro file hf
  have := List.any_eq_false.1 h file hf
  simpa using this

/-- A file with the extension `json` is the JSON file of the intake. -/
theorem classify_json (file : String)
    (h : FileName.ext (FileName.name file) = some posixGlobal.json_ext) :
    classify posixGlobal file = FileKind.jsonfile := by
  rw [classify_posix]
  unfold kindBySpec
  dsimp only
  rw [h]
  simp [posixGlobal, stricmpEq]

/-- C22: a JSON input file disables the cache check. When the array `files`
of the intake contains a file whose extension is the json extension, a run
that arrives at the cache check has `global.params.doJsonGeneration` set by
the intake, so that `canDoSourceCachedBuild()` is false there, and
`attemptRecoverFromCache` is not invoked in the run (which includes the runs
that end before the cache check). -/
theorem json_file_disables_cache (env : Env X) (o : Opts) (w0 : World X) (file : String)
    (hin : file ∈ inputFiles env posixGlobal o w0)
    (hext : FileName.ext (FileName.name file) = some posixGlobal.json_ext) :
    (reachesCacheCheck env posixGlobal o w0 = true →
      (intake env posixGlobal o w0).params.doJsonGeneration = true ∧
      canDoSourceCachedBuild o (intake env posixGlobal o w0).params = false) ∧
    ∀ x ∈ (cppmain env posixGlobal o w0).trace, x.isRecover = false := by
  have hjson : reachesCacheCheck env posixGlobal o w0 = true →
      (intake env posixGlobal o w0).params.doJsonGeneration = true := by
    intro hr
    have hfail : (intake env posixGlobal o w0).failed = false := by
      unfold reachesCacheCheck at hr
      simp only [Bool.and_eq_true, Bool.not_eq_true'] at hr
      exact hr.2
    have heq := createModules_eq env posixGlobal (inputFiles env posixGlobal o w0) 0
      (parseCommandLine env posixGlobal o { world := w0, trace := [] }).params []
      { world := env.frontEndInit (registered env posixGlobal o w0).st.world, trace := [] }
    have hi : intake env posixGlobal o w0 =
        createModules env posixGlobal (inputFiles env posixGlobal o w0) 0
          (parseCommandLine env posixGlobal o { world := w0, trace := [] }).params []
          { world := env.frontEndInit (registered env posixGlobal o w0).st.world,
            trace := [] } := rfl
    rw [← hi] at heq
    have hacc := acceptedFiles_of_not_failed posixGlobal _ (heq.1.symm.trans hfail)
    rw [heq.2.2.2.2.1, hacc]
    have : (inputFiles env posixGlobal o w0).any
        (fun file => decide (classify posixGlobal file = FileKind.jsonfile)) = true :=
      List.any_eq_true.2 ⟨file, hin, by simpa using classify_json file hext⟩
    rw [this, Bool.or_true]
  have hcan : reachesCacheCheck env posixGlobal o w0 = true →
      canDoSourceCachedBuild o (intake env posixGlobal o w0).params = false := by
    intro hr
    unfold canDoSourceCachedBuild
    rw [hjson hr]
    simp
  refine ⟨fun hr => ⟨hjson hr, hcan hr⟩, ?_⟩
  cases hr : reachesCacheCheck env posixGlobal o w0 with
  | false =>
    exact fun x hx =>
      isIntake_not_recover_event ((cppmain_of_not_reaches env posixGlobal o w0 hr).1 x hx)
  | true =>
    rw [cppmain_of_reaches env posixGlobal o w0 hr, Run.after_trace]
    intro x hx
    rcases List.mem_append.1 hx with hx | hx
    · exact isIntake_not_recover_event (atCacheCheck_intake env posixGlobal o w0 x hx)
    · cases hxr : x.isRecover with
      | false => rfl
      | true =>
        have := ((compileModules_recovery env posixGlobal o
          (intake env posixGlobal o w0).params (intake env posixGlobal o w0).modules
          (atCacheCheck env posixGlobal o w0).world).2.2.1.1 ⟨x, hx, hxr⟩).2.1
        rw [hcan hr] at this
        cases this

/-- Witness for C22: `-c -singleobj -of=foo.o` with a cache directory, for
`foo.d` and `x.json`: the run arrives at the cache check, and goes on without
a recovery attempt. -/
theorem json_file_disables_cache_witness :
    reachesCacheCheck quietEnv posixGlobal optsCachedJson World.start = true ∧
    (intake quietEnv posixGlobal optsCachedJson World.start).params.useCompileCache.isSome =
      true ∧
    ∀ x ∈ (cppmain quietEnv posixGlobal optsCachedJson World.start).trace,
      x.isRecover = false :=
  ⟨by decide, by decide,
    (json_file_disables_cache quietEnv optsCachedJson World.start "x.json" (by decide)
      (by decide)).2⟩

/-! ## `processVersions`, entry by entry -/

theorem takeWhile_length_lt_iff {α : Type} (q : α → Bool) (l : List α) :
    (l.takeWhile q).length < l.length ↔ l.all q = false := by
  induction l with
  | nil => simp
  | cons a rest ih =>
    cases hq : q a <;> simp [List.takeWhile_cons, hq, ih]

/-- One iteration of the loop of `processVersions` produces the one event
`versionEvent` of the entry, with its effect. -/
theorem processVersion_eq (env : Env X) (kind : CondKind) (s : St X) (i : String) :
    processVersion env kind s i =
      { world := versionEffect env kind i s.world,
        trace := s.trace ++ [versionEvent env kind i] } := by
  unfold processVersion versionEffect versionEvent
  cases hfirst : firstIsDigit i with
  | false =>
    simp only [Bool.false_eq_true, if_false]
    cases hid : env.isValidIdentifier i <;> simp [St.call, error]
  | true =>
    simp only [if_true]
    cases hall : i.data.all Char.isDigit with
    | false =>
      have hlt := (takeWhile_length_lt_iff Char.isDigit i.data).2 hall
      simp only [decide_eq_true hlt, Bool.true_or, if_true, Bool.false_and,
        Bool.false_eq_true, if_false]
      rfl
    | true =>
      have hnlt : ¬ (i.data.takeWhile Char.isDigit).length < i.data.length := fun h => by
        rw [takeWhile_length_lt_iff, hall] at h
        cases h
      have htw : i.data.takeWhile Char.isDigit = i.data := by
        rw [List.takeWhile_eq_self_iff]
        intro c hc
        exact List.all_eq_true.1 hall c hc
      rw [htw]
      by_cases hle : digitsValue i.data ≤ INT_MAX
      · have h1 : ¬ LONG_MAX < digitsValue i.data := by
          unfold INT_MAX at hle
          unfold LONG_MAX
          omega
        have h2 : min (digitsValue i.data) LONG_MAX = digitsValue i.data := by
          unfold INT_MAX at hle
          unfold LONG_MAX
          omega
        have h3 : ¬ INT_MAX < digitsValue i.data := by omega
        simp [h1, h2, h3, hle, St.call]
      · have h4 : LONG_MAX < digitsValue i.data ∨
            INT_MAX < min (digitsValue i.data) LONG_MAX := by
          unfold INT_MAX at hle ⊢
          unfold LONG_MAX
          omega
        rcases h4 with h4 | h4 <;> simp [h4, hle, error]

/-- C23: `processVersions` handles every entry of its list with exactly one
of `setLevel`, `addIdent` and `error`, in the order of the list, whatever the
earlier entries gave: its events are one `versionEvent` per entry. An entry
that begins with a decimal digit gives `setLevel(n)` exactly when the whole
entry is a decimal number `n` with `n <= INT_MAX`, and the error "Invalid ...
level" otherwise; any other entry gives `addIdent` of the entry exactly when
`Identifier::isValidIdentifier` accepts it, and the error "Invalid ...
identifier or level" otherwise. -/
theorem processVersions_one_event_per_entry (env : Env X) (kind : CondKind)
    (list : List String) (s : St X) :
    processVersions env kind list s =
      { world := list.foldl (fun w i => versionEffect env kind i w) s.world,
        trace := s.trace ++ list.map (versionEvent env kind) } := by
  unfold processVersions
  induction list generalizing s with
  | nil => simp
  | cons i rest ih =>
    simp only [List.foldl_cons, List.map_cons]
    rw [processVersion_eq, ih]
    simp

/-! ## `tryGetExplicitConfFile` -/

/-- The test `strncmp(arg, "-conf=", 6) == 0` holds exactly for the arguments
that start with `-conf=`, and `arg + 6` is then the text that follows. -/
theorem strncmpEq_conf (arg : String) :
    strncmpEq arg "-conf=" 6 = true ↔ arg = "-conf=" ++ String.mk (arg.data.drop 6) := by
  unfold strncmpEq
  constructor
  · intro h
    have h1 : arg.data.take 6 = "-conf=".data := by simpa using h
    apply String.ext
    rw [String.data_append, ← h1]
    exact (List.take_append_drop 6 arg.data).symm
  · intro h
    have h2 : arg.data = "-conf=".data ++ arg.data.drop 6 := by
      conv_lhs => rw [h]
      rw [String.data_append]
    rw [h2]
    simp

theorem conf_append_drop (r : String) : String.mk (("-conf=" ++ r).data.drop 6) = r := by
  apply String.ext
  rw [String.data_append]
  rfl

/-- The loop from index `n` down, inside the array: it finds the argument
with the greatest index from 1 to `n` that starts with `-conf=`. -/
theorem tryGetExplicitConfFileFrom_spec (argv : List String) (n : Nat)
    (hn : n < argv.length ∨ n = 0) :
    (∀ r, tryGetExplicitConfFileFrom argv n = some r ↔
      ∃ i, 1 ≤ i ∧ i ≤ n ∧ argv.get? i = some ("-conf=" ++ r) ∧
        ∀ j b, i < j → j ≤ n → argv.get? j = some b → ∀ t, b ≠ "-conf=" ++ t) ∧
    (tryGetExplicitConfFileFrom argv n = none ↔
      ∀ i b, 1 ≤ i → i ≤ n → argv.get? i = some b → ∀ t, b ≠ "-conf=" ++ t) := by
  induction n with
  | zero =>
    constructor
    · intro r
      simp only [tryGetExplicitConfFileFrom]
      constructor
      · intro h
        cases h
      · rintro ⟨i, h1, h2, -⟩
        omega
    · simp only [tryGetExplicitConfFileFrom, true_iff]
      intro i b h1 h2
      omega
  | succ n ih =>
    have hlt : n + 1 < argv.length := by omega
    obtain ⟨ih1, ih2⟩ := ih (Or.inl (by omega))
    obtain ⟨arg, harg⟩ : ∃ arg, argv.get? (n + 1) = some arg :=
      ⟨argv.get ⟨n + 1, hlt⟩, List.get?_eq_get hlt⟩
    unfold tryGetExplicitConfFileFrom
    rw [harg]
    dsimp only
    by_cases hc : strncmpEq arg "-conf=" 6 = true
    · rw [if_pos hc]
      have hform := (strncmpEq_conf arg).1 hc
      constructor
      · intro r
        constructor
        · intro h
          injection h with h
          refine ⟨n + 1, by omega, le_refl _, by rw [harg, ← h, ← hform], ?_⟩
          intro j b h1 h2
          omega
        · rintro ⟨i, h1, h2, h3, h4⟩
          by_cases hi : i = n + 1
          · subst hi
            rw [harg] at h3
            injection h3 with h3
            rw [h3, conf_append_drop]
          · exact absurd hform (h4 (n + 1) arg (by omega) (le_refl _) harg _)
      · constructor
        · intro h
          cases h
        · intro h
          exact absurd hform (h (n + 1) arg (by omega) (le_refl _) harg _)
    · rw [if_neg hc]
      have hnot : ∀ t, arg ≠ "-conf=" ++ t := by
        intro t ht
        apply hc
        rw [strncmpEq_conf, ht, conf_append_drop]
      constructor
      · intro r
        rw [ih1 r]
        constructor
        · rintro ⟨i, h1, h2, h3, h4⟩
          refine ⟨i, h1, by omega, h3, ?_⟩
          intro j b hj1 hj2 hb
          by_cases hj : j = n + 1
          · subst hj
            rw [harg] at hb
            injection hb with hb
            rw [← hb]
            exact hnot
          · exact h4 j b hj1 (by omega) hb
        · rintro ⟨i, h1, h2, h3, h4⟩
          have hi : i ≠ n + 1 := by
            rintro rfl
            rw [harg] at h3
            injection h3 with h3
            exact hnot r h3
          exact ⟨i, h1, by omega, h3, fun j b hj1 hj2 hb => h4 j b hj1 (by omega) hb⟩
      · rw [ih2]
        constructor
        · intro h i b h1 h2 hb
          by_cases hi : i = n + 1
          · subst hi
            rw [harg] at hb
            injection hb with hb
            rw [← hb]
            exact hnot
          · exact h i b h1 (by omega) hb
        · intro h i b h1 h2 hb
          exact h i b h1 (by omega) hb

/-- C24: the latest `-conf=` specification wins. For every argument vector,
`tryGetExplicitConfFile` returns the text `r` exactly when `-conf=` followed by
`r` is the argument with the greatest index, among the indices from 1 on, that
starts with `-conf=` (`argv[0]` is never looked at); and it returns the null
pointer exactly when no argument with an index from 1 on starts with
`-conf=`. -/
theorem latest_conf_wins (argv : List String) :
    (∀ r, tryGetExplicitConfFile argv = some r ↔
      ∃ i, 1 ≤ i ∧ argv.get? i = some ("-conf=" ++ r) ∧
        ∀ j b, i < j → argv.get? j = some b → ∀ t, b ≠ "-conf=" ++ t) ∧
    (tryGetExplicitConfFile argv = none ↔
      ∀ i b, 1 ≤ i → argv.get? i = some b → ∀ t, b ≠ "-conf=" ++ t) := by
  have hn : argv.length - 1 < argv.length ∨ argv.length - 1 = 0 := by omega
  obtain ⟨h1, h2⟩ := tryGetExplicitConfFileFrom_spec argv (argv.length - 1) hn
  have hidx : ∀ i (b : String), argv.get? i = some b → i ≤ argv.length - 1 := by
    intro i b hb
    have := (List.get?_eq_some.1 hb).1
    omega
  unfold tryGetExplicitConfFile
  constructor
  · intro r
    rw [h1 r]
    constructor
    · rintro ⟨i, hi1, -, hi3, hi4⟩
      exact ⟨i, hi1, hi3, fun j b hj hb => hi4 j b hj (hidx j b hb) hb⟩
    · rintro ⟨i, hi1, hi3, hi4⟩
      exact ⟨i, hi1, hidx i _ hi3, hi3, fun j b hj _ hb => hi4 j b hj hb⟩
  · rw [h2]
    constructor
    · intro h i b hi hb
      exact h i b hi (hidx i b hb) hb
    · intro h i b hi _ hb
      exact h i b hi hb

/-! ## The run from the parse loop on, in closed form -/

/-- A run that arrives at the parse loop is the part of `cppmain` from that
loop on, in the world `atParse`, preceded by events of the intake and of the
cache lookup. -/
theorem cppmain_of_reachesParse (env : Env X) (g : Global) (o : Opts) (w0 : World X)
    (h : reachesParse env g o w0 = true) :
    ∃ pre, (∀ x ∈ pre, x.isIntake = true ∨ x.isRecover = true) ∧
      cppmain env g o w0 =
        (parseAndCompile env o (intake env g o w0).params (intake env g o w0).modules
          (atParse env g o w0)).after pre := by
  unfold reachesParse at h
  simp only [Bool.and_eq_true, Bool.not_eq_true'] at h
  obtain ⟨hr, hh⟩ := h
  have ht := atCacheCheck_intake env g o w0
  rw [cppmain_of_reaches env g o w0 hr]
  unfold cacheHit at hh
  unfold atParse compileModules
  dsimp only at hh ⊢
  by_cases hc : ((intake env g o w0).params.useCompileCache.isSome &&
      canDoSourceCachedBuild o (intake env g o w0).params) = true
  · rw [if_pos hc, if_pos hc]
    rw [hc, Bool.true_and] at hh
    cases hf : cacheFilename env g (intake env g o w0).params
        (atCacheCheck env g o w0).world with
    | none => exact ⟨_, fun x hx => Or.inl (ht x hx), rfl⟩
    | some filename =>
      rw [hf] at hh
      dsimp only at hh ⊢
      rw [if_neg (by simp [hh]), Run.after_after]
      refine ⟨_, fun x hx => ?_, rfl⟩
      rcases List.mem_append.1 hx with hx | hx
      · exact Or.inl (ht x hx)
      · simp only [List.mem_singleton] at hx
        subst hx
        exact Or.inr rfl
  · rw [if_neg hc, if_neg hc]
    exact ⟨_, fun x hx => Or.inl (ht x hx), rfl⟩

/-- With fewer than `UINT_RANGE` modules, a run that arrives at the parse loop
is the part of `cppmain` that follows that loop, on the modules and in the
world the loop leaves, preceded by events that are no check of the pipeline. -/
theorem cppmain_of_parsed (env : Env X) (g : Global) (o : Opts) (w0 : World X)
    (h : reachesParse env g o w0 = true)
    (hlen : (intake env g o w0).modules.length < UINT_RANGE) :
    ∃ pre, cppmain env g o w0 =
        (frontEnd env o (intake env g o w0).params (activeModules (parsed env g o w0).1)
          (parsed env g o w0).2).after pre := by
  obtain ⟨pre, -, heq⟩ := cppmain_of_reachesParse env g o w0 h
  have hp := parseFiles_eq env o
    (fun modules w => frontEnd env o (intake env g o w0).params modules w)
    (intake env g o w0).modules [] (intake env g o w0).modules.length (atParse env g o w0)
    (by simpa using hlen) (le_refl _)
  refine ⟨pre ++ parseEvents (parsed env g o w0).1, ?_⟩
  rw [heq]
  unfold parseAndCompile parsed
  have hp' : parseFiles env o (intake env g o w0).modules.length 0 (intake env g o w0).modules
      (atParse env g o w0)
      (fun modules w => frontEnd env o (intake env g o w0).params modules w) =
      (frontEnd env o (intake env g o w0).params
        (activeModules (parseBatch env o (intake env g o w0).modules (atParse env g o w0)).1)
        (parseBatch env o (intake env g o w0).modules (atParse env g o w0)).2).after
        (parseEvents (parseBatch env o (intake env g o w0).modules
          (atParse env g o w0)).1) := by
    simpa using hp
  rw [hp', Run.after_after]

/-- The part of `cppmain` that follows the parse loop, check by check: every
check is evaluated in the world `stageWorld` gives for the stage before
it. -/
theorem frontEnd_eq (env : Env X) (o : Opts) (p : Params) (ms : List Module) (w : World X) :
    frontEnd env o p ms w =
      checkErrors CheckSite.afterParse (stageWorld env o p ms w Stage.parse) ms
      (Run.after (if p.doHdrGeneration then ms.map Event.genhdrfile else [])
      (checkErrors CheckSite.afterHdrGeneration (stageWorld env o p ms w Stage.hdrgen) ms
      (Run.after (ms.map Event.importAll)
      (checkErrors CheckSite.afterImportAll (stageWorld env o p ms w Stage.importAll) ms
      (Run.after (ms.map Event.semantic)
      (checkErrors CheckSite.afterSemantic (stageWorld env o p ms w Stage.semantic) ms
      (Run.after (Event.runDeferredSemantic :: ms.map Event.semantic2)
      (checkErrors CheckSite.afterSemantic2 (stageWorld env o p ms w Stage.semantic2) ms
      (Run.after (ms.map Event.semantic3)
      (checkErrors CheckSite.afterSemantic3 (stageWorld env o p ms w Stage.semantic3) ms
      (Run.after [Event.runDeferredSemantic3]
      (checkErrorsOrWarnings CheckSite.afterDeferredSemantic3
        (stageWorld env o p ms w Stage.deferred3) ms
        (backEnd env o p ms (stageWorld env o p ms w Stage.deferred3)))))))))))))) := by
  unfold frontEnd forEachIf call stageWorld loopWorld
  simp only [forEach_eq]
  by_cases hh : p.doHdrGeneration = true
  · simp only [hh, if_true, Run.after_after, List.singleton_append]
  · simp only [hh, Bool.false_eq_true, if_false, Run.after_after, List.singleton_append]
    rfl

theorem mem_checkErrors_self (gt : CheckSite) (w : World X) (ms : List Module) (k : Run X) :
    Event.check gt w.errors w.warnings ∈ (checkErrors gt w ms k).trace := by
  unfold checkErrors
  simp

theorem mem_checkErrors_of_eq {gt : CheckSite} {w : World X} (ms : List Module) {k : Run X}
    (h : w.errors = 0) {x : Event} (hx : x ∈ k.trace) : x ∈ (checkErrors gt w ms k).trace := by
  rw [checkErrors_of_eq gt h]
  simp [hx]

theorem mem_after {t : List Event} {r : Run X} {x : Event} (hx : x ∈ r.trace) :
    x ∈ (Run.after t r).trace := by
  simp [hx]

theorem mem_checkErrorsOrWarnings_self (gt : CheckSite) (w : World X) (ms : List Module)
    (k : Run X) :
    Event.check gt w.errors w.warnings ∈ (checkErrorsOrWarnings gt w ms k).trace := by
  unfold checkErrorsOrWarnings
  simp

/-! ## Every check of the front end is reached in the world the stage before it leaves -/

/-- The check that follows the batch loop of a stage is evaluated, in the
world that loop leaves, whenever every earlier batch loop left
`global.errors` at zero. -/
theorem frontEnd_batch_check_mem (env : Env X) (o : Opts) (p : Params) (ms : List Module)
    (w : World X) (gt : CheckSite) (st : Stage) (hg : gt.batchStage = some st)
    (hprev : ∀ s ∈ batchStages, s.order < st.order →
      (stageWorld env o p ms w s).errors = 0) :
    Event.check gt (stageWorld env o p ms w st).errors
      (stageWorld env o p ms w st).warnings ∈ (frontEnd env o p ms w).trace := by
  rw [frontEnd_eq]
  cases gt <;> simp only [CheckSite.batchStage, Option.some.injEq, reduceCtorEq] at hg <;>
    subst hg
  · exact mem_checkErrors_self _ _ _ _
  · have h0 := hprev Stage.parse (by decide) (by decide)
    exact mem_checkErrors_of_eq ms h0 (mem_after (mem_checkErrors_self _ _ _ _))
  · have h0 := hprev Stage.parse (by decide) (by decide)
    have h1 := hprev Stage.hdrgen (by decide) (by decide)
    exact mem_checkErrors_of_eq ms h0 (mem_after (mem_checkErrors_of_eq ms h1
      (mem_after (mem_checkErrors_self _ _ _ _))))
  · have h0 := hprev Stage.parse (by decide) (by decide)
    have h1 := hprev Stage.hdrgen (by decide) (by decide)
    have h2 := hprev Stage.importAll (by decide) (by decide)
    exact mem_checkErrors_of_eq ms h0 (mem_after (mem_checkErrors_of_eq ms h1
      (mem_after (mem_checkErrors_of_eq ms h2 (mem_after (mem_checkErrors_self _ _ _ _))))))
  · have h0 := hprev Stage.parse (by decide) (by decide)
    have h1 := hprev Stage.hdrgen (by decide) (by decide)
    have h2 := hprev Stage.importAll (by decide) (by decide)
    have h3 := hprev Stage.semantic (by decide) (by decide)
    exact mem_checkErrors_of_eq ms h0 (mem_after (mem_checkErrors_of_eq ms h1
      (mem_after (mem_checkErrors_of_eq ms h2 (mem_after (mem_checkErrors_of_eq ms h3
        (mem_after (mem_checkErrors_self _ _ _ _))))))))
  · have h0 := hprev Stage.parse (by decide) (by decide)
    have h1 := hprev Stage.hdrgen (by decide) (by decide)
    have h2 := hprev Stage.importAll (by decide) (by decide)
    have h3 := hprev Stage.semantic (by decide) (by decide)
    have h4 := hprev Stage.semantic2 (by decide) (by decide)
    exact mem_checkErrors_of_eq ms h0 (mem_after (mem_checkErrors_of_eq ms h1
      (mem_after (mem_checkErrors_of_eq ms h2 (mem_after (mem_checkErrors_of_eq ms h3
        (mem_after (mem_checkErrors_of_eq ms h4
          (mem_after (mem_checkErrors_self _ _ _ _))))))))))

/-- The check that follows `Module::runDeferredSemantic3()` is evaluated, in
the world that call leaves, and the call is made, whenever every batch loop
left `global.errors` at zero. -/
theorem frontEnd_deferred3_check_mem (env : Env X) (o : Opts) (p : Params)
    (ms : List Module) (w : World X)
    (hall : ∀ s ∈ batchStages, (stageWorld env o p ms w s).errors = 0) :
    Event.check CheckSite.afterDeferredSemantic3
      (stageWorld env o p ms w Stage.deferred3).errors
      (stageWorld env o p ms w Stage.deferred3).warnings ∈ (frontEnd env o p ms w).trace := by
  rw [frontEnd_eq]
  have h0 := hall Stage.parse (by decide)
  have h1 := hall Stage.hdrgen (by decide)
  have h2 := hall Stage.importAll (by decide)
  have h3 := hall Stage.semantic (by decide)
  have h4 := hall Stage.semantic2 (by decide)
  have h5 := hall Stage.semantic3 (by decide)
  exact mem_checkErrors_of_eq ms h0 (mem_after (mem_checkErrors_of_eq ms h1
    (mem_after (mem_checkErrors_of_eq ms h2 (mem_after (mem_checkErrors_of_eq ms h3
      (mem_after (mem_checkErrors_of_eq ms h4 (mem_after (mem_checkErrors_of_eq ms h5
        (mem_after (mem_checkErrorsOrWarnings_self _ _ _ _))))))))))))

/-- In a run that arrives at the parse loop, the check that follows the batch
loop of a stage is evaluated, in the world that loop leaves, whenever every
earlier batch loop left `global.errors` at zero. -/
theorem cppmain_batch_check_mem (env : Env X) (g : Global) (o : Opts) (w0 : World X)
    (hreach : reachesParse env g o w0 = true)
    (hlen : (intake env g o w0).modules.length < UINT_RANGE)
    (gt : CheckSite) (st : Stage) (hg : gt.batchStage = some st)
    (hprev : ∀ s ∈ batchStages, s.order < st.order → (worldAfter env g o w0 s).errors = 0) :
    Event.check gt (worldAfter env g o w0 st).errors (worldAfter env g o w0 st).warnings ∈
      (cppmain env g o w0).trace := by
  obtain ⟨pre, heq⟩ := cppmain_of_parsed env g o w0 hreach hlen
  rw [heq]
  exact mem_after (frontEnd_batch_check_mem env o _ _ _ gt st hg hprev)

/-- In a run that arrives at the parse loop, the check that follows
`Module::runDeferredSemantic3()` is evaluated, in the world that call leaves,
whenever every batch loop left `global.errors` at zero. -/
theorem cppmain_deferred3_check_mem (env : Env X) (g : Global) (o : Opts) (w0 : World X)
    (hreach : reachesParse env g o w0 = true)
    (hlen : (intake env g o w0).modules.length < UINT_RANGE)
    (hall : ∀ s ∈ batchStages, (worldAfter env g o w0 s).errors = 0) :
    Event.check CheckSite.afterDeferredSemantic3
      (worldAfter env g o w0 Stage.deferred3).errors
      (worldAfter env g o w0 Stage.deferred3).warnings ∈ (cppmain env g o w0).trace := by
  obtain ⟨pre, heq⟩ := cppmain_of_parsed env g o w0 hreach hlen
  rw [heq]
  exact mem_after (frontEnd_deferred3_check_mem env o _ _ _ hall)

/-! ## Fail-fast between stages -/

/-- C7: fail-fast between stages. In a run that arrives at the parse loop
(with fewer than `UINT_RANGE` modules, the range of the index of that loop),
for each of the batch stages parse, header generation, importAll, semantic,
semantic2 and semantic3: when the batch loop of the stage has finished (every
earlier batch loop left `global.errors` at zero, so that the run gets there)
and `global.errors` is nonzero in the world the loop leaves, `cppmain`
evaluates the check that follows the loop, calls `fatal()` right after it and
ends there, and no function of a later stage is invoked for any module: every
stage invocation of the run belongs to that stage or to an earlier one. In
particular, when the `semantic` loop leaves `global.errors` nonzero,
`semantic2` is invoked for no module. -/
theorem fail_fast_between_stages (env : Env X) (g : Global) (o : Opts) (w0 : World X)
    (hreach : reachesParse env g o w0 = true)
    (hlen : (intake env g o w0).modules.length < UINT_RANGE)
    (gt : CheckSite) (st : Stage) (hg : gt.batchStage = some st)
    (hprev : ∀ s ∈ batchStages, s.order < st.order → (worldAfter env g o w0 s).errors = 0)
    (herr : (worldAfter env g o w0 st).errors ≠ 0) :
    (cppmain env g o w0).exit = Exit.fatal ∧
    (∃ pre, (cppmain env g o w0).trace =
      pre ++ [Event.check gt (worldAfter env g o w0 st).errors
        (worldAfter env g o w0 st).warnings, Event.fatal]) ∧
    (∀ ev ∈ (cppmain env g o w0).trace, ∀ st', ev.stage = some st' →
      st'.order ≤ st.order) ∧
    (st = Stage.semantic → ∀ m, Event.semantic2 m ∉ (cppmain env g o w0).trace) := by
  have hc := cppmain_batch_check_mem env g o w0 hreach hlen gt st hg hprev
  obtain ⟨-, h1, h2, h3⟩ := cppmain_failFast env g o w0 gt st _ _ hg herr hc
  refine ⟨h1, h2, h3, fun hst m hm => ?_⟩
  subst hst
  have := h3 _ hm Stage.semantic2 rfl
  exact absurd this (by decide)

/-- Witness for C7: `-c a.d b.d`, where `semantic` reports an error for `a.d`
and none for `b.d`: the `semantic` loop leaves one error, the run ends through
`fatal()`, and `semantic2` is invoked for neither module. -/
theorem fail_fast_between_stages_witness :
    (cppmain failingSemanticEnv posixGlobal optsTwoModules World.start).modules =
      [aModule, bModule] ∧
    (worldAfter failingSemanticEnv posixGlobal optsTwoModules World.start
      Stage.semantic).errors = 1 ∧
    (cppmain failingSemanticEnv posixGlobal optsTwoModules World.start).exit = Exit.fatal ∧
    ∀ m, Event.semantic2 m ∉
      (cppmain failingSemanticEnv posixGlobal optsTwoModules World.start).trace :=
  ⟨by decide, by decide,
    (fail_fast_between_stages failingSemanticEnv posixGlobal optsTwoModules World.start
      (by decide) (by decide) CheckSite.afterSemantic Stage.semantic rfl (by decide)
      (by decide)).1,
    (fail_fast_between_stages failingSemanticEnv posixGlobal optsTwoModules World.start
      (by decide) (by decide) CheckSite.afterSemantic Stage.semantic rfl (by decide)
      (by decide)).2.2.2 rfl⟩

/-! ## Warnings stop the run before code generation only -/

/-- C13 (amended): warnings stop the run at one check only, the check that
follows `Module::runDeferredSemantic3()`. In a run that arrives at the parse
loop (with fewer than `UINT_RANGE` modules): when every batch loop left
`global.errors` at zero, that check is evaluated, and when the world the call
leaves has a nonzero `global.errors` or a nonzero `global.warnings`, `cppmain`
calls `fatal()` at once, and no code is generated and nothing is linked or run
in the whole run. The checks after parse, header generation, importAll,
semantic, semantic2 and semantic3 examine `global.errors` alone: each of them
is evaluated as soon as the earlier batch loops left zero errors, whatever
`global.warnings` is, and such a check that reads zero errors is not followed
by `fatal()`. -/
theorem warnings_stop_before_codegen_only (env : Env X) (g : Global) (o : Opts)
    (w0 : World X) (hreach : reachesParse env g o w0 = true)
    (hlen : (intake env g o w0).modules.length < UINT_RANGE) :
    ((∀ s ∈ batchStages, (worldAfter env g o w0 s).errors = 0) →
      Event.check CheckSite.afterDeferredSemantic3
        (worldAfter env g o w0 Stage.deferred3).errors
        (worldAfter env g o w0 Stage.deferred3).warnings ∈ (cppmain env g o w0).trace ∧
      ((worldAfter env g o w0 Stage.deferred3).errors ≠ 0 ∨
          (worldAfter env g o w0 Stage.deferred3).warnings ≠ 0 →
        (cppmain env g o w0).exit = Exit.fatal ∧
        (∃ pre, (cppmain env g o w0).trace =
          pre ++ [Event.check CheckSite.afterDeferredSemantic3
            (worldAfter env g o w0 Stage.deferred3).errors
            (worldAfter env g o w0 Stage.deferred3).warnings, Event.fatal]) ∧
        ∀ ev ∈ (cppmain env g o w0).trace,
          ev.stage ≠ some Stage.codegen ∧ ev.isLink = false)) ∧
    (∀ gt st, gt.batchStage = some st →
      (∀ s ∈ batchStages, s.order < st.order → (worldAfter env g o w0 s).errors = 0) →
      Event.check gt (worldAfter env g o w0 st).errors (worldAfter env g o w0 st).warnings ∈
        (cppmain env g o w0).trace) ∧
    ∀ gt st wn pre post, gt.batchStage = some st →
      (cppmain env g o w0).trace = pre ++ Event.check gt 0 wn :: post →
      post.head? ≠ some Event.fatal := by
  refine ⟨fun hall => ?_, fun gt st hg hprev =>
    cppmain_batch_check_mem env g o w0 hreach hlen gt st hg hprev, ?_⟩
  · have h := cppmain_deferred3_check_mem env g o w0 hreach hlen hall
    refine ⟨h, fun hne => ?_⟩
    obtain ⟨pre, post, heq⟩ := List.append_of_mem h
    have hf : CheckSite.afterDeferredSemantic3.fails
        (worldAfter env g o w0 Stage.deferred3).errors
        (worldAfter env g o w0 Stage.deferred3).warnings = true := by
      rcases hne with h | h <;> simp [CheckSite.fails, h]
    obtain ⟨h1, h2⟩ := (cppmain_checked env g o w0 pre _ _ _ post heq).1 hf
    subst h1
    refine ⟨h2, ⟨pre, heq⟩, ?_⟩
    have hord := (cppmain_ordered env g o w0).1
    rw [heq, List.pairwise_append] at hord
    rw [heq]
    simp only [List.forall_mem_append, List.forall_mem_cons]
    refine ⟨fun ev hev => ?_, by simp [Event.stage, Event.isLink], by
      simp [Event.stage, Event.isLink]⟩
    have h3 := hord.2.2 ev hev (Event.check CheckSite.afterDeferredSemantic3
      (worldAfter env g o w0 Stage.deferred3).errors
      (worldAfter env g o w0 Stage.deferred3).warnings) (by simp)
    cases ev <;> simp [Event.stage, Event.isLink] <;>
      simp [Event.notAfter, Event.rank] at h3
  · intro gt s wn pre post hg heq
    refine (cppmain_checked env g o w0 pre gt 0 wn post heq).2 ?_
    cases gt <;> simp [CheckSite.batchStage] at hg <;> simp [CheckSite.fails]

/-- Witness for C13 (amended): the run of the counterexample, in which
`Module::parse` raises one warning and reports no error: the world after
`runDeferredSemantic3` has no error and one warning, the run ends through
`fatal()`, and no code is generated. -/
theorem warnings_stop_before_codegen_only_witness :
    (worldAfter warningParseEnv posixGlobal optsCompileOnly World.start
      Stage.deferred3).errors = 0 ∧
    (worldAfter warningParseEnv posixGlobal optsCompileOnly World.start
      Stage.deferred3).warnings = 1 ∧
    (cppmain warningParseEnv posixGlobal optsCompileOnly World.start).exit = Exit.fatal ∧
    ∀ ev ∈ (cppmain warningParseEnv posixGlobal optsCompileOnly World.start).trace,
      ev.stage ≠ some Stage.codegen ∧ ev.isLink = false :=
  ⟨by decide, by decide,
    (((warnings_stop_before_codegen_only warningParseEnv posixGlobal optsCompileOnly
      World.start (by decide) (by decide)).1 (by decide)).2 (by decide)).1,
    (((warnings_stop_before_codegen_only warningParseEnv posixGlobal optsCompileOnly
      World.start (by decide) (by decide)).1 (by decide)).2 (by decide)).2.2⟩

/-! ## Fail-fast inside the `emit` loop -/

theorem checkErrorsOrWarnings_of_eq (gt : CheckSite) {w : World X} (he : w.errors = 0)
    (hw : w.warnings = 0) (ms : List Module) (k : Run X) :
    checkErrorsOrWarnings gt w ms k = k.after [Event.check gt 0 0] := by
  unfold checkErrorsOrWarnings
  rw [if_neg (by simp [he, hw]), he, hw]

/-- When every check of the front end passes, the part of `cppmain` that
follows the parse loop arrives at `writeModuleDependencyFile()` in the world
`Module::runDeferredSemantic3()` leaves. -/
theorem frontEnd_of_pass (env : Env X) (o : Opts) (p : Params) (ms : List Module)
    (w : World X) (hall : ∀ s ∈ batchStages, (stageWorld env o p ms w s).errors = 0)
    (he : (stageWorld env o p ms w Stage.deferred3).errors = 0)
    (hw : (stageWorld env o p ms w Stage.deferred3).warnings = 0) :
    ∃ t, frontEnd env o p ms w =
      (backEnd env o p ms (stageWorld env o p ms w Stage.deferred3)).after t := by
  rw [frontEnd_eq, checkErrors_of_eq _ (hall Stage.parse (by decide)),
    checkErrors_of_eq _ (hall Stage.hdrgen (by decide)),
    checkErrors_of_eq _ (hall Stage.importAll (by decide)),
    checkErrors_of_eq _ (hall Stage.semantic (by decide)),
    checkErrors_of_eq _ (hall Stage.semantic2 (by decide)),
    checkErrors_of_eq _ (hall Stage.semantic3 (by decide)),
    checkErrorsOrWarnings_of_eq _ he hw]
  simp only [Run.after_after]
  exact ⟨_, rfl⟩

/-- The `emit` loop, up to the check that follows the `emit` of the module at
index `i`, when the checks of the rounds before read zero errors: that check
is evaluated in the world this `emit` leaves, right after the `emit`; before
it, `emit` is invoked on the modules before index `i` only. -/
theorem emitModules_reach (env : Env X) (all : List Module) (K : World X → Run X) :
    ∀ (rest : List Module) (w : World X) (i : Nat) (m : Module) (w' : World X),
      (emitWorlds env rest w).get? i = some (m, w') →
      (∀ c ∈ (emitWorlds env rest w).take i, c.2.errors = 0) →
      ∃ t, (∀ m', Event.emit m' ∈ t →
          m' ∈ ((emitWorlds env rest w).take i).map Prod.fst) ∧
        emitModules env all rest w K =
          (checkErrors CheckSite.afterEmit w' all
            (emitModules env all (rest.drop (i + 1)) w' K)).after (t ++ [Event.emit m])
  | [], w, i, m, w', hi, _ => by simp [emitWorlds] at hi
  | a :: rest, w, 0, m, w', hi, _ => by
    simp only [emitWorlds, List.get?_cons_zero, Option.some.injEq, Prod.mk.injEq] at hi
    obtain ⟨rfl, rfl⟩ := hi
    refine ⟨[], by simp, ?_⟩
    simp [emitModules, call]
  | a :: rest, w, i + 1, m, w', hi, hprev => by
    simp only [emitWorlds, List.get?_cons_succ] at hi
    simp only [emitWorlds, List.take_succ_cons, List.forall_mem_cons] at hprev
    obtain ⟨t, ht, heq⟩ := emitModules_reach env all K rest (env.emit a w) i m w' hi hprev.2
    refine ⟨[Event.emit a, Event.check CheckSite.afterEmit 0 (env.emit a w).warnings] ++ t,
      ?_, ?_⟩
    · intro m' hm'
      simp only [List.cons_append, List.nil_append, List.mem_cons, Event.emit.injEq,
        reduceCtorEq, false_or] at hm'
      simp only [emitWorlds, List.take_succ_cons, List.map_cons, List.mem_cons]
      rcases hm' with h | h
      · exact Or.inl h
      · exact Or.inr (ht m' h)
    · simp only [emitModules, call]
      rw [checkErrors_of_eq _ hprev.1, heq]
      simp [Run.after_after]

/-- With `global.params.obj` and a non-empty array, the part of `cppmain` from
`writeModuleDependencyFile()` on constructs the code generator and enters the
`emit` loop. -/
theorem backEnd_of_obj (env : Env X) (o : Opts) (p : Params) (ms : List Module)
    (w : World X) (h : (p.obj && !ms.isEmpty) = true) :
    ∃ K, backEnd env o p ms w =
      (emitModules env ms ms
        (env.codeGenerator o.singleObj (env.writeModuleDependencyFile w)) K).after
        [Event.writeModuleDependencyFile, Event.codeGenerator] := by
  refine ⟨fun w => call Event.codeGeneratorDone env.codeGeneratorDone w fun w =>
    forEachIf p.doDocComments Event.gendocfile env.gendocfile ms w fun w =>
    callIf p.doJsonGeneration Event.emitJson (env.emitJson ms) w fun w =>
    call Event.pruneCache env.pruneCache w fun w =>
    call Event.freeRuntime env.freeRuntime w fun w =>
    checkErrors CheckSite.afterShutdown w ms (finish env o p ms w), ?_⟩
  unfold backEnd codegen
  simp only [h, if_true]
  simp only [call, Run.after_after]
  rfl

theorem mem_take_succ_of_get {α : Type} {l : List α} {i : Nat} {a : α}
    (h : l.get? i = some a) : a ∈ l.take (i + 1) := by
  rw [List.take_succ, ← List.get?_eq_getElem?, h]
  simp

/-- C12 (amended): fail-fast within the code-generation stage. In a run that
arrives at the parse loop (with fewer than `UINT_RANGE` modules) and passes
every check of the front end, for the module at any index `i` of the `emit`
loop: when the checks of the rounds before read zero errors (the loop gets to
that module), `global.errors` is examined right after `CodeGenerator::emit`
for the module, in the world that call leaves; and when it is nonzero there,
`cppmain` calls `fatal()` at once: the `emit`, the check and `fatal()` are the
last three events of the run, and `emit` has been invoked only on the modules
up to index `i`, so it is not invoked for the remaining modules. -/
theorem emit_error_is_fatal (env : Env X) (g : Global) (o : Opts) (w0 : World X)
    (hreach : reachesParse env g o w0 = true)
    (hlen : (intake env g o w0).modules.length < UINT_RANGE)
    (hfront : ∀ s ∈ batchStages, (worldAfter env g o w0 s).errors = 0)
    (hdef : (worldAfter env g o w0 Stage.deferred3).errors = 0 ∧
      (worldAfter env g o w0 Stage.deferred3).warnings = 0)
    (i : Nat) (m : Module) (w : World X)
    (hi : (emitChecks env g o w0).get? i = some (m, w))
    (hprev : ∀ c ∈ (emitChecks env g o w0).take i, c.2.errors = 0) :
    (∃ pre post, (cppmain env g o w0).trace =
      pre ++ Event.emit m :: Event.check CheckSite.afterEmit w.errors w.warnings :: post) ∧
    (w.errors ≠ 0 →
      (cppmain env g o w0).exit = Exit.fatal ∧
      (∃ pre, (cppmain env g o w0).trace =
        pre ++ [Event.emit m, Event.check CheckSite.afterEmit w.errors w.warnings,
          Event.fatal]) ∧
      ∀ m', Event.emit m' ∈ (cppmain env g o w0).trace →
        m' ∈ ((emitChecks env g o w0).take (i + 1)).map Prod.fst) := by
  obtain ⟨pre, heq⟩ := cppmain_of_parsed env g o w0 hreach hlen
  obtain ⟨T, hT⟩ := frontEnd_of_pass env o (intake env g o w0).params
    (activeModules (parsed env g o w0).1) (parsed env g o w0).2 hfront hdef.1 hdef.2
  have hcond : ((intake env g o w0).params.obj &&
      !(activeModules (parsed env g o w0).1).isEmpty) = true := by
    by_contra hc
    unfold emitChecks at hi
    rw [if_neg hc] at hi
    simp at hi
  have hE : emitChecks env g o w0 =
      emitWorlds env (activeModules (parsed env g o w0).1)
        (env.codeGenerator o.singleObj
          (env.writeModuleDependencyFile (worldAfter env g o w0 Stage.deferred3))) := by
    unfold emitChecks
    rw [if_pos hcond]
  obtain ⟨K, hK⟩ := backEnd_of_obj env o (intake env g o w0).params
    (activeModules (parsed env g o w0).1) (worldAfter env g o w0 Stage.deferred3) hcond
  rw [hE] at hi hprev ⊢
  obtain ⟨t, ht, hem⟩ := emitModules_reach env (activeModules (parsed env g o w0).1) K
    (activeModules (parsed env g o w0).1) _ i m w hi hprev
  have hrun : cppmain env g o w0 =
      (checkErrors CheckSite.afterEmit w (activeModules (parsed env g o w0).1)
        (emitModules env (activeModules (parsed env g o w0).1)
          ((activeModules (parsed env g o w0).1).drop (i + 1)) w K)).after
        ((pre ++ (T ++ [Event.writeModuleDependencyFile])) ++
          Event.codeGenerator :: (t ++ [Event.emit m])) := by
    rw [heq, hT]
    have hK' : backEnd env o (intake env g o w0).params
        (activeModules (parsed env g o w0).1)
        (stageWorld env o (intake env g o w0).params (activeModules (parsed env g o w0).1)
          (parsed env g o w0).2 Stage.deferred3) = _ := hK
    rw [hK', hem]
    simp [Run.after_after]
  constructor
  · refine ⟨(pre ++ (T ++ [Event.writeModuleDependencyFile])) ++ Event.codeGenerator :: t,
      (if w.errors ≠ 0 then fatal w (activeModules (parsed env g o w0).1)
        else emitModules env (activeModules (parsed env g o w0).1)
          ((activeModules (parsed env g o w0).1).drop (i + 1)) w K).trace, ?_⟩
    rw [hrun]
    simp [checkErrors]
  · intro herr
    rw [checkErrors_of_ne _ herr] at hrun
    have htrace : (cppmain env g o w0).trace =
        (pre ++ (T ++ [Event.writeModuleDependencyFile])) ++
          Event.codeGenerator :: (t ++ [Event.emit m,
            Event.check CheckSite.afterEmit w.errors w.warnings, Event.fatal]) := by
      rw [hrun]
      simp [fatal]
    refine ⟨by rw [hrun]; rfl, ⟨(pre ++ (T ++ [Event.writeModuleDependencyFile])) ++
      Event.codeGenerator :: t, by rw [htrace]; simp⟩, fun m' hm' => ?_⟩
    have hord := (cppmain_ordered env g o w0).1
    rw [htrace] at hm' hord
    rw [List.pairwise_append] at hord
    rcases List.mem_append.1 hm' with h | h
    · have := hord.2.2 _ h Event.codeGenerator (by simp) 24 23 rfl rfl
      omega
    · simp only [List.mem_cons, reduceCtorEq, false_or, List.mem_append, Event.emit.injEq,
        List.mem_singleton, List.mem_nil_iff, or_false] at h
      rcases h with h | h
      · have := ht m' h
        rw [List.mem_map] at this ⊢
        obtain ⟨c, hc, hcm⟩ := this
        exact ⟨c, List.take_subset_take_left _ (Nat.le_succ i) hc, hcm⟩
      · subst h
        exact List.mem_map.2 ⟨_, mem_take_succ_of_get hi, rfl⟩

/-- Witness for C12 (amended): `-c a.d b.d c.d`, where `CodeGenerator::emit`
reports an error for `b.d` and none for the other modules: `emit` is invoked
on `a.d`, whose check reads zero errors, and on `b.d`; the run ends through
`fatal()` at the check that follows, and `emit` is not invoked for `c.d`. -/
theorem emit_error_is_fatal_witness :
    (emitChecks failingEmitOnBEnv posixGlobal optsThreeModules World.start).map Prod.fst =
      [aModule, bModule, cModule] ∧
    Event.emit aModule ∈
      (cppmain failingEmitOnBEnv posixGlobal optsThreeModules World.start).trace ∧
    (cppmain failingEmitOnBEnv posixGlobal optsThreeModules World.start).exit =
      Exit.fatal ∧
    Event.emit cModule ∉
      (cppmain failingEmitOnBEnv posixGlobal optsThreeModules World.start).trace :=
  ⟨by decide, by decide,
    ((emit_error_is_fatal failingEmitOnBEnv posixGlobal optsThreeModules World.start
      (by decide) (by decide) (by decide) (by decide) 1 bModule
      { errors := 1, warnings := 0, objfiles := [], ext := () } rfl (by decide)).2
      (by decide)).1,
    fun h => absurd
      (((emit_error_is_fatal failingEmitOnBEnv posixGlobal optsThreeModules World.start
        (by decide) (by decide) (by decide) (by decide) 1 bModule
        { errors := 1, warnings := 0, objfiles := [], ext := () } rfl (by decide)).2
        (by decide)).2.2 cModule h) (by decide)⟩

/-! ## A target that is not supported -/

/-- For a Cygwin target, `registerPredefinedVersions` reports the error
"Cygwin is not yet supported" and the run ends through `fatal()` before the
front-end initialisation: no module is created, and the run does not arrive at
the cache check. -/
theorem unsupported_target_is_fatal :
    reachesCacheCheck cygwinEnv posixGlobal optsCached World.start = false ∧
    (cppmain cygwinEnv posixGlobal optsCached World.start).trace =
      [Event.check CheckSite.afterCommandLine 0 0,
        Event.check CheckSite.afterTargetSwitches 0 0, Event.targetSetup,
        Event.addPredefinedGlobalIdent "WEKA", Event.addPredefinedGlobalIdent "LDC",
        Event.addPredefinedGlobalIdent "all", Event.addPredefinedGlobalIdent "D_Version2",
        Event.addPredefinedGlobalIdent "assert", Event.addPredefinedGlobalIdent "X86_64",
        Event.addPredefinedGlobalIdent "D_InlineAsm_X86_64",
        Event.addPredefinedGlobalIdent "D_HardFloat",
        Event.addPredefinedGlobalIdent "LittleEndian", Event.addPredefinedGlobalIdent "D_LP64",
        Event.addPredefinedGlobalIdent "Windows", Event.addPredefinedGlobalIdent "Win64",
        Event.error "Cygwin is not yet supported", Event.fatal] ∧
    (cppmain cygwinEnv posixGlobal optsCached World.start).exit = Exit.fatal := by
  decide

end Ldc
